import Mathlib

/-!
Verification development for the step-driven ES5 interpreter
(`acorn_interpreter.js`: the acorn lexer/parser bundled with the
JS-Interpreter evaluator).  The definitions below are a shallow embedding
of the interpreter's object model, property operations, scope operations,
host/guest bridge and step driver, translated from the source file.

Modelling conventions:
* JS numbers are modelled as `Int` (the claims under study only exercise
  integer values; IEEE-754 specifics are outside the embedded fragment).
* Interpreter objects live in a heap (`List Obj`), object references are
  indices; `Interpreter.Object` field `properties` is an insertion-ordered
  association list carrying the host property attributes
  (writable/enumerable/configurable), because the source manipulates them
  through `Object.defineProperty` on the `properties` map.
* The interpreter part of the source file runs in SLOPPY host mode: the
  `'use strict';` line in the concatenated file is preceded by the acorn
  IIFE statement, hence it is not in the directive prologue and has no
  effect.  Host-level assignment to a non-writable property and host-level
  `delete` of a non-configurable property are therefore silent no-ops and
  never throw; the embedding reproduces that behaviour.
* Host errors (real JS exceptions escaping to the embedder) and guest
  errors (`throwException`, catchable by guest code) are distinguished.
-/

namespace JSI

/-- Guest values: `undefined | null | boolean | number | string | Object`.
Objects are heap references (indices). -/
inductive Value where
  | undef
  | null
  | bool (b : Bool)
  | num (n : Int)
  | str (s : String)
  | obj (id : Nat)
  deriving Repr, DecidableEq

/-- One entry of an object's `properties` map together with its host
property attributes (set through `Object.defineProperty`). -/
structure PropData where
  value : Value
  writable : Bool
  enumerable : Bool
  configurable : Bool
  deriving Repr, DecidableEq

/-- Default attributes of a property created by plain host assignment
`obj.properties[name] = value`. -/
def PropData.plain (v : Value) : PropData :=
  { value := v, writable := true, enumerable := true, configurable := true }

/-- Interpreter.Object: prototype link, ordered property table with
attribute bits, getter/setter maps (function object ids), class tag,
internal data slot, extensibility flag, and the scope-only fields
(`strict`).  Scopes are objects too. -/
structure Obj where
  protoId : Option Nat
  props : List (String × PropData)
  getters : List (String × Nat)
  setters : List (String × Nat)
  cls : String
  data : Option Value
  preventExt : Bool
  strict : Bool
  parentScope : Option Nat
  illegalCtor : Bool
  deriving Repr, DecidableEq

/-- A fresh `new Interpreter.Object(proto)`. -/
def Obj.fresh (proto : Option Nat) : Obj :=
  { protoId := proto, props := [], getters := [], setters := [],
    cls := "Object", data := none, preventExt := false, strict := false,
    parentScope := none, illegalCtor := false }

/-- The object heap; an object reference is an index into this list.
`H[id]?` reads, `H.set id o` updates (a no-op on a dangling index),
appending allocates. -/
abbrev Heap := List Obj

/-- Association-list lookup used for `properties`, `getter` and `setter`
maps (they are `Object.create(null)` maps keyed by strings). -/
def alookup {α : Type} : List (String × α) → String → Option α
  | [], _ => none
  | (k2, v) :: t, k => if k2 = k then some v else alookup t k

/-- Association-list update: overwrites in place, appends a new binding at
the end (host objects preserve insertion order). -/
def aset {α : Type} : List (String × α) → String → α → List (String × α)
  | [], k, v => [(k, v)]
  | (k2, v2) :: t, k, v =>
    if k2 = k then (k2, v) :: t else (k2, v2) :: aset t k v

/-- Association-list removal (`delete map[key]`). -/
def aremove {α : Type} : List (String × α) → String → List (String × α)
  | [], _ => []
  | (k2, v2) :: t, k => if k2 = k then t else (k2, v2) :: aremove t k

/-- Host-level sloppy-mode assignment `obj.properties[name] = value`:
updates a writable property, silently does nothing on a non-writable one
(no exception in sloppy mode), creates the property with default
attributes when absent. -/
def hostSetProp (o : Obj) (name : String) (v : Value) : Obj :=
  match alookup o.props name with
  | some pd =>
    if pd.writable then { o with props := aset o.props name { pd with value := v } }
    else o
  | none => { o with props := o.props ++ [(name, PropData.plain v)] }

/-- Host-level sloppy-mode `delete obj.properties[name]`: removes a
configurable property (result `true`), silently refuses on a
non-configurable one (result `false`, no exception in sloppy mode). -/
def hostDeleteProp (o : Obj) (name : String) : Obj × Bool :=
  match alookup o.props name with
  | some pd =>
    if pd.configurable then ({ o with props := aremove o.props name }, true)
    else (o, false)
  | none => (o, true)

end JSI

namespace JSI

/-- Guest error classes used by `throwException`. -/
inductive ErrKind where
  | typeError
  | rangeError
  | referenceError
  | syntaxError
  deriving Repr, DecidableEq

/-- Error layers: guest errors are catchable by guest `try`, host errors
escape to the embedder (`throw TypeError(...)` in the source); `stuck`
marks exhaustion of the step bound of the embedding or a dangling heap
reference (both unreachable on well-formed heaps, see `ProtoWF`). -/
inductive JErr where
  | guest (k : ErrKind)
  | host (k : ErrKind)
  | stuck
  deriving Repr, DecidableEq

/-- Value of the digit string `ds` read in base 10. -/
def digitsVal (ds : List Char) : Nat :=
  ds.foldl (fun a c => a * 10 + (c.toNat - 48)) 0

/-- Does `s` consist only of decimal digits (and is non-empty)? -/
def allDigits (s : String) : Bool :=
  !s.data.isEmpty && s.data.all Char.isDigit

/-- Canonical decimal form: `s` equals `String(n)` for a natural `n`,
i.e. digits only and no leading zero unless `s = "0"`. -/
def canonicalNat (s : String) : Option Nat :=
  if allDigits s then
    if s.data.head? = some '0' && s.data.length != 1 then none
    else some (digitsVal s.data)
  else none

/-- Faithful rendering of `Interpreter.legalArrayIndex` on strings:
`n = x >>> 0` is returned when `String(n) === String(x)` and
`n !== 0xffffffff`, i.e. the canonical decimal representation of a
natural below 2^32 - 1. -/
def legalArrayIndex (s : String) : Option Nat :=
  match canonicalNat s with
  | some n => if n < 4294967295 then some n else none
  | none => none

/-- Fragment of JS `Number(string)` used by the embedding: the empty
string is 0, canonical decimal integers (optionally negative) convert,
anything else is treated as NaN (`none`).  Exponent/float/hex string
forms are outside the embedded fragment. -/
def jsStringToInt (s : String) : Option Int :=
  if s = "" then some 0
  else if allDigits s then some (Int.ofNat (digitsVal s.data))
  else
    match s.data with
    | '-' :: t =>
      if !t.isEmpty && t.all Char.isDigit then some (-(Int.ofNat (digitsVal t)))
      else none
    | _ => none

/-- Faithful rendering of `Interpreter.legalArrayLength`: `n = x >>> 0`
is returned when `n === Number(x)`, i.e. when `x` converts to an integer
in [0, 2^32).  Objects (whose `ToPrimitive` is outside the fragment)
give NaN. -/
def legalArrayLength (v : Value) : Option Nat :=
  match v with
  | .num n => if 0 ≤ n ∧ n < 4294967296 then some n.toNat else none
  | .bool b => some (if b then 1 else 0)
  | .null => some 0
  | .undef => none
  | .str s =>
    match jsStringToInt s with
    | some n => if 0 ≤ n ∧ n < 4294967296 then some n.toNat else none
    | none => none
  | .obj _ => none

/-- Heap ids of the bootstrap constructors and prototypes that the
translated functions consult (`this.OBJECT_PROTO`, `this.STRING`, ...),
plus the global scope object. -/
structure Env where
  objectProto : Nat
  functionProto : Nat
  arrayProto : Nat
  stringProto : Nat
  numberProto : Nat
  booleanProto : Nat
  errorProto : Nat
  functionCtor : Nat
  arrayCtor : Nat
  stringCtor : Nat
  numberCtor : Nat
  booleanCtor : Nat
  errorCtor : Nat
  regexpProto : Nat
  regexpCtor : Nat
  globalId : Nat
  deriving Repr, DecidableEq

/-- `constructor.properties["prototype"]` as a value. -/
def ctorPrototypeVal (H : Heap) (ctor : Nat) : Value :=
  match H[ctor]? with
  | some o =>
    match alookup o.props "prototype" with
    | some pd => pd.value
    | none => .undef
  | none => .undef

def asObjId : Value → Option Nat
  | .obj id => some id
  | _ => none

/-- `Interpreter.prototype.getPrototype`: primitives box to the matching
built-in prototype (`NUMBER/BOOLEAN/STRING .properties["prototype"]`),
objects follow their `proto` link, `undefined`/`null` have none. -/
def getPrototype (E : Env) (H : Heap) (v : Value) : Option Nat :=
  match v with
  | .num _ => asObjId (ctorPrototypeVal H E.numberCtor)
  | .bool _ => asObjId (ctorPrototypeVal H E.booleanCtor)
  | .str _ => asObjId (ctorPrototypeVal H E.stringCtor)
  | .obj id => H[id]?.bind Obj.protoId
  | _ => none

/-- The `while (child) { if (child === proto) ...; child = child.proto }`
walk of `isa`, starting from an optional object id. -/
def chainContains (H : Heap) : Nat → Option Nat → Nat → Bool
  | _, none, _ => false
  | 0, some _, _ => false
  | fuel + 1, some c, p =>
    if c = p then true
    else
      match H[c]? with
      | some o => chainContains H fuel o.protoId p
      | none => false

/-- `Interpreter.prototype.isa`: does `child`'s prototype chain (starting
with the boxed prototype for primitives) pass through
`constructor.properties["prototype"]`? -/
def isa (E : Env) (H : Heap) (fuel : Nat) (child : Value) (ctor : Nat) : Bool :=
  if child = .null ∨ child = .undef then false
  else
    match ctorPrototypeVal H ctor with
    | .obj p =>
      if child = .obj p then true
      else chainContains H fuel (getPrototype E H child) p
    | _ => false

/-- `String(v)` on the fragment exercised by the embedding: primitives
display canonically, data-boxed objects display their backing primitive,
other objects fall back to the bracketed class form (Array/Error `join`
rendering is outside the fragment, which only applies `String` to
string-class values). -/
def jsDisplay (H : Heap) : Value → String
  | .undef => "undefined"
  | .null => "null"
  | .bool b => if b then "true" else "false"
  | .num n => toString n
  | .str s => s
  | .obj id =>
    match H[id]? with
    | some o =>
      match o.data with
      | some (.str s) => s
      | some (.num n) => toString n
      | some (.bool b) => if b then "true" else "false"
      | _ => "[object " ++ o.cls ++ "]"
    | none => "[object Object]"

/-- Result of a property read: a plain value, or a getter function that
the caller must trampoline (the source flags the returned function with
`isGetter = true`). -/
inductive GetRes where
  | val (v : Value)
  | getterFn (fid : Nat)
  deriving Repr, DecidableEq

/-- The `do {...} while ((obj = this.getPrototype(obj)))` loop of
`getProperty`: find `name` in the property table of `v` or of a prototype
(primitives have no own table and start at their boxed prototype);
a getter found on the way is surfaced for trampolining; chain end yields
`undefined`. -/
def getPropChain (E : Env) (H : Heap) : Nat → Value → String → Except JErr GetRes
  | 0, _, _ => .error .stuck
  | fuel + 1, v, name =>
    let hit : Option GetRes :=
      match v with
      | .obj id =>
        match H[id]? with
        | some o =>
          match alookup o.props name with
          | some pd =>
            match alookup o.getters name with
            | some g => some (.getterFn g)
            | none => some (.val pd.value)
          | none => none
        | none => none
      | _ => none
    match hit with
    | some r => .ok r
    | none =>
      match getPrototype E H v with
      | some p => getPropChain E H fuel (.obj p) name
      | none => .ok (.val .undef)

/-- `Interpreter.prototype.getProperty` (name already stringified):
guest TypeError on `undefined`/`null` base, magic `length` and character
indexing on string-class values, then the prototype-chain walk. -/
def getProperty (E : Env) (H : Heap) (fuel : Nat) (objv : Value)
    (name : String) : Except JErr GetRes :=
  if objv = .undef ∨ objv = .null then .error (.guest .typeError)
  else if name = "length" then
    if isa E H fuel objv E.stringCtor then
      .ok (.val (.num (Int.ofNat (jsDisplay H objv).length)))
    else getPropChain E H fuel objv name
  else
    let headLow :=
      match name.data.head? with
      | some c => c.toNat < 64
      | none => false
    if headLow && isa E H fuel objv E.stringCtor then
      match legalArrayIndex name with
      | some n =>
        if n < (jsDisplay H objv).length then
          match (jsDisplay H objv).data[n]? with
          | some c => .ok (.val (.str (String.mk [c])))
          | none => .error .stuck
        else getPropChain E H fuel objv name
      | none => getPropChain E H fuel objv name
    else getPropChain E H fuel objv name

/-- Membership walk of `hasProperty` over the prototype chain. -/
def hasPropChain (E : Env) (H : Heap) : Nat → Value → String → Except JErr Bool
  | 0, _, _ => .error .stuck
  | fuel + 1, v, name =>
    let hit : Bool :=
      match v with
      | .obj id =>
        match H[id]? with
        | some o => (alookup o.props name).isSome
        | none => false
      | _ => false
    if hit then .ok true
    else
      match getPrototype E H v with
      | some p => hasPropChain E H fuel (.obj p) name
      | none => .ok false

/-- `Interpreter.prototype.hasProperty`: a non-object receiver raises a
HOST TypeError (`Primitive data type has no properties`); otherwise magic
string `length`/indices answer true, then the chain is walked. -/
def hasProperty (E : Env) (H : Heap) (fuel : Nat) (objv : Value)
    (name : String) : Except JErr Bool :=
  match objv with
  | .obj _ =>
    if name == "length" && isa E H fuel objv E.stringCtor then .ok true
    else
      let magicIndex :=
        if isa E H fuel objv E.stringCtor then
          match legalArrayIndex name with
          | some n => decide (n < (jsDisplay H objv).length)
          | none => false
        else false
      if magicIndex then .ok true
      else hasPropChain E H fuel objv name
  | _ => .error (.host .typeError)

end JSI

namespace JSI

/-- Host property descriptor handed to `Object.defineProperty` on the
`properties` map by `setProperty` (data properties only; absent fields
keep the current attribute, or default to `false`/`undefined` on a fresh
property). -/
structure HostDesc where
  value : Option Value := none
  writable : Option Bool := none
  enumerable : Option Bool := none
  configurable : Option Bool := none
  deriving Repr, DecidableEq

/-- Host `Object.defineProperty(obj.properties, name, d)` following the
ES5 `DefineOwnProperty` rules for a data property on an extensible
object; `none` is the host TypeError that `setProperty` converts into a
guest `Cannot redefine property` TypeError. -/
def hostDefineProp (o : Obj) (name : String) (d : HostDesc) : Option Obj :=
  match alookup o.props name with
  | none =>
    let fresh : PropData :=
      { value := d.value.getD .undef,
        writable := d.writable.getD false,
        enumerable := d.enumerable.getD false,
        configurable := d.configurable.getD false }
    some { o with props := o.props ++ [(name, fresh)] }
  | some pd =>
    if pd.configurable then
      let upd : PropData :=
        { value := d.value.getD pd.value,
          writable := d.writable.getD pd.writable,
          enumerable := d.enumerable.getD pd.enumerable,
          configurable := d.configurable.getD pd.configurable }
      some { o with props := aset o.props name upd }
    else if d.configurable = some true then none
    else if (match d.enumerable with
             | some b => b != pd.enumerable
             | none => false) then none
    else if pd.writable then
      let upd : PropData :=
        { value := d.value.getD pd.value,
          writable := d.writable.getD pd.writable,
          enumerable := pd.enumerable,
          configurable := pd.configurable }
      some { o with props := aset o.props name upd }
    else if d.writable = some true then none
    else if (match d.value with
             | some v => decide (v ≠ pd.value)
             | none => false) then none
    else some o

/-- The descriptor argument of the public `setProperty`: for each of the
six recognised options, the outer `Option` records whether the key is
present in the descriptor object; for `get`/`set` the inner `Option` is
the truthiness of the supplied accessor (function object id or not). -/
structure Descriptor where
  getK : Option (Option Nat) := none
  setK : Option (Option Nat) := none
  configurableK : Option Bool := none
  enumerableK : Option Bool := none
  writableK : Option Bool := none
  valueK : Option Value := none
  deriving Repr, DecidableEq

/-- The `Math.max(length, i + 1)` update of an array length property
value (the corrupt non-numeric length case, which would propagate NaN,
is outside the numeric fragment: on the embedded states the length is
always a number). -/
def jsMaxLen (cur : Option PropData) (i1 : Int) : Value :=
  match cur with
  | some pd =>
    match pd.value with
    | .num l => .num (max l i1)
    | _ => .num i1
  | none => .num i1

/-- Truncation loop of an array length assignment:
`for (i in obj.properties) if (legal index and value <= i) delete` —
the sloppy host `delete` silently keeps non-configurable elements. -/
def truncateProps (n : Nat) (props : List (String × PropData)) :
    List (String × PropData) :=
  props.filter (fun kv =>
    match legalArrayIndex kv.1 with
    | some iv => decide (iv < n) || !kv.2.configurable
    | none => true)

/-- The `while (!(name in defObj.properties)) defObj = getPrototype(...)`
walk of the plain-assignment path of `setProperty`; falls back to the
receiver when the chain ends. -/
def findDefObj (H : Heap) (name : String) (obj0 : Nat) :
    Nat → Nat → Option Nat
  | 0, _ => none
  | fuel + 1, cur =>
    match H[cur]? with
    | none => none
    | some o =>
      if (alookup o.props name).isSome then some cur
      else
        match o.protoId with
        | some p => findDefObj H name obj0 fuel p
        | none => some obj0

/-- The Array-magic paragraph of `setProperty`: a length assignment is
converted through `legalArrayLength` (RangeError when illegal) and
truncates indices at or above the new length (host sloppy delete: a
non-configurable element silently survives); an element assignment
grows `length` to `max(length, i + 1)` through a host assignment.  The
returned value is the (possibly length-converted) value to write. -/
def arrayMagic (o : Obj) (name : String) (value : Option Value) :
    Except JErr (Obj × Option Value) :=
  if o.cls = "Array" then
    if name = "length" then
      match (match value with
             | some v => legalArrayLength v
             | none => none) with
      | none => .error (.guest .rangeError)
      | some n =>
        let o1 :=
          if (match alookup o.props "length" with
              | some pd =>
                match pd.value with
                | .num l => decide ((n : Int) < l)
                | _ => false
              | none => false) then
            { o with props := truncateProps n o.props }
          else o
        .ok (o1, some (.num (Int.ofNat n)))
    else
      match legalArrayIndex name with
      | some i =>
        .ok (hostSetProp o "length"
              (jsMaxLen (alookup o.props "length") (Int.ofNat (i + 1))),
          value)
      | none => .ok (o, value)
  else .ok (o, value)

/-- The `// Define the property.` paragraph of `setProperty`: update the
getter/setter maps from the descriptor, drop them when a value or
writability is given, and define the data property through the host
`Object.defineProperty`, converting its failure into a guest
`Cannot redefine property` TypeError. -/
def definePart (H1 : Heap) (id : Nat) (o1 : Obj) (name : String)
    (value1 : Option Value) (d : Descriptor) :
    Except JErr (Heap × Option Nat) :=
  let g1 :=
    match d.getK with
    | some (some g) => aset o1.getters name g
    | some none => aremove o1.getters name
    | none => o1.getters
  let s1 :=
    match d.setK with
    | some (some s) => aset o1.setters name s
    | some none => aremove o1.setters name
    | none => o1.setters
  let removeAcc := d.writableK.isSome || d.valueK.isSome || value1.isSome
  let g2 := if removeAcc then aremove g1 name else g1
  let s2 := if removeAcc then aremove s1 name else s1
  let hd : HostDesc :=
    { value :=
        match d.valueK with
        | some v => some v
        | none => value1,
      writable := d.writableK,
      enumerable := d.enumerableK,
      configurable := d.configurableK }
  let o2 := { o1 with getters := g2, setters := s2 }
  match hostDefineProp o2 name hd with
  | some o3 => .ok (H1.set id o3, none)
  | none => .error (.guest .typeError)

/-- The `// Set the property.` paragraph of `setProperty`: reject the
`VALUE_IN_DESCRIPTOR` sentinel (host ReferenceError), find the defining
object along the prototype chain, surface a setter for trampolining,
silently skip (or throw in strict mode) a getter-only property, and
otherwise perform the sloppy host assignment on the RECEIVER (the
strict-mode readonly TypeError of the source is dead code, see
`hostSetProp`). -/
def assignPart (E : Env) (H1 : Heap) (fuel : Nat) (id : Nat) (o1 : Obj)
    (name : String) (value1 : Option Value) (strict : Bool) :
    Except JErr (Heap × Option Nat) :=
  match value1 with
  | none => .error (.host .referenceError)
  | some v =>
    match findDefObj H1 name id fuel id with
    | none => .error .stuck
    | some defId =>
      match H1[defId]? with
      | none => .error .stuck
      | some defO =>
        match alookup defO.setters name with
        | some sid => .ok (H1, some sid)
        | none =>
          match alookup defO.getters name with
          | some _ =>
            if strict then .error (.guest .typeError)
            else .ok (H1, none)
          | none =>
            .ok (H1.set id (hostSetProp o1 name v), none)

/-- `Interpreter.prototype.setProperty` (name already stringified).
`value = none` is the `VALUE_IN_DESCRIPTOR` sentinel.  Returns the
updated heap and, on the plain-assignment path, the setter function that
the evaluator must trampoline.  `strict` is the strict flag of the
current scope. -/
def setProperty (E : Env) (H : Heap) (fuel : Nat) (objv : Value)
    (name : String) (value : Option Value) (desc : Option Descriptor)
    (strict : Bool) : Except JErr (Heap × Option Nat) :=
  if objv = .undef ∨ objv = .null then .error (.guest .typeError)
  else if (match desc with
           | some d => (d.getK.isSome || d.setK.isSome) &&
                       (d.valueK.isSome || d.writableK.isSome)
           | none => false) then .error (.guest .typeError)
  else
    match objv with
    | .obj id =>
      match H[id]? with
      | none => .error .stuck
      | some o =>
        if isa E H fuel objv E.stringCtor &&
           (name == "length" ||
            (match legalArrayIndex name with
             | some n => decide (n < (jsDisplay H objv).length)
             | none => false)) then
          if strict then .error (.guest .typeError) else .ok (H, none)
        else
          match arrayMagic o name value with
          | .error e => .error e
          | .ok (o1, value1) =>
            let H1 := H.set id o1
            if o1.preventExt && !(alookup o1.props name).isSome then
              if strict then .error (.guest .typeError) else .ok (H1, none)
            else
              match desc with
              | some d => definePart H1 id o1 name value1 d
              | none => assignPart E H1 fuel id o1 name value1 strict
    | _ =>
      -- Primitive receiver: silent in sloppy guest mode, guest TypeError
      -- in strict guest mode.
      if strict then .error (.guest .typeError) else .ok (H, none)

end JSI

namespace JSI

/-- Update the `class` tag of the object at `id` (`obj.class = ...`). -/
def setCls (H : Heap) (id : Nat) (c : String) : Heap :=
  match H[id]? with
  | some o => H.set id { o with cls := c }
  | none => H

/-- `Interpreter.prototype.createObjectProto`: allocate a fresh object on
the given prototype; objects that `isa` Function get a `prototype`
property (a fresh object on `OBJECT_PROTO`) and the Function class,
objects that `isa` Array get `length = 0` (configurable:false,
enumerable:false, writable:true) and the Array class, objects that `isa`
Error get the Error class. -/
def createObjectProto (E : Env) (strict : Bool) :
    Nat → Heap → Option Nat → Except JErr (Heap × Nat)
  | 0, _, _ => .error .stuck
  | fuel + 1, H, proto => do
    let id := H.length
    let H1 : Heap := H ++ [Obj.fresh proto]
    let H2 ←
      if isa E H1 (H1.length + 1) (.obj id) E.functionCtor then do
        let (Ha, pid) ← createObjectProto E strict fuel H1 (some E.objectProto)
        let (Hb, _) ← setProperty E Ha (Ha.length + 1) (.obj id) "prototype"
          (some (.obj pid)) none strict
        pure (setCls Hb id "Function")
      else pure H1
    let H3 ←
      if isa E H2 (H2.length + 1) (.obj id) E.arrayCtor then do
        let lenDesc : Descriptor :=
          { configurableK := some false, enumerableK := some false,
            writableK := some true }
        let (Hc, _) ← setProperty E H2 (H2.length + 1) (.obj id) "length"
          (some (.num 0)) (some lenDesc) strict
        pure (setCls Hc id "Array")
      else pure H2
    let H4 :=
      if isa E H3 (H3.length + 1) (.obj id) E.errorCtor then setCls H3 id "Error"
      else H3
    pure (H4, id)

/-- `Interpreter.prototype.createObject`: a fresh object on
`constructor.properties["prototype"]` (a non-object prototype value
degrades to a missing prototype in the model; the claims only exercise
object prototypes). -/
def createObject (E : Env) (strict : Bool) (fuel : Nat) (H : Heap)
    (ctor : Nat) : Except JErr (Heap × Nat) :=
  createObjectProto E strict fuel H (asObjId (ctorPrototypeVal H ctor))

/-- `Interpreter.prototype.getValueFromScope`: walk the scope chain for
`name`; the global scope is consulted prototype-aware through
`hasProperty`/`getProperty`; an undefined identifier yields `undefined`
under a `typeof` parent and a guest ReferenceError otherwise. -/
def getValueFromScope (E : Env) (H : Heap) (fuel0 : Nat)
    (typeofCtx : Bool) (name : String) :
    Nat → Option Nat → Except JErr GetRes
  | 0, _ => .error .stuck
  | _ + 1, none =>
    if typeofCtx then .ok (.val .undef)
    else .error (.guest .referenceError)
  | fuel + 1, some cur =>
    if cur = E.globalId then
      match hasProperty E H fuel0 (.obj cur) name with
      | .error e => .error e
      | .ok true => getProperty E H fuel0 (.obj cur) name
      | .ok false =>
        if typeofCtx then .ok (.val .undef)
        else .error (.guest .referenceError)
    else
      match H[cur]? with
      | none => .error .stuck
      | some o =>
        match alookup o.props name with
        | some pd => .ok (.val pd.value)
        | none => getValueFromScope E H fuel0 typeofCtx name fuel o.parentScope

/-- Inner walk of `setValueToScope`: `while (scope && scope !== global)`
with a direct (host, sloppy) write into the first scope whose property
table holds `name`; at the global scope a non-strict context or a
prototype-aware hit dispatches to `setProperty`, otherwise a guest
ReferenceError is thrown (`strict` stays the strict flag of the scope the
walk started from). -/
def setValueToScopeWalk (E : Env) (H : Heap) (fuel0 : Nat) (strict : Bool)
    (name : String) (value : Value) :
    Nat → Option Nat → Except JErr (Heap × Option Nat)
  | 0, _ => .error .stuck
  | _ + 1, none => .error (.guest .referenceError)
  | fuel + 1, some cur =>
    if cur = E.globalId then
      if !strict then setProperty E H fuel0 (.obj cur) name (some value) none strict
      else
        match hasProperty E H fuel0 (.obj cur) name with
        | .error e => .error e
        | .ok true => setProperty E H fuel0 (.obj cur) name (some value) none strict
        | .ok false => .error (.guest .referenceError)
    else
      match H[cur]? with
      | none => .error .stuck
      | some o =>
        if (alookup o.props name).isSome then
          .ok (H.set cur (hostSetProp o name value), none)
        else setValueToScopeWalk E H fuel0 strict name value fuel o.parentScope

/-- `Interpreter.prototype.setValueToScope` starting from the current
scope `scope0` (whose `strict` flag governs the global fallback). -/
def setValueToScope (E : Env) (H : Heap) (fuel : Nat) (scope0 : Nat)
    (name : String) (value : Value) : Except JErr (Heap × Option Nat) :=
  match H[scope0]? with
  | none => .error .stuck
  | some o0 =>
    setValueToScopeWalk E H fuel o0.strict name value fuel (some scope0)

/-- A components tuple `[base, name]` left by an evaluation with
`components` set: a scope reference `[SCOPE_REFERENCE, name]` or an
object/property pair (property names are stringified at the use sites
in the source and arrive here as strings). -/
inductive Ref where
  | scopeRef (name : String)
  | propRef (base : Value) (name : String)
  deriving Repr, DecidableEq

/-- The `delete` arm of `stepUnaryExpression`: a non-tuple operand
answers `true` outright; on a tuple the host-level
`delete obj.properties[name]` runs in sloppy mode, so it NEVER throws
and its `false` result for a non-configurable property is discarded: the
guest always receives `true` and the `catch` that would produce `false`
(or a strict-mode guest TypeError) is dead code.  A primitive base does
reach the `catch`: `obj.properties` is `undefined` and indexing it
throws. -/
def stepDelete (H : Heap) (scopeId : Nat) (strict : Bool)
    (operand : Option Ref) : Except JErr (Heap × Value) :=
  match operand with
  | none => .ok (H, .bool true)
  | some (.scopeRef name) =>
    match H[scopeId]? with
    | none => .error .stuck
    | some o => .ok (H.set scopeId (hostDeleteProp o name).1, .bool true)
  | some (.propRef base name) =>
    match base with
    | .obj id =>
      match H[id]? with
      | none => .error .stuck
      | some o => .ok (H.set id (hostDeleteProp o name).1, .bool true)
    | _ =>
      if strict then .error (.guest .typeError)
      else .ok (H, .bool false)

end JSI

namespace JSI

/-- The `value` slot of an evaluator frame: sub-expressions evaluated
with `components` leave a reference tuple there, plain evaluations leave
a value. -/
inductive VR where
  | v (x : Value)
  | r (x : Ref)
  deriving Repr, DecidableEq

/-- Scratch state of a `stepAssignmentExpression` frame
(`doneLeft_`, `doneRight_`, `doneGetter_`, `doneSetter_`,
`leftReference_`, `leftValue_`, `value`). -/
structure AssignFrame where
  doneLeft : Bool := false
  doneRight : Bool := false
  doneGetter : Bool := false
  doneSetter : Option Value := none
  leftReference : Option Ref := none
  leftValue : Value := .undef
  value : VR := .v .undef
  deriving Repr, DecidableEq

/-- What one invocation of the assignment handler does to the stack:
push the left-hand side (with `components`), push a getter or setter
trampoline frame (`createGetter_` / `createSetter_`), push the
right-hand side, or pop with a result. -/
inductive AssignAction where
  | pushLeft
  | pushGetter (fid : Nat) (r : Ref)
  | pushRight
  | pushSetter (fid : Nat) (funcThis : Value) (arg : Value)
  | finish (result : Value)
  deriving Repr, DecidableEq

/-- The `this` binding that `createSetter_` gives a setter trampoline:
`Array.isArray(left) ? left[0] : this.global`; a reference is always a
tuple here, so a property reference contributes its base (for a scope
reference the source passes the `SCOPE_REFERENCE` sentinel object, which
the model leaves abstract as `undef`; the claims only exercise property
references). -/
def setterThis : Ref → Value
  | .scopeRef _ => .undef
  | .propRef base _ => base

/-- The compound-assignment arithmetic of `stepAssignmentExpression`
(`value op= rightValue`) on the fragment the claims exercise: plain `=`
and the integer cases of `+= -= *=`; the remaining operators involve
IEEE-754/coercion semantics outside the embedded fragment and are mapped
to `none` (treated as outside the model by the driver). -/
def applyAssignOp (op : String) (a b : Value) : Option Value :=
  if op = "=" then some b
  else
    match op, a, b with
    | "+=", .num x, .num y => some (.num (x + y))
    | "-=", .num x, .num y => some (.num (x - y))
    | "*=", .num x, .num y => some (.num (x * y))
    | _, _, _ => none

/-- `Interpreter.prototype.getValue`: dispatch a reference tuple to the
scope chain or to `getProperty`. -/
def getValueRef (E : Env) (H : Heap) (fuel : Nat) (scope0 : Nat)
    (typeofCtx : Bool) : Ref → Except JErr GetRes
  | .scopeRef name => getValueFromScope E H fuel typeofCtx name fuel (some scope0)
  | .propRef base name => getProperty E H fuel base name

/-- `Interpreter.prototype.setValue`: dispatch a reference tuple to
`setValueToScope` or `setProperty`; returns a setter id when a setter
trampoline must be run. -/
def setValueRef (E : Env) (H : Heap) (fuel : Nat) (scope0 : Nat)
    (strict : Bool) : Ref → Value → Except JErr (Heap × Option Nat)
  | .scopeRef name, v => setValueToScope E H fuel scope0 name v
  | .propRef base name, v => setProperty E H fuel base name (some v) none strict

/-- Host truthiness of a guest value stored in a state slot (the
`if (state.doneSetter_)` test): guest primitives are stored as raw host
primitives, so `undefined`, `null`, `false`, `0` and the empty string
are falsy, while interpreter objects are host objects and always
truthy. -/
def hostTruthy : Value → Bool
  | .undef => false
  | .null => false
  | .bool b => b
  | .num n => n != 0
  | .str s => s != ""
  | .obj _ => true

/-- The tail of `stepAssignmentExpression` below the `doneSetter_`
check: the operator switch (`value op= rightValue`) followed by the
`setValue` write, which either finishes the frame or schedules a setter
trampoline, recording the written value in `doneSetter_`. -/
def assignApplyWrite (E : Env) (H : Heap) (fuel : Nat) (op : String)
    (strict : Bool) (scope0 : Nat) (st : AssignFrame) :
    Except JErr (Heap × AssignFrame × AssignAction) :=
  match st.value with
  | .r _ => .error .stuck
  | .v rightValue =>
    match applyAssignOp op st.leftValue rightValue with
    | none => .error .stuck
    | some value =>
      match st.leftReference with
      | none => .error .stuck
      | some r =>
        match setValueRef E H fuel scope0 strict r value with
        | .error e => .error e
        | .ok (H1, some sid) =>
          .ok (H1, { st with doneSetter := some value },
               .pushSetter sid (setterThis r) value)
        | .ok (H1, none) => .ok (H1, st, .finish value)

/-- One invocation of `stepAssignmentExpression` on its frame state,
returning the updated heap, the updated frame and the stack action.
Phases: evaluate the left reference; (for compound operators) read the
old value, possibly through a getter trampoline; evaluate the right
operand; apply the operator; write through `setValue`, possibly
scheduling a setter trampoline.  On re-entry after the trampoline the
source tests `if (state.doneSetter_)` — host TRUTHINESS of the stored
assigned value, not its presence — and only then pops with the original
set value, discarding the setter's return value; a falsy stored value
falls through and re-runs the operator switch on the setter's return
value (which sits in `state.value`). -/
def stepAssignmentExpression (E : Env) (H : Heap) (fuel : Nat)
    (op : String) (strict : Bool) (scope0 : Nat) (st : AssignFrame) :
    Except JErr (Heap × AssignFrame × AssignAction) :=
  if !st.doneLeft then
    .ok (H, { st with doneLeft := true }, .pushLeft)
  else if !st.doneRight then
    match (match st.leftReference with
           | none =>
             match st.value with
             | .r r => some { st with leftReference := some r }
             | .v _ => none
           | some _ => some st) with
    | none => .error .stuck
    | some st1 =>
      let st2 :=
        if st1.doneGetter then
          match st1.value with
          | .v x => { st1 with leftValue := x }
          | .r _ => st1
        else st1
      if !st2.doneGetter && op != "=" then
        match st2.leftReference with
        | none => .error .stuck
        | some r =>
          match getValueRef E H fuel scope0 false r with
          | .error e => .error e
          | .ok (.getterFn g) =>
            .ok (H, { st2 with leftValue := .obj g, doneGetter := true },
                 .pushGetter g r)
          | .ok (.val lv) =>
            .ok (H, { st2 with leftValue := lv, doneRight := true }, .pushRight)
      else
        .ok (H, { st2 with doneRight := true }, .pushRight)
  else
    match st.doneSetter with
    | some setv =>
      if hostTruthy setv then
        -- `if (state.doneSetter_)` holds: the setter method completed
        -- and the stored set value is truthy; pop, ignoring the
        -- setter's return value in favour of the original set value.
        .ok (H, st, .finish setv)
      else
        -- a falsy stored set value fails the truthiness test and the
        -- assignment re-runs the switch on the setter's return value
        assignApplyWrite E H fuel op strict scope0 st
    | none => assignApplyWrite E H fuel op strict scope0 st

/-- Drive an AssignmentExpression frame to completion: after each pushed
sub-frame the oracle `orc` supplies the result that the sub-evaluation
writes back into the frame's `value` slot.  Produces the sequence of
stack actions and the value written to the parent frame. -/
def assignRun (E : Env) (fuel : Nat) (op : String) (strict : Bool)
    (scope0 : Nat) (orc : AssignAction → VR) :
    Nat → Heap → AssignFrame → Except JErr (Heap × List AssignAction × Value)
  | 0, _, _ => .error .stuck
  | n + 1, H, st =>
    match stepAssignmentExpression E H fuel op strict scope0 st with
    | .error e => .error e
    | .ok (H1, st1, a) =>
      match a with
      | .finish v => .ok (H1, [.finish v], v)
      | _ =>
        match assignRun E fuel op strict scope0 orc n H1
          { st1 with value := orc a } with
        | .error e => .error e
        | .ok (H2, acts, v) => .ok (H2, a :: acts, v)

/-- Host-level `typeof v === "object"` on guest values: true exactly for
interpreter objects and `null`. -/
def valueTypeofObject : Value → Bool
  | .null => true
  | .obj _ => true
  | _ => false

/-- The `NewExpression` arm of the argument phase of
`stepCallExpression`: an `illegalConstructor` function raises a guest
TypeError, otherwise `this` becomes a fresh object created on
`func.properties["prototype"]` (`createObject`) and the frame is marked
`isConstructor`. -/
def stepNewDetermineThis (E : Env) (H : Heap) (fuel : Nat) (strict : Bool)
    (funcId : Nat) : Except JErr (Heap × Nat) :=
  match H[funcId]? with
  | none => .error .stuck
  | some f =>
    if f.illegalCtor then .error (.guest .typeError)
    else createObject E strict fuel H funcId

/-- The completion arm of `stepCallExpression`: the caller receives the
callee frame's value, except that a construct invocation whose result is
not of host typeof "object" receives the constructed `this` instead. -/
def stepCallComplete (isCtor : Bool) (retVal : Value) (funcThis : Value) :
    Value :=
  if isCtor && !(valueTypeofObject retVal) then funcThis else retVal

end JSI

namespace JSI

namespace Driver

/-- The two node fields that `Interpreter.prototype.step` reads before
dispatching: the `type` tag and the `end` offset (absent on polyfill
nodes, whose frames are stepped through transparently). -/
structure DNode where
  type : String
  endP : Option Nat
  deriving Repr, DecidableEq

/-- The two frame fields that the step driver reads: the frame's node
and its `done` flag (only meaningful on the Program frame). -/
structure DFrame where
  node : DNode
  done : Bool
  deriving Repr, DecidableEq

/-- Full interpreter state as seen by `step`/`run`: the frame stack (top
frame first; the source keeps the top at the array end), the `paused_`
flag, and everything else the node handlers touch (scopes, object graph,
the `value` field, and the observable trace of side effects), abstracted
into a `world` of arbitrary type `W`. -/
structure DState (W : Type) where
  stack : List DFrame
  paused : Bool
  world : W

/-- A node handler battery `stepFunctions_`: given the whole state it
returns the whole updated state (covering frame mutation, pushes, pops,
heap effects, and `paused_` changes by async function wrappers). -/
def Handlers (W : Type) : Type := DState W → DState W

/-- `Interpreter.prototype.step`: no frame means no work (`false`); a
finished Program frame on top means done (`false`); otherwise `paused_`
short-circuits with `true` and NOTHING else happens; otherwise the
handler for the top node runs and, when that node lacks an `end`
(polyfill code), the driver immediately re-enters itself.  The re-entry
is bounded by `fuel` (the source would loop on non-terminating polyfill
code). -/
def stepD {W : Type} (h : Handlers W) : Nat → DState W → Option (Bool × DState W)
  | fuel, s =>
    match s.stack with
    | [] => some (false, s)
    | fr :: _ =>
      if fr.node.type = "Program" ∧ fr.done then some (false, s)
      else if s.paused then some (true, s)
      else
        let s2 := h s
        match fr.node.endP with
        | some _ => some (true, s2)
        | none =>
          match fuel with
          | 0 => none
          | f + 1 => stepD h f s2

/-- `Interpreter.prototype.run`:
`while (!this.paused_ && this.step()) {}; return this.paused_;`. -/
def runD {W : Type} (h : Handlers W) : Nat → DState W → Option (Bool × DState W)
  | fuel, s =>
    if s.paused then some (true, s)
    else
      match stepD h fuel s with
      | none => none
      | some (false, s2) => some (s2.paused, s2)
      | some (true, s2) =>
        match fuel with
        | 0 => none
        | f + 1 => runD h f s2

/-- The host loop `while (interp.step()) {}`: call `step` until it
returns false, keeping the final state. -/
def stepUntilFalse {W : Type} (h : Handlers W) :
    Nat → DState W → Option (DState W)
  | fuel, s =>
    match stepD h fuel s with
    | none => none
    | some (false, s2) => some s2
    | some (true, s2) =>
      match fuel with
      | 0 => none
      | f + 1 => stepUntilFalse h f s2

end Driver

end JSI

namespace JSI

namespace Lex

/-- `readInt(10)` as used by `readNumber`: consume a maximal run of
decimal digits, reporting the consumed digits and the rest (`none`
consumed digits corresponds to the source's `null` return). -/
def readDigits (s : List Char) : List Char × List Char :=
  (s.takeWhile Char.isDigit, s.dropWhile Char.isDigit)

/-- ASCII fragment of acorn's `isIdentifierStart` (the Unicode
`ID_Start` table is outside the embedded fragment; the claims only need
ASCII). -/
def isIdentStart (c : Char) : Bool :=
  c = '$' || c = '_' || c.isAlpha

/-- Value of a digit run read in base 8 (`parseInt(str, 8)` on a string
of octal digits). -/
def octalVal (ds : List Char) : Nat :=
  ds.foldl (fun a c => a * 8 + (c.toNat - 48)) 0

/-- A number token: `parseInt` results carry their integer value;
`parseFloat` results keep the raw slice (their IEEE-754 value is outside
the embedded fragment and no claim consults it). -/
inductive NumTok where
  | intNum (val : Nat)
  | floatNum (raw : String)
  deriving Repr, DecidableEq

/-- The `var str = input.slice(start, tokPos)` classification tail of
`readNumber`: floats go to `parseFloat`; a multi-digit literal with a
leading zero is a legacy octal literal, rejected when it contains an 8
or 9 digit OR when in strict mode, and otherwise parsed in base 8;
everything else is parsed in base 10. -/
def readNumberFinish (strict : Bool) (octal : Bool) (isFloat : Bool)
    (slice : List Char) (rest : List Char) :
    Except String (NumTok × List Char) :=
  if isFloat then .ok (.floatNum (String.mk slice), rest)
  else if !octal || slice.length = 1 then .ok (.intNum (digitsVal slice), rest)
  else if slice.any (fun c => c = '8' || c = '9') || strict then
    .error "Invalid number"
  else .ok (.intNum (octalVal slice), rest)

/-- acorn's `readNumber(startsWithDot)` on the remaining input:
leading-zero detection (`octal`), integer part, fractional part,
exponent, the identifier-adjacency check, and the classification tail
`readNumberFinish`. -/
def readNumber (strict : Bool) (startsWithDot : Bool) (input : List Char) :
    Except String (NumTok × List Char) :=
  let octal := input.head? = some '0'
  let (d1, r1) := if startsWithDot then ([], input) else readDigits input
  if !startsWithDot && d1.isEmpty then .error "Invalid number"
  else
    let dotPart : Option (List Char × List Char) :=
      match r1 with
      | '.' :: t =>
        let (ds, rr) := readDigits t
        some ('.' :: ds, rr)
      | _ => none
    let frac := (dotPart.map Prod.fst).getD []
    let r2 := (dotPart.map Prod.snd).getD r1
    let isFloat1 := dotPart.isSome
    let expStep : Except String (List Char × List Char × Bool) :=
      match r2 with
      | c :: t =>
        if c = 'e' || c = 'E' then
          let (sgn, t2) :=
            match t with
            | s :: t2 => if s = '+' || s = '-' then ([s], t2) else ([], t)
            | [] => ([], [])
          let (ds, rr) := readDigits t2
          if ds.isEmpty then .error "Invalid number"
          else .ok (c :: (sgn ++ ds), rr, true)
        else .ok ([], r2, isFloat1)
      | [] => .ok ([], r2, isFloat1)
    match expStep with
    | .error e => .error e
    | .ok (expPart, rest, isFloat) =>
      match rest.head? with
      | some c =>
        if isIdentStart c then .error "Identifier directly after number"
        else
          readNumberFinish strict octal isFloat (d1 ++ frac ++ expPart) rest
      | none => readNumberFinish strict octal isFloat (d1 ++ frac ++ expPart) rest

end Lex

end JSI

namespace JSI

/-- Native (host) values of the JSON fragment handled by the bridge:
primitives, arrays, and plain objects.  The RegExp and Function branches
of `nativeToPseudo` wrap host objects that have no counterpart in the
embedding and are outside this fragment. -/
inductive NativeVal where
  | undefV
  | nullV
  | boolV (b : Bool)
  | numV (n : Int)
  | strV (s : String)
  | arrV (elems : List NativeVal)
  | objV (fields : List (String × NativeVal))
  deriving Repr

/-- The native graph produced by `pseudoToNative`, written as a tree with
explicit back-edges: `cycleT i` is `cycles.native[i]`, a reference to the
native object being built for the i-th entry of the current conversion
stack (an ancestor of the current node); `dataT` is the backing `data`
slot returned for RegExp-class objects; array entries failing the
`hasProperty` test are holes (`none`). -/
inductive NTree where
  | undefT
  | nullT
  | boolT (b : Bool)
  | numT (n : Int)
  | strT (s : String)
  | dataT (d : Option Value)
  | arrT (elems : List (Option NTree))
  | objT (fields : List (String × NTree))
  | cycleT (i : Nat)
  deriving Repr

mutual

/-- The tree a JSON-shaped native value converts to (dense arrays, no
back-edges). -/
def toNTree : NativeVal → NTree
  | .undefV => .undefT
  | .nullV => .nullT
  | .boolV b => .boolT b
  | .numV n => .numT n
  | .strV s => .strT s
  | .arrV elems => .arrT (toNTreeList elems)
  | .objV fields => .objT (toNTreeFields fields)

/-- Element images under `toNTree` (dense: every index present). -/
def toNTreeList : List NativeVal → List (Option NTree)
  | [] => []
  | e :: t => some (toNTree e) :: toNTreeList t

/-- Field images under `toNTree`. -/
def toNTreeFields : List (String × NativeVal) → List (String × NTree)
  | [] => []
  | kv :: t => (kv.1, toNTree kv.2) :: toNTreeFields t

end

mutual

/-- JSON-shaped: arrays respect the host array length bound (indices are
legal), object keys are distinct (host objects cannot repeat keys). -/
def JSONShaped : NativeVal → Prop
  | .arrV elems => elems.length ≤ 4294967295 ∧ JSONShapedList elems
  | .objV fields => (fields.map Prod.fst).Nodup ∧ JSONShapedFields fields
  | _ => True

/-- All list elements are JSON-shaped. -/
def JSONShapedList : List NativeVal → Prop
  | [] => True
  | e :: t => JSONShaped e ∧ JSONShapedList t

/-- All field values are JSON-shaped. -/
def JSONShapedFields : List (String × NativeVal) → Prop
  | [] => True
  | kv :: t => JSONShaped kv.2 ∧ JSONShapedFields t

end

mutual

/-- `Interpreter.prototype.nativeToPseudo` on the JSON fragment:
primitives pass through; an array becomes a fresh object on
`ARRAY_PROTO` with its elements set index by index through
`setProperty`; a plain object becomes a fresh object on `OBJECT_PROTO`
with its fields set key by key. -/
def nativeToPseudo (E : Env) (strict : Bool) (H : Heap) :
    NativeVal → Except JErr (Heap × Value)
  | .undefV => .ok (H, .undef)
  | .nullV => .ok (H, .null)
  | .boolV b => .ok (H, .bool b)
  | .numV n => .ok (H, .num n)
  | .strV s => .ok (H, .str s)
  | .arrV elems => do
    let (H1, id) ← createObjectProto E strict (H.length + 1) H (some E.arrayProto)
    let H2 ← natElems E strict id 0 H1 elems
    pure (H2, .obj id)
  | .objV fields => do
    let (H1, id) ← createObjectProto E strict (H.length + 1) H (some E.objectProto)
    let H2 ← natFields E strict id H1 fields
    pure (H2, .obj id)

/-- The element loop of the array branch of `nativeToPseudo`
(`this.setProperty(pseudoObj, i, this.nativeToPseudo(nativeObj[i]))`;
the model's arrays are dense, so the `i in nativeObj` test holds). -/
def natElems (E : Env) (strict : Bool) (id : Nat) (i : Nat) (H : Heap) :
    List NativeVal → Except JErr Heap
  | [] => .ok H
  | e :: t => do
    let (H1, v) ← nativeToPseudo E strict H e
    let (H2, _) ← setProperty E H1 (H1.length + 1) (.obj id) (toString i)
      (some v) none strict
    natElems E strict id (i + 1) H2 t

/-- The key loop of the object branch of `nativeToPseudo`. -/
def natFields (E : Env) (strict : Bool) (id : Nat) (H : Heap) :
    List (String × NativeVal) → Except JErr Heap
  | [] => .ok H
  | kv :: t => do
    let (H1, v) ← nativeToPseudo E strict H kv.2
    let (H2, _) ← setProperty E H1 (H1.length + 1) (.obj id) kv.1
      (some v) none strict
    natFields E strict id H2 t

end

/-- `cycles.pseudo.indexOf(pseudoObj)`. -/
def stackIdx : List Nat → Nat → Option Nat
  | [], _ => none
  | x :: t, a => if x = a then some 0 else (stackIdx t a).map (· + 1)

mutual

/-- `Interpreter.prototype.pseudoToNative`: primitives pass through;
RegExp-class objects return their backing `data`; an object already on
the conversion stack yields a back-edge to its (in-progress) native
counterpart; otherwise Array-class objects are rebuilt index by index
below their `length` (skipping indices that fail `hasProperty`) and
other objects are rebuilt from their own enumerable properties, with the
object pushed on the stack around the recursion (the source pops it
afterwards, so only path-ancestors are shared).  `fuel` bounds the
recursion depth (the source recursion depth is bounded because every
recursive call pushes a fresh object onto the stack). -/
def pseudoToNative (E : Env) : Nat → Heap → Value → List Nat →
    Except JErr NTree
  | 0, _, _, _ => .error .stuck
  | fuel + 1, H, v, stack =>
    match v with
    | .undef => .ok .undefT
    | .null => .ok .nullT
    | .bool b => .ok (.boolT b)
    | .num n => .ok (.numT n)
    | .str s => .ok (.strT s)
    | .obj id =>
      if isa E H (H.length + 1) v E.regexpCtor then
        .ok (.dataT (H[id]?.bind Obj.data))
      else
        match stackIdx stack id with
        | some i => .ok (.cycleT i)
        | none =>
          let stack1 := stack ++ [id]
          if isa E H (H.length + 1) v E.arrayCtor then
            match getProperty E H (H.length + 1) v "length" with
            | .error e => .error e
            | .ok gr =>
              -- non-numeric length values (possible only on corrupted
              -- arrays) are outside the numeric fragment
              let len : Nat :=
                match gr with
                | .val (.num n) => n.toNat
                | _ => 0
              match pseudoElems E fuel H id stack1 0 len with
              | .error e => .error e
              | .ok elems => .ok (.arrT elems)
          else
            match pseudoFields E fuel H id stack1
              ((H[id]?.map Obj.props).getD []) with
            | .error e => .error e
            | .ok fields => .ok (.objT fields)

/-- The `for (var i = 0; i < length; i++)` loop of the array branch:
`count` is the number of remaining indices. -/
def pseudoElems (E : Env) (fuel : Nat) (H : Heap) (id : Nat)
    (stack1 : List Nat) (i : Nat) : Nat → Except JErr (List (Option NTree))
  | 0 => .ok []
  | count + 1 =>
    match hasProperty E H (H.length + 1) (.obj id) (toString i) with
    | .error e => .error e
    | .ok false =>
      match pseudoElems E fuel H id stack1 (i + 1) count with
      | .error e => .error e
      | .ok rest => .ok (none :: rest)
    | .ok true =>
      match getProperty E H (H.length + 1) (.obj id) (toString i) with
      | .error e => .error e
      | .ok gr =>
        -- a getter hit surfaces the flagged getter function object
        -- itself, which the source then converts as a plain object
        let childV : Value :=
          match gr with
          | .val w => w
          | .getterFn g => .obj g
        match pseudoToNative E fuel H childV stack1 with
        | .error e => .error e
        | .ok t =>
          match pseudoElems E fuel H id stack1 (i + 1) count with
          | .error e => .error e
          | .ok rest => .ok (some t :: rest)

/-- The `for (var key in pseudoObj.properties)` loop of the object
branch: own enumerable host properties, read directly off the property
table. -/
def pseudoFields (E : Env) (fuel : Nat) (H : Heap) (id : Nat)
    (stack1 : List Nat) :
    List (String × PropData) → Except JErr (List (String × NTree))
  | [] => .ok []
  | kv :: t =>
    if kv.2.enumerable then
      match pseudoToNative E fuel H kv.2.value stack1 with
      | .error e => .error e
      | .ok nt =>
        match pseudoFields E fuel H id stack1 t with
        | .error e => .error e
        | .ok rest => .ok ((kv.1, nt) :: rest)
    else pseudoFields E fuel H id stack1 t

end

mutual

/-- Structural size of a native value, used as the recursion-depth budget
of `pseudoToNative` in the round-trip theorem. -/
def nsize : NativeVal → Nat
  | .arrV elems => nsizeList elems + 1
  | .objV fields => nsizeFields fields + 1
  | _ => 1

/-- Total size of a list of native values. -/
def nsizeList : List NativeVal → Nat
  | [] => 0
  | e :: t => nsize e + nsizeList t

/-- Total size of a field list. -/
def nsizeFields : List (String × NativeVal) → Nat
  | [] => 0
  | kv :: t => nsize kv.2 + nsizeFields t

end

/-- The property-table suffix that the element loop of `nativeToPseudo`
builds on a fresh array: plain data entries keyed by the decimal index
strings starting at `start`. -/
def elemProps : Nat → List Value → List (String × PropData)
  | _, [] => []
  | start, w :: t => (toString start, PropData.plain w) :: elemProps (start + 1) t

/-- The property table that the key loop of `nativeToPseudo` builds on a
fresh plain object: plain data entries pairing the host keys with the
converted values. -/
def fieldProps : List String → List Value → List (String × PropData)
  | k :: kt, w :: wt => (k, PropData.plain w) :: fieldProps kt wt
  | _, _ => []

/-- The array `length` property as `createObjectProto`/Array magic keep
it: writable, non-enumerable, non-configurable. -/
def lenPd (n : Nat) : PropData :=
  { value := .num (Int.ofNat n), writable := true, enumerable := false,
    configurable := false }

/-- The heap object that `nativeToPseudo` builds for an array whose first
`ws.length` elements have been converted to `ws`. -/
def arrObj (E : Env) (ws : List Value) : Obj :=
  { Obj.fresh (some E.arrayProto) with
    cls := "Array",
    props := ("length", lenPd ws.length) :: elemProps 0 ws }

/-- The heap object that `nativeToPseudo` builds for a plain object whose
first keys `ks` have been converted to the values `ws`. -/
def objObj (E : Env) (ks : List String) (ws : List Value) : Obj :=
  { Obj.fresh (some E.objectProto) with props := fieldProps ks ws }
mutual

/-- Does the output tree contain a back-edge (`cycleT`)? -/
def hasCycleT : NTree → Bool
  | .arrT elems => hasCycleTList elems
  | .objT fields => hasCycleTFields fields
  | .cycleT _ => true
  | _ => false

/-- Any entry contains a back-edge. -/
def hasCycleTList : List (Option NTree) → Bool
  | [] => false
  | none :: t => hasCycleTList t
  | some e :: t => hasCycleT e || hasCycleTList t

/-- Any field contains a back-edge. -/
def hasCycleTFields : List (String × NTree) → Bool
  | [] => false
  | kv :: t => hasCycleT kv.2 || hasCycleTFields t

end

/-- The id a chain cell points at: the head of the remaining chain, or
the cycle root `id0` once the chain is exhausted. -/
def nextId (rest : List (Nat × String)) (id0 : Nat) : Nat :=
  match rest with
  | [] => id0
  | c :: _ => c.1

/-- A simple guest-heap cycle: each cell `(i, k)` of the chain is a plain
object on `Object.prototype` whose single (enumerable, plainly assigned)
property `k` holds the next cell's object, the last cell pointing back at
the root `id0`. -/
def Links (E : Env) (G : Heap) (id0 : Nat) : List (Nat × String) → Prop
  | [] => True
  | c :: rest =>
    G[c.1]? = some { Obj.fresh (some E.objectProto) with
      props := [(c.2, PropData.plain (.obj (nextId rest id0)))] } ∧
    Links E G id0 rest

/-- The native tree `pseudoToNative` builds from a simple guest cycle
with property keys `ks`: a chain of one-field objects of the same length
ending in a back-edge to stack position `c0`. -/
def cycleTreeC (c0 : Nat) : List String → NTree
  | [] => .cycleT c0
  | k :: kt => .objT [(k, cycleTreeC c0 kt)]

end JSI

namespace JSI

/-- Prototype links only point at earlier heap slots.  This holds for the
interpreter because `proto` is only ever assigned at construction time,
to an already existing object; it makes every prototype chain terminate
within `H.length` steps. -/
def ProtoWF (H : Heap) : Prop :=
  ∀ (i : Nat) (o : Obj) (p : Nat), H[i]? = some o → o.protoId = some p → p < i

/-- Bootstrap facts about the built-in constructors and prototypes that
the general theorems rely on: the `X.properties["prototype"]` links, the
shape of the `Object.prototype`-rooted chains, accessor-free prototype
objects, id bounds, and distinctness of the prototype objects. -/
structure EnvWF (E : Env) (H : Heap) : Prop where
  objectProtoObj : ∃ o, H[E.objectProto]? = some o ∧ o.protoId = none ∧
    o.getters = [] ∧ o.setters = []
  arrayProtoObj : ∃ o, H[E.arrayProto]? = some o ∧
    o.protoId = some E.objectProto ∧ o.getters = [] ∧ o.setters = []
  numberProtoObj : ∃ o, H[E.numberProto]? = some o ∧
    o.protoId = some E.objectProto
  booleanProtoObj : ∃ o, H[E.booleanProto]? = some o ∧
    o.protoId = some E.objectProto
  stringProtoObj : ∃ o, H[E.stringProto]? = some o ∧
    o.protoId = some E.objectProto
  ctorFun : ctorPrototypeVal H E.functionCtor = .obj E.functionProto
  ctorArr : ctorPrototypeVal H E.arrayCtor = .obj E.arrayProto
  ctorStr : ctorPrototypeVal H E.stringCtor = .obj E.stringProto
  ctorNum : ctorPrototypeVal H E.numberCtor = .obj E.numberProto
  ctorBool : ctorPrototypeVal H E.booleanCtor = .obj E.booleanProto
  ctorErr : ctorPrototypeVal H E.errorCtor = .obj E.errorProto
  ctorRegexp : ctorPrototypeVal H E.regexpCtor = .obj E.regexpProto
  ltO : E.objectProto < H.length
  ltA : E.arrayProto < H.length
  ltF : E.functionProto < H.length
  ltS : E.stringProto < H.length
  ltN : E.numberProto < H.length
  ltB : E.booleanProto < H.length
  ltE : E.errorProto < H.length
  ltR : E.regexpProto < H.length
  neAO : E.arrayProto ≠ E.objectProto
  neFA : E.functionProto ≠ E.arrayProto
  neFO : E.functionProto ≠ E.objectProto
  neSA : E.stringProto ≠ E.arrayProto
  neSO : E.stringProto ≠ E.objectProto
  neSN : E.stringProto ≠ E.numberProto
  neSB : E.stringProto ≠ E.booleanProto
  neEA : E.errorProto ≠ E.arrayProto
  neEO : E.errorProto ≠ E.objectProto
  neRA : E.regexpProto ≠ E.arrayProto
  neRO : E.regexpProto ≠ E.objectProto

/-- The slot `a` is none of the bootstrap slots the property operations
consult. -/
def NotBuiltin (E : Env) (a : Nat) : Prop :=
  a ≠ E.objectProto ∧ a ≠ E.arrayProto ∧ a ≠ E.stringProto ∧
  a ≠ E.numberProto ∧ a ≠ E.booleanProto ∧
  a ≠ E.functionCtor ∧ a ≠ E.arrayCtor ∧ a ≠ E.stringCtor ∧
  a ≠ E.numberCtor ∧ a ≠ E.booleanCtor ∧ a ≠ E.errorCtor ∧
  a ≠ E.regexpCtor

/-- `w` converts back (`pseudoToNative`) to the tree of `e` on every heap
`G` that agrees with `H2` on the slot range `[lo, hi)` (the slots the
conversion of `e` allocated), for every conversion stack of ids below
`lo`, and for every fuel of at least the structural size of `e`. -/
def ConvVal (E : Env) (lo hi : Nat) (H2 : Heap) (w : Value)
    (e : NativeVal) : Prop :=
  ∀ (G : Heap), EnvWF E G →
    (∀ j, lo ≤ j → j < hi → G[j]? = H2[j]?) →
    ∀ (stack : List Nat), (∀ s ∈ stack, s < lo) →
    ∀ f, pseudoToNative E (nsize e + 1 + f) G w stack = .ok (toNTree e)

/-- Round-trip property of one JSON-shaped native value: lowering it with
`nativeToPseudo` only allocates (it never touches existing slots), and
the produced guest value lifts back with `pseudoToNative` to exactly
`toNTree x`. -/
def RoundTrip (E : Env) (x : NativeVal) : Prop :=
  JSONShaped x →
  ∀ (strict : Bool) (H H2 : Heap) (v : Value),
    EnvWF E H →
    nativeToPseudo E strict H x = .ok (H2, v) →
    H.length ≤ H2.length ∧
    (∀ j, j < H.length → H2[j]? = H[j]?) ∧
    ConvVal E H.length H2.length H2 v x

/-- Invariant of the element loop of the array branch of
`nativeToPseudo`: starting from an array object holding the already
converted prefix `ws`, the loop extends it by one converted value per
native element and touches no other pre-existing slot. -/
def ElemsLoop (E : Env) (elems : List NativeVal) : Prop :=
  JSONShapedList elems →
  ∀ (strict : Bool) (H H2 : Heap) (id : Nat) (ws : List Value),
    EnvWF E H →
    NotBuiltin E id →
    H[id]? = some (arrObj E ws) →
    ws.length + elems.length ≤ 4294967295 →
    natElems E strict id ws.length H elems = .ok H2 →
    H.length ≤ H2.length ∧
    (∀ j, j < H.length → j ≠ id → H2[j]? = H[j]?) ∧
    ∃ ws2 : List Value, ws2.length = elems.length ∧
      H2[id]? = some (arrObj E (ws ++ ws2)) ∧
      ∀ (k : Nat) (hk1 : k < ws2.length) (hk2 : k < elems.length),
        ConvVal E H.length H2.length H2 (ws2.get ⟨k, hk1⟩)
          (elems.get ⟨k, hk2⟩)

/-- Invariant of the key loop of the object branch of `nativeToPseudo`. -/
def FieldsLoop (E : Env) (fields : List (String × NativeVal)) : Prop :=
  JSONShapedFields fields →
  ∀ (strict : Bool) (H H2 : Heap) (id : Nat) (ks : List String)
    (ws : List Value),
    EnvWF E H →
    NotBuiltin E id →
    H[id]? = some (objObj E ks ws) →
    ks.length = ws.length →
    (ks ++ fields.map Prod.fst).Nodup →
    natFields E strict id H fields = .ok H2 →
    H.length ≤ H2.length ∧
    (∀ j, j < H.length → j ≠ id → H2[j]? = H[j]?) ∧
    ∃ ws2 : List Value, ws2.length = fields.length ∧
      H2[id]? = some (objObj E (ks ++ fields.map Prod.fst) (ws ++ ws2)) ∧
      ∀ (k : Nat) (hk1 : k < ws2.length) (hk2 : k < fields.length),
        ConvVal E H.length H2.length H2 (ws2.get ⟨k, hk1⟩)
          ((fields.get ⟨k, hk2⟩).2)

/-- A prototype object rooted at slot 0 (the bootstrap `OBJECT_PROTO`). -/
def protoObj0 : Obj := Obj.fresh (some 0)

/-- A bootstrap constructor: a Function-class object on `FUNCTION_PROTO`
whose `prototype` property points at slot `p`. -/
def mkCtorObj (p : Nat) : Obj :=
  { Obj.fresh (some 1) with
    cls := "Function",
    props := [("prototype", PropData.plain (.obj p))] }

/-- A concrete bootstrap heap: slot 0 `OBJECT_PROTO`, 1 `FUNCTION_PROTO`,
2 `ARRAY_PROTO`, 3 `STRING_PROTO`, 4 `NUMBER_PROTO`, 5 `BOOLEAN_PROTO`,
6 `ERROR_PROTO`, 7 `REGEXP_PROTO`, 8-14 the matching constructors,
15 the global scope object. -/
def H0 : Heap :=
  [Obj.fresh none, protoObj0, protoObj0, protoObj0, protoObj0, protoObj0,
   protoObj0, protoObj0,
   mkCtorObj 1, mkCtorObj 2, mkCtorObj 3, mkCtorObj 4, mkCtorObj 5,
   mkCtorObj 6, mkCtorObj 7,
   Obj.fresh none]

/-- The environment matching `H0`. -/
def E0 : Env :=
  { objectProto := 0, functionProto := 1, arrayProto := 2, stringProto := 3,
    numberProto := 4, booleanProto := 5, errorProto := 6,
    functionCtor := 8, arrayCtor := 9, stringCtor := 10, numberCtor := 11,
    booleanCtor := 12, errorCtor := 13, regexpProto := 7, regexpCtor := 14,
    globalId := 15 }

/-- First cell of a concrete guest 2-cycle: slot 16's property `a` points
at slot 17. -/
def cycA : Obj :=
  { Obj.fresh (some 0) with props := [("a", PropData.plain (.obj 17))] }

/-- Second cell: slot 17's property `b` points back at slot 16. -/
def cycB : Obj :=
  { Obj.fresh (some 0) with props := [("b", PropData.plain (.obj 16))] }

/-- The bootstrap heap extended with the 16 → 17 → 16 cycle. -/
def HC : Heap := H0 ++ [cycA, cycB]

end JSI

namespace JSI

/-- Primitive guest values (`isObject` is absent on them). -/
def isPrimitive : Value → Bool
  | .bool _ => true
  | .num _ => true
  | .str _ => true
  | _ => false

end JSI

namespace JSI

/-- A user-code Program node (it carries an `end` offset). -/
def demoNode : Driver.DNode := { type := "Program", endP := some 1 }

/-- A not-yet-done Program frame. -/
def demoFrame : Driver.DFrame := { node := demoNode, done := false }

/-- A demonstration handler battery over a counting world: pop the top
frame and record one effect. -/
def demoHandler : Driver.Handlers Nat := fun s =>
  { stack := s.stack.drop 1, paused := s.paused, world := s.world + 1 }

/-- A runnable one-frame state. -/
def demoRun : Driver.DState Nat :=
  { stack := [demoFrame], paused := false, world := 0 }

/-- Its final state after the single handler invocation. -/
def demoFinal : Driver.DState Nat :=
  { stack := [], paused := false, world := 1 }

/-- The same one-frame state, suspended by an async function. -/
def demoPaused : Driver.DState Nat :=
  { stack := [demoFrame], paused := true, world := 0 }

end JSI

namespace JSI

/-- A concrete Array object on `ARRAY_PROTO` (slot 2 of `H0`): class
Array, non-configurable writable length 1, one element `7` at index 0 —
the shape `var a = [7]` produces. -/
def demoArray : Obj :=
  { Obj.fresh (some 2) with
    cls := "Array",
    props := [("length",
      { value := .num 1, writable := true, enumerable := false,
        configurable := false }),
      ("0", PropData.plain (.num 7))] }

/-- The bootstrap heap extended with `demoArray` at slot 16. -/
def H1 : Heap := H0 ++ [demoArray]

/-- A guest constructor function object (slot 17 of `H2`): Function
class, legal constructor, `prototype` pointing at slot 18. -/
def demoCtorFn : Obj :=
  { Obj.fresh (some 1) with
    cls := "Function",
    props := [("prototype", PropData.plain (.obj 18))] }

/-- The constructor's prototype object (slot 18 of `H2`). -/
def demoProto : Obj := Obj.fresh (some 0)

/-- The bootstrap heap extended with the demo constructor (17) and its
prototype object (18). -/
def H2 : Heap := H1 ++ [demoCtorFn, demoProto]

/-- A local function scope (slot 19 of `H3`): holds the variable `x`,
parent is the global scope (slot 15), non-strict. -/
def demoScope : Obj :=
  { Obj.fresh none with
    props := [("x", PropData.plain (.num 1))],
    parentScope := some 15 }

/-- The heap of `H2` extended with `demoScope` at slot 19. -/
def H3 : Heap := H2 ++ [demoScope]

/-- An object with an accessor property `b` (slot 20 of `H4`): the
placeholder data entry plus a `setter` map entry pointing at the
function object in slot 17. -/
def demoSetterObj : Obj :=
  { Obj.fresh (some 0) with
    props := [("b",
      { value := .undef, writable := false, enumerable := false,
        configurable := false })],
    setters := [("b", 17)] }

/-- The heap of `H3` extended with `demoSetterObj` at slot 20. -/
def H4 : Heap := H3 ++ [demoSetterObj]

/-- Sub-evaluation results for the demo assignment `o.b = 9`: the left
side evaluates to the reference, the right side to 9, and the setter
trampoline returns 42 (to be discarded). -/
def demoOrc : AssignAction → VR := fun a =>
  match a with
  | .pushLeft => .r (.propRef (.obj 20) "b")
  | .pushRight => .v (.num 9)
  | _ => .v (.num 42)

/-- Sub-evaluation results for the demo assignment `o.b = 0`: the falsy
0 is assigned and the setter trampoline returns the truthy 42. -/
def demoOrc0 : AssignAction → VR := fun a =>
  match a with
  | .pushLeft => .r (.propRef (.obj 20) "b")
  | .pushRight => .v (.num 0)
  | _ => .v (.num 42)

/-- Sub-evaluation results for the non-terminating demo assignment
`o.b = 0` whose setter returns the falsy 0 on every invocation. -/
def demoOrcLoop : AssignAction → VR := fun a =>
  match a with
  | .pushLeft => .r (.propRef (.obj 20) "b")
  | _ => .v (.num 0)

/-- A walk of `n` scopes starting at `s` and ending at `t`, all of the
intermediate scopes being non-global and lacking `name` in their
property tables — the scopes that `setValueToScope` skips. -/
inductive WalkSkips (E : Env) (H : Heap) (name : String) :
    Nat → Nat → Nat → Prop where
  | refl (s : Nat) : WalkSkips E H name 0 s s
  | step (n s s2 t : Nat) (o : Obj) : s ≠ E.globalId → H[s]? = some o →
      alookup o.props name = none → o.parentScope = some s2 →
      WalkSkips E H name n s2 t → WalkSkips E H name (n + 1) s t

end JSI

namespace JSI

namespace Driver

theorem stepD_of_paused {W : Type} (h : Handlers W) (fuel : Nat)
    (s : DState W) (hp : s.paused = true) :
    ∃ b, stepD h fuel s = some (b, s) := by
  unfold stepD
  match hst : s.stack with
  | [] => exact ⟨false, rfl⟩
  | fr :: rest =>
    by_cases hd : fr.node.type = "Program" ∧ fr.done = true
    · refine ⟨false, ?_⟩
      simp [hd]
    · refine ⟨true, ?_⟩
      simp [hd, hp]

theorem stepUntilFalse_of_paused {W : Type} (h : Handlers W) :
    ∀ (fuel : Nat) (s sf : DState W), s.paused = true →
      stepUntilFalse h fuel s = some sf → sf = s := by
  intro fuel
  induction fuel with
  | zero =>
    intro s sf hp hrun
    obtain ⟨b, hb⟩ := stepD_of_paused h 0 s hp
    unfold stepUntilFalse at hrun
    rw [hb] at hrun
    cases b with
    | false => exact (Option.some_injective _ hrun).symm
    | true => simp at hrun
  | succ f ih =>
    intro s sf hp hrun
    obtain ⟨b, hb⟩ := stepD_of_paused h (f + 1) s hp
    unfold stepUntilFalse at hrun
    rw [hb] at hrun
    cases b with
    | false => exact (Option.some_injective _ hrun).symm
    | true => exact ih s sf hp hrun

end Driver

/-- C2: running a program by repeatedly calling `step()` until it
returns false produces exactly the same final interpreter state — same
`value`, same scopes and object graph, and same ordered trace of side
effects (all captured by the abstract world, which only node handlers
touch) — as a single call to `run()` from the same initial state, for
every handler battery and every initial state. -/
theorem claim_C2_step_until_false_eq_run {W : Type} (h : Driver.Handlers W)
    (fuel : Nat) (s sf : Driver.DState W)
    (hloop : Driver.stepUntilFalse h fuel s = some sf) :
    Driver.runD h fuel s = some (sf.paused, sf) := by
  induction fuel generalizing s with
  | zero =>
    by_cases hp : s.paused = true
    · obtain ⟨b, hb⟩ := Driver.stepD_of_paused h 0 s hp
      have hsf : sf = s := Driver.stepUntilFalse_of_paused h 0 s sf hp hloop
      unfold Driver.runD
      rw [if_pos hp, hsf, hp]
    · unfold Driver.stepUntilFalse at hloop
      unfold Driver.runD
      rw [if_neg hp]
      match hstep : Driver.stepD h 0 s with
      | none => rw [hstep] at hloop; simp at hloop
      | some (false, s2) =>
        rw [hstep] at hloop
        simp at hloop
        rw [hloop]
      | some (true, s2) =>
        rw [hstep] at hloop
        simp at hloop
  | succ f ih =>
    by_cases hp : s.paused = true
    · have hsf : sf = s := Driver.stepUntilFalse_of_paused h _ s sf hp hloop
      unfold Driver.runD
      rw [if_pos hp, hsf, hp]
    · unfold Driver.stepUntilFalse at hloop
      unfold Driver.runD
      rw [if_neg hp]
      match hstep : Driver.stepD h (f + 1) s with
      | none => rw [hstep] at hloop; simp at hloop
      | some (false, s2) =>
        rw [hstep] at hloop
        simp at hloop
        rw [hloop]
      | some (true, s2) =>
        rw [hstep] at hloop
        simp only at hloop
        exact ih s2 hloop

end JSI

namespace JSI

/-- C1: in every interpreter state whose `paused_` flag is true and whose
root Program frame is not yet done (stack bottom is the Program frame,
no other frame is a Program node), `step()` returns true WITHOUT
dispatching any node handler — the conclusion holds for every handler
battery `h` and the state (stack, scopes, object graph, effect trace) is
returned unchanged — and `run()` returns true immediately; this is the
case for as long as `paused_` remains true, i.e. until an async-function
callback clears it. -/
theorem claim_C1_paused_step_returns_true {W : Type} (h : Driver.Handlers W)
    (fuel : Nat) (s : Driver.DState W) (frs : List Driver.DFrame)
    (root : Driver.DFrame) (hp : s.paused = true)
    (hst : s.stack = frs ++ [root]) (hroot : root.node.type = "Program")
    (hdone : root.done = false)
    (hnp : ∀ fr ∈ frs, fr.node.type ≠ "Program") :
    Driver.stepD h fuel s = some (true, s) ∧
    Driver.runD h fuel s = some (true, s) := by
  constructor
  · unfold Driver.stepD
    rw [hst]
    match frs, hnp with
    | [], _ =>
      simp only [List.nil_append]
      rw [if_neg, if_pos hp]
      intro hcontra
      rw [hdone] at hcontra
      exact Bool.false_ne_true hcontra.2
    | fr :: rest, hnp =>
      simp only [List.cons_append]
      rw [if_neg, if_pos hp]
      intro hcontra
      exact hnp fr (List.mem_cons_self fr rest) hcontra.1
  · unfold Driver.runD
    rw [if_pos hp]

/-- C1 witness: the paused one-frame Program state concretely satisfies
the hypotheses, and both `step()` and `run()` return true leaving it
unchanged. -/
theorem claim_C1_witness :
    demoPaused.paused = true ∧ demoPaused.stack = [] ++ [demoFrame] ∧
    Driver.stepD demoHandler 2 demoPaused = some (true, demoPaused) ∧
    Driver.runD demoHandler 2 demoPaused = some (true, demoPaused) :=
  ⟨rfl, rfl,
   (claim_C1_paused_step_returns_true demoHandler 2 demoPaused [] demoFrame
     rfl rfl rfl rfl (by intro fr hfr; simp at hfr)).1,
   (claim_C1_paused_step_returns_true demoHandler 2 demoPaused [] demoFrame
     rfl rfl rfl rfl (by intro fr hfr; simp at hfr)).2⟩

/-- C2 witness: on a concrete one-step program, stepping until false and
`run()` reach the same final state (and hence the same `value` and
effect trace). -/
theorem claim_C2_witness :
    Driver.stepUntilFalse demoHandler 2 demoRun = some demoFinal ∧
    Driver.runD demoHandler 2 demoRun = some (false, demoFinal) :=
  ⟨rfl, claim_C2_step_until_false_eq_run demoHandler 2 demoRun demoFinal rfl⟩

end JSI

namespace JSI

theorem takeWhile_all_eq {α : Type} {p : α → Bool} :
    ∀ l : List α, l.all p = true → l.takeWhile p = l := by
  intro l
  induction l with
  | nil => intro _; rfl
  | cons a t ih =>
    intro h
    rw [List.all_cons, Bool.and_eq_true] at h
    simp [List.takeWhile_cons, h.1, ih h.2]

theorem dropWhile_all_eq {α : Type} {p : α → Bool} :
    ∀ l : List α, l.all p = true → l.dropWhile p = [] := by
  intro l
  induction l with
  | nil => intro _; rfl
  | cons a t ih =>
    intro h
    rw [List.all_cons, Bool.and_eq_true] at h
    simp [List.dropWhile_cons, h.1, ih h.2]

theorem readDigits_all (l : List Char) (h : l.all Char.isDigit = true) :
    Lex.readDigits l = (l, []) := by
  unfold Lex.readDigits
  rw [takeWhile_all_eq l h, dropWhile_all_eq l h]

theorem readNumber_allDigits (strict : Bool) (ds : List Char)
    (hdig : ds.all Char.isDigit = true) :
    Lex.readNumber strict false ('0' :: ds) =
      Lex.readNumberFinish strict true false ('0' :: ds) [] := by
  unfold Lex.readNumber
  rw [readDigits_all ('0' :: ds) (by simp [hdig])]
  simp

end JSI

namespace JSI

theorem no89_of_octalDigits (ds : List Char)
    (h7 : ds.all (fun c => decide (c ≤ '7')) = true) :
    (('0' :: ds).any (fun c => c = '8' || c = '9')) = false := by
  rw [List.any_cons]
  have h0 : (('0' : Char) = '8' || ('0' : Char) = '9') = false := by decide
  rw [h0, Bool.false_or]
  rw [List.all_eq_true] at h7
  rw [List.any_eq_false]
  intro c hc
  have h7c := h7 c hc
  rw [decide_eq_true_eq] at h7c
  intro hcontra
  rw [Bool.or_eq_true, decide_eq_true_eq, decide_eq_true_eq] at hcontra
  rcases hcontra with h8 | h9
  · rw [h8] at h7c
    exact absurd h7c (by decide)
  · rw [h9] at h7c
    exact absurd h7c (by decide)

/-- C9 (amended): for a leading-zero integer literal `0` followed by one
or more digits, read at the end of the input: if all digits are octal
(0-7) the literal parses as a base-8 integer in non-strict mode and is
an "Invalid number" SyntaxError in strict mode; if the literal contains
a digit 8 or 9 it is an "Invalid number" SyntaxError in BOTH modes (the
source raises on `/[89]/.test(str) || strict`), not a decimal literal as
the claim stated for non-strict mode. -/
theorem claim_C9_octal_leading_zero
    (ds : List Char) (hne : ds ≠ []) (hdig : ds.all Char.isDigit = true) :
    (ds.all (fun c => decide (c ≤ '7')) = true →
      Lex.readNumber false false ('0' :: ds) =
        .ok (.intNum (Lex.octalVal ('0' :: ds)), []) ∧
      Lex.readNumber true false ('0' :: ds) = .error "Invalid number") ∧
    ((('0' :: ds).any (fun c => c = '8' || c = '9')) = true →
      Lex.readNumber false false ('0' :: ds) = .error "Invalid number" ∧
      Lex.readNumber true false ('0' :: ds) = .error "Invalid number") := by
  have hlen : ¬(('0' :: ds).length = 1) := by
    simp only [List.length_cons]
    intro hcontra
    exact hne (List.length_eq_zero.mp (Nat.succ_injective hcontra))
  constructor
  · intro h7
    have hno89 := no89_of_octalDigits ds h7
    constructor
    · rw [readNumber_allDigits false ds hdig]
      unfold Lex.readNumberFinish
      simp [hlen, hno89, hne]
    · rw [readNumber_allDigits true ds hdig]
      unfold Lex.readNumberFinish
      simp [hlen, hno89, hne]
  · intro h89
    constructor
    · rw [readNumber_allDigits false ds hdig]
      unfold Lex.readNumberFinish
      simp [hlen, h89, hne]
    · rw [readNumber_allDigits true ds hdig]
      unfold Lex.readNumberFinish
      simp [hlen, h89, hne]

/-- C9 counterexample: the claim says a leading-zero literal containing
an 8 or 9 (such as `08`) parses as decimal in non-strict mode; the code
raises `Invalid number` for `08` even in non-strict mode. -/
theorem claim_C9_counterexample :
    Lex.readNumber false false ['0', '8'] = .error "Invalid number" ∧
    Lex.readNumber false false ['0', '8'] ≠
      .ok (.intNum 8, ([] : List Char)) := by
  constructor
  · rfl
  · intro h
    exact Except.noConfusion
      (h : (Except.error "Invalid number" :
          Except String (Lex.NumTok × List Char)) = .ok (.intNum 8, []))

/-- C9 witness: `010` concretely parses as octal 8 in non-strict mode
and raises in strict mode. -/
theorem claim_C9_witness :
    (['1', '0'] : List Char) ≠ [] ∧
    (['1', '0'] : List Char).all Char.isDigit = true ∧
    Lex.readNumber false false ['0', '1', '0'] = .ok (.intNum 8, []) ∧
    Lex.readNumber true false ['0', '1', '0'] = .error "Invalid number" :=
  ⟨by decide, by decide,
   ((claim_C9_octal_leading_zero ['1', '0'] (by decide) (by decide)).1
     (by decide)).1,
   ((claim_C9_octal_leading_zero ['1', '0'] (by decide) (by decide)).1
     (by decide)).2⟩

end JSI

namespace JSI

theorem getPropChain_objectProto_ok (E : Env) (H : Heap) (wf : EnvWF E H)
    (k : Nat) (name : String) :
    ∃ r, getPropChain E H (k + 1) (.obj E.objectProto) name = .ok r := by
  obtain ⟨oO, hO, hproto, hg, hs⟩ := wf.objectProtoObj
  unfold getPropChain
  simp only [hO]
  match halook : alookup oO.props name with
  | some pd =>
    simp only [halook]
    match glook : alookup oO.getters name with
    | some g => exact ⟨.getterFn g, by simp [glook]⟩
    | none => exact ⟨.val pd.value, by simp [glook]⟩
  | none =>
    refine ⟨.val .undef, ?_⟩
    simp only [halook]
    simp [getPrototype, hO, hproto]

theorem getPrototype_obj (E : Env) (H : Heap) (p : Nat) (o : Obj)
    (hp : H[p]? = some o) : getPrototype E H (.obj p) = o.protoId := by
  simp [getPrototype, hp]

theorem getPropChain_protoOnObject_ok (E : Env) (H : Heap) (wf : EnvWF E H)
    (p : Nat) (o : Obj) (hp : H[p]? = some o)
    (hproto : o.protoId = some E.objectProto) (k : Nat) (name : String) :
    ∃ r, getPropChain E H (k + 2) (.obj p) name = .ok r := by
  unfold getPropChain
  simp only [hp]
  match halook : alookup o.props name with
  | some pd =>
    simp only [halook]
    match glook : alookup o.getters name with
    | some g => exact ⟨.getterFn g, by simp [glook]⟩
    | none => exact ⟨.val pd.value, by simp [glook]⟩
  | none =>
    simp only [halook]
    rw [getPrototype_obj E H p o hp, hproto]
    exact getPropChain_objectProto_ok E H wf k name

end JSI

namespace JSI

theorem chainContains_none_false (H : Heap) (fuel t : Nat) :
    chainContains H fuel none t = false := by
  cases fuel <;> rfl

theorem chainContains_objectProto_false (E : Env) (H : Heap)
    (wf : EnvWF E H) (k t : Nat) (hne : E.objectProto ≠ t) :
    chainContains H (k + 1) (some E.objectProto) t = false := by
  obtain ⟨oO, hO, hproto, _, _⟩ := wf.objectProtoObj
  unfold chainContains
  rw [if_neg hne, hO]
  show chainContains H k oO.protoId t = false
  rw [hproto]
  exact chainContains_none_false H k t

theorem chainContains_boxed_false (E : Env) (H : Heap) (wf : EnvWF E H)
    (p : Nat) (oP : Obj) (hp : H[p]? = some oP)
    (hproto : oP.protoId = some E.objectProto) (k t : Nat)
    (hne1 : p ≠ t) (hne2 : E.objectProto ≠ t) :
    chainContains H (k + 2) (some p) t = false := by
  unfold chainContains
  rw [if_neg hne1, hp]
  show chainContains H (k + 1) oP.protoId t = false
  rw [hproto]
  exact chainContains_objectProto_false E H wf k t hne2

theorem isa_num_not_string (E : Env) (H : Heap) (wf : EnvWF E H)
    (k : Nat) (n : Int) : isa E H (k + 2) (.num n) E.stringCtor = false := by
  obtain ⟨oN, hN, hNproto⟩ := wf.numberProtoObj
  unfold isa
  rw [if_neg (by simp), wf.ctorStr]
  have hgp : getPrototype E H (.num n) = some E.numberProto := by
    simp [getPrototype, wf.ctorNum, asObjId]
  simp only [hgp]
  rw [if_neg (by simp)]
  exact chainContains_boxed_false E H wf E.numberProto oN hN hNproto k
    E.stringProto (fun h => wf.neSN h.symm) (fun h => wf.neSO h.symm)

theorem isa_bool_not_string (E : Env) (H : Heap) (wf : EnvWF E H)
    (k : Nat) (b : Bool) : isa E H (k + 2) (.bool b) E.stringCtor = false := by
  obtain ⟨oB, hB, hBproto⟩ := wf.booleanProtoObj
  unfold isa
  rw [if_neg (by simp), wf.ctorStr]
  have hgp : getPrototype E H (.bool b) = some E.booleanProto := by
    simp [getPrototype, wf.ctorBool, asObjId]
  simp only [hgp]
  rw [if_neg (by simp)]
  exact chainContains_boxed_false E H wf E.booleanProto oB hB hBproto k
    E.stringProto (fun h => wf.neSB h.symm) (fun h => wf.neSO h.symm)

theorem isa_str_string (E : Env) (H : Heap) (wf : EnvWF E H)
    (k : Nat) (s : String) : isa E H (k + 1) (.str s) E.stringCtor = true := by
  unfold isa
  rw [if_neg (by simp), wf.ctorStr]
  have hgp : getPrototype E H (.str s) = some E.stringProto := by
    simp [getPrototype, wf.ctorStr, asObjId]
  simp only [hgp]
  rw [if_neg (by simp)]
  unfold chainContains
  rw [if_pos rfl]

theorem getPropChain_num_ok (E : Env) (H : Heap) (wf : EnvWF E H)
    (k : Nat) (n : Int) (name : String) :
    ∃ r, getPropChain E H (k + 3) (.num n) name = .ok r := by
  obtain ⟨oN, hN, hNproto⟩ := wf.numberProtoObj
  unfold getPropChain
  have hgp : getPrototype E H (.num n) = some E.numberProto := by
    simp [getPrototype, wf.ctorNum, asObjId]
  simp only [hgp]
  exact getPropChain_protoOnObject_ok E H wf E.numberProto oN hN hNproto
    k name

theorem getPropChain_bool_ok (E : Env) (H : Heap) (wf : EnvWF E H)
    (k : Nat) (b : Bool) (name : String) :
    ∃ r, getPropChain E H (k + 3) (.bool b) name = .ok r := by
  obtain ⟨oB, hB, hBproto⟩ := wf.booleanProtoObj
  unfold getPropChain
  have hgp : getPrototype E H (.bool b) = some E.booleanProto := by
    simp [getPrototype, wf.ctorBool, asObjId]
  simp only [hgp]
  exact getPropChain_protoOnObject_ok E H wf E.booleanProto oB hB hBproto
    k name

theorem getPropChain_str_ok (E : Env) (H : Heap) (wf : EnvWF E H)
    (k : Nat) (s : String) (name : String) :
    ∃ r, getPropChain E H (k + 3) (.str s) name = .ok r := by
  obtain ⟨oS, hS, hSproto⟩ := wf.stringProtoObj
  unfold getPropChain
  have hgp : getPrototype E H (.str s) = some E.stringProto := by
    simp [getPrototype, wf.ctorStr, asObjId]
  simp only [hgp]
  exact getPropChain_protoOnObject_ok E H wf E.stringProto oS hS hSproto
    k name

end JSI

namespace JSI

/-- C10: on every primitive value (boolean, number, string) the public
`hasProperty` throws a HOST TypeError (`Primitive data type has no
properties`) without consulting the boxed prototype chain, while
`getProperty` on the same primitive succeeds (returning the result of
walking the matching built-in prototype chain, or the magic
length/index answers for strings) — so the two public methods disagree
on primitives. -/
theorem claim_C10_hasProperty_getProperty_primitives (E : Env) (H : Heap)
    (wf : EnvWF E H) (fuel : Nat) (hf : 3 ≤ fuel) (v : Value)
    (hv : isPrimitive v = true) (name : String) :
    hasProperty E H fuel v name = .error (.host .typeError) ∧
    ∃ r, getProperty E H fuel v name = .ok r := by
  obtain ⟨k, rfl⟩ : ∃ k, fuel = k + 3 := ⟨fuel - 3, by omega⟩
  cases v with
  | undef => simp [isPrimitive] at hv
  | null => simp [isPrimitive] at hv
  | obj id => simp [isPrimitive] at hv
  | num n =>
    refine ⟨rfl, ?_⟩
    unfold getProperty
    rw [if_neg (by simp)]
    have hisa : isa E H (k + 3) (.num n) E.stringCtor = false :=
      isa_num_not_string E H wf (k + 1) n
    by_cases hlen : name = "length"
    · rw [if_pos hlen, if_neg (by rw [hisa]; exact Bool.false_ne_true)]
      exact getPropChain_num_ok E H wf k n name
    · rw [if_neg hlen]
      rw [if_neg (by rw [hisa, Bool.and_false]; exact Bool.false_ne_true)]
      exact getPropChain_num_ok E H wf k n name
  | bool b =>
    refine ⟨rfl, ?_⟩
    unfold getProperty
    rw [if_neg (by simp)]
    have hisa : isa E H (k + 3) (.bool b) E.stringCtor = false :=
      isa_bool_not_string E H wf (k + 1) b
    by_cases hlen : name = "length"
    · rw [if_pos hlen, if_neg (by rw [hisa]; exact Bool.false_ne_true)]
      exact getPropChain_bool_ok E H wf k b name
    · rw [if_neg hlen]
      rw [if_neg (by rw [hisa, Bool.and_false]; exact Bool.false_ne_true)]
      exact getPropChain_bool_ok E H wf k b name
  | str s =>
    refine ⟨rfl, ?_⟩
    unfold getProperty
    rw [if_neg (by simp)]
    have hisa : isa E H (k + 3) (.str s) E.stringCtor = true :=
      isa_str_string E H wf (k + 2) s
    by_cases hlen : name = "length"
    · rw [if_pos hlen, if_pos (by rw [hisa])]
      exact ⟨_, rfl⟩
    · rw [if_neg hlen]
      simp only [hisa, Bool.and_true]
      split
      · split
        · rename_i i hidx
          split
          · rename_i hlt
            have hl : i < (jsDisplay H (.str s)).data.length := hlt
            rw [List.getElem?_eq_getElem hl]
            exact ⟨_, rfl⟩
          · exact getPropChain_str_ok E H wf k s name
        · exact getPropChain_str_ok E H wf k s name
      · exact getPropChain_str_ok E H wf k s name

end JSI

namespace JSI

theorem envWF0 : EnvWF E0 H0 := by
  refine ⟨⟨Obj.fresh none, rfl, rfl, rfl, rfl⟩,
    ⟨protoObj0, rfl, rfl, rfl, rfl⟩,
    ⟨protoObj0, rfl, rfl⟩, ⟨protoObj0, rfl, rfl⟩, ⟨protoObj0, rfl, rfl⟩,
    rfl, rfl, rfl, rfl, rfl, rfl, rfl,
    ?_, ?_, ?_, ?_, ?_, ?_, ?_, ?_,
    ?_, ?_, ?_, ?_, ?_, ?_, ?_, ?_, ?_, ?_, ?_⟩ <;> decide

/-- C10 witness: on the concrete bootstrap heap, `hasProperty` on the
primitive number 5 raises the host TypeError while `getProperty`
succeeds. -/
theorem claim_C10_witness :
    (3 ≤ 17 ∧ isPrimitive (.num 5) = true) ∧
    hasProperty E0 H0 17 (.num 5) "x" = .error (.host .typeError) ∧
    ∃ r, getProperty E0 H0 17 (.num 5) "x" = .ok r :=
  ⟨⟨by decide, by decide⟩,
   (claim_C10_hasProperty_getProperty_primitives E0 H0 envWF0 17 (by decide)
     (.num 5) (by decide) "x").1,
   (claim_C10_hasProperty_getProperty_primitives E0 H0 envWF0 17 (by decide)
     (.num 5) (by decide) "x").2⟩

end JSI

namespace JSI

theorem list_set_self {α : Type} :
    ∀ (l : List α) (i : Nat) (a : α), l[i]? = some a → l.set i a = l := by
  intro l
  induction l with
  | nil => intro i a h; simp at h
  | cons x t ih =>
    intro i a h
    cases i with
    | zero =>
      simp at h
      rw [List.set_cons_zero, h]
    | succ j =>
      simp at h
      rw [List.set_cons_succ, ih j a h]

/-- C5 (what the code actually does — the claim describes the intended
behaviour): the `delete` of a property marked notConfigurable evaluates
to TRUE in BOTH guest modes, never throws, and leaves the property, its
value and its descriptor bits unchanged.  The host `delete
obj.properties[name]` runs in sloppy mode (the file's `'use strict'`
directive is inert because the acorn IIFE precedes it), so it silently
returns false instead of throwing; the `catch` branch that would produce
`false` (non-strict) or a guest TypeError (strict) is dead code. -/
theorem claim_C5_delete_notConfigurable_noop (H : Heap) (strict : Bool)
    (scopeId id : Nat) (o : Obj) (name : String) (pd : PropData)
    (hid : H[id]? = some o) (hpd : alookup o.props name = some pd)
    (hnc : pd.configurable = false) :
    stepDelete H scopeId strict (some (.propRef (.obj id) name)) =
      .ok (H, .bool true) := by
  have hdel : hostDeleteProp o name = (o, false) := by
    unfold hostDeleteProp
    rw [hpd]
    simp [hnc]
  show (match H[id]? with
    | none => Except.error JErr.stuck
    | some o => Except.ok (List.set H id (hostDeleteProp o name).1,
        Value.bool true)) = Except.ok (H, Value.bool true)
  rw [hid]
  show Except.ok (List.set H id (hostDeleteProp o name).1, Value.bool true) = _
  rw [hdel]
  show Except.ok (List.set H id o, Value.bool true) = _
  rw [list_set_self H id o hid]

/-- C5 witness: deleting the notConfigurable `length` of the concrete
array `[7]` returns true and leaves the heap unchanged, in both guest
modes. -/
theorem claim_C5_witness :
    (H1[16]? = some demoArray ∧
     alookup demoArray.props "length" =
       some { value := .num 1, writable := true, enumerable := false,
              configurable := false }) ∧
    stepDelete H1 15 false (some (.propRef (.obj 16) "length")) =
      .ok (H1, .bool true) ∧
    stepDelete H1 15 true (some (.propRef (.obj 16) "length")) =
      .ok (H1, .bool true) :=
  ⟨⟨by decide, by decide⟩,
   claim_C5_delete_notConfigurable_noop H1 false 15 16 demoArray "length"
     { value := .num 1, writable := true, enumerable := false,
       configurable := false } (by decide) (by decide) rfl,
   claim_C5_delete_notConfigurable_noop H1 true 15 16 demoArray "length"
     { value := .num 1, writable := true, enumerable := false,
       configurable := false } (by decide) (by decide) rfl⟩

end JSI

namespace JSI

/-- C4 counterexample: the claim says the value of `new f(...)` is the
explicit return value only if that value is an object (so a constructor
returning `null` — not an object in the interpreter's value taxonomy —
would yield the fresh `this`); but the completion test is
`typeof state.value !== "object"` and host `typeof null` is `"object"`,
so a constructor returning `null` yields `null`, not `this`. -/
theorem claim_C4_counterexample :
    stepCallComplete true .null (.obj 19) = .null ∧
    Value.null ≠ Value.obj 19 := ⟨rfl, by simp⟩

/-- C4 (amended): for `new f(...)` on a legal constructor whose
`prototype` property is an object `p`, a fresh object with prototype `p`
is created (at the next free heap slot) and bound as `this` for the
call; after the body returns, the value of the `new` expression is the
explicit return value if its HOST typeof is "object" — i.e. it is an
interpreter object OR `null` — and otherwise is the freshly created
`this` (a constructor returning `null` yields `null`; returning a
primitive or nothing yields `this`).  The `isa` hypotheses say the fresh
object is not Function/Array/Error-classed, the generic case. -/
theorem claim_C4_new_expression (E : Env) (H : Heap) (fuel : Nat)
    (strict : Bool) (funcId : Nat) (f : Obj) (pd : PropData) (p : Nat)
    (hfid : H[funcId]? = some f) (hlegal : f.illegalCtor = false)
    (hproto : alookup f.props "prototype" = some pd)
    (hpv : pd.value = .obj p)
    (hisaF : isa E (H ++ [Obj.fresh (some p)])
      ((H ++ [Obj.fresh (some p)]).length + 1) (.obj H.length)
      E.functionCtor = false)
    (hisaA : isa E (H ++ [Obj.fresh (some p)])
      ((H ++ [Obj.fresh (some p)]).length + 1) (.obj H.length)
      E.arrayCtor = false)
    (hisaE : isa E (H ++ [Obj.fresh (some p)])
      ((H ++ [Obj.fresh (some p)]).length + 1) (.obj H.length)
      E.errorCtor = false) :
    stepNewDetermineThis E H (fuel + 1) strict funcId =
      .ok (H ++ [Obj.fresh (some p)], H.length) ∧
    ∀ rv, stepCallComplete true rv (.obj H.length) =
      if valueTypeofObject rv then rv else .obj H.length := by
  constructor
  · unfold stepNewDetermineThis
    simp only [hfid, hlegal, Bool.false_eq_true, if_false]
    unfold createObject
    have hcp : asObjId (ctorPrototypeVal H funcId) = some p := by
      simp only [ctorPrototypeVal, hfid, hproto, hpv, asObjId]
    rw [hcp]
    unfold createObjectProto
    simp only [hisaF, hisaA, hisaE, Bool.false_eq_true, if_false, pure_bind]
    rfl
  · intro rv
    unfold stepCallComplete
    cases hrv : valueTypeofObject rv <;> simp [hrv]

end JSI

namespace JSI

/-- C4 witness: `new` on the concrete constructor (slot 17, prototype
slot 18) allocates the fresh `this` at slot 19 with prototype 18, and a
primitive return value yields that `this`. -/
theorem claim_C4_witness :
    (H2[17]? = some demoCtorFn ∧ demoCtorFn.illegalCtor = false ∧
     alookup demoCtorFn.props "prototype" =
       some (PropData.plain (.obj 18))) ∧
    stepNewDetermineThis E0 H2 5 false 17 =
      .ok (H2 ++ [Obj.fresh (some 18)], 19) ∧
    stepCallComplete true (.num 3) (.obj 19) = .obj 19 :=
  ⟨⟨by decide, by decide, by decide⟩,
   (claim_C4_new_expression E0 H2 4 false 17 demoCtorFn
     (PropData.plain (.obj 18)) 18 (by decide) (by decide) (by decide)
     (by decide) (by decide) (by decide) (by decide)).1,
   (claim_C4_new_expression E0 H2 4 false 17 demoCtorFn
     (PropData.plain (.obj 18)) 18 (by decide) (by decide) (by decide)
     (by decide) (by decide) (by decide) (by decide)).2 (.num 3)⟩

end JSI

namespace JSI

theorem setValueToScopeWalk_skip (E : Env) (H : Heap) (name : String)
    (n s t : Nat) (hw : WalkSkips E H name n s t) (fuel0 k : Nat)
    (strict : Bool) (value : Value) :
    setValueToScopeWalk E H fuel0 strict name value (n + k + 1) (some s) =
      setValueToScopeWalk E H fuel0 strict name value (k + 1) (some t) := by
  induction hw with
  | refl s => rw [Nat.zero_add]
  | step n s s2 t o hng ho hnone hpar _ ih =>
    have harith : n + 1 + k + 1 = (n + k + 1) + 1 := by omega
    rw [harith]
    unfold setValueToScopeWalk
    rw [if_neg hng, ho]
    show (if (alookup o.props name).isSome = true then _ else
      setValueToScopeWalk E H fuel0 strict name value (n + k + 1)
        o.parentScope) = _
    rw [hnone]
    simp only [Option.isSome_none, Bool.false_eq_true, if_false]
    rw [hpar]
    exact ih

theorem isa_protoNone_not_string (E : Env) (H : Heap) (fuel : Nat)
    (id : Nat) (o : Obj) (ho : H[id]? = some o) (hproto : o.protoId = none)
    (hctor : ctorPrototypeVal H E.stringCtor = .obj E.stringProto)
    (hne : id ≠ E.stringProto) :
    isa E H fuel (.obj id) E.stringCtor = false := by
  unfold isa
  rw [if_neg (by simp), hctor]
  show (if Value.obj id = Value.obj E.stringProto then true
    else chainContains H fuel (getPrototype E H (Value.obj id))
      E.stringProto) = false
  rw [if_neg (by simp [hne])]
  rw [getPrototype_obj E H id o ho, hproto]
  exact chainContains_none_false H fuel E.stringProto

theorem hasProperty_protoNone (E : Env) (H : Heap) (k : Nat) (id : Nat)
    (o : Obj) (name : String) (ho : H[id]? = some o)
    (hproto : o.protoId = none)
    (hisa : isa E H (k + 1) (.obj id) E.stringCtor = false) :
    hasProperty E H (k + 1) (.obj id) name =
      .ok (alookup o.props name).isSome := by
  unfold hasProperty
  rw [hisa]
  simp only [Bool.and_false, Bool.false_eq_true, if_false]
  unfold hasPropChain
  show (if (match H[id]? with
      | some o => (alookup o.props name).isSome
      | none => false) = true then Except.ok true
    else
      match getPrototype E H (Value.obj id) with
      | some p => hasPropChain E H k (Value.obj p) name
      | none => Except.ok false) =
    Except.ok (alookup o.props name).isSome
  rw [ho]
  show (if (alookup o.props name).isSome = true then Except.ok true
    else
      match getPrototype E H (Value.obj id) with
      | some p => hasPropChain E H k (Value.obj p) name
      | none => Except.ok false) =
    Except.ok (alookup o.props name).isSome
  match hlook : (alookup o.props name) with
  | some pd => simp
  | none =>
    simp only [Option.isSome_none, Bool.false_eq_true, if_false]
    rw [getPrototype_obj E H id o ho, hproto]

end JSI

namespace JSI

theorem findDefObj_hit (H : Heap) (name : String) (obj0 : Nat) (k id : Nat)
    (o : Obj) (ho : H[id]? = some o)
    (hpresent : (alookup o.props name).isSome = true) :
    findDefObj H name obj0 (k + 1) id = some id := by
  unfold findDefObj
  rw [ho]
  show (if (alookup o.props name).isSome = true then some id
    else match o.protoId with
      | some p => findDefObj H name obj0 k p
      | none => some obj0) = some id
  rw [if_pos hpresent]

theorem findDefObj_protoNone (H : Heap) (name : String) (obj0 : Nat)
    (k id : Nat) (o : Obj) (ho : H[id]? = some o)
    (habsent : alookup o.props name = none) (hproto : o.protoId = none) :
    findDefObj H name obj0 (k + 1) id = some obj0 := by
  unfold findDefObj
  rw [ho]
  show (if (alookup o.props name).isSome = true then some id
    else match o.protoId with
      | some p => findDefObj H name obj0 k p
      | none => some obj0) = some obj0
  rw [habsent]
  simp only [Option.isSome_none, Bool.false_eq_true, if_false]
  rw [hproto]

theorem arrayMagic_nonArray (o : Obj) (name : String) (value : Option Value)
    (h : ¬(o.cls = "Array")) : arrayMagic o name value = .ok (o, value) := by
  unfold arrayMagic
  rw [if_neg h]

theorem setProperty_plain_write (E : Env) (H : Heap) (k id : Nat) (o : Obj)
    (pd : PropData) (strict : Bool) (name : String) (v : Value)
    (ho : H[id]? = some o)
    (hisa : isa E H (k + 1) (.obj id) E.stringCtor = false)
    (hcls : o.cls = "Object")
    (hpresent : alookup o.props name = some pd)
    (hnoset : alookup o.setters name = none)
    (hnoget : alookup o.getters name = none) :
    setProperty E H (k + 1) (.obj id) name (some v) none strict =
      .ok (H.set id (hostSetProp o name v), none) := by
  unfold setProperty
  rw [if_neg (by simp)]
  simp only [Option.isSome_none, Bool.false_or, Bool.or_false,
    Bool.false_and, Bool.and_false, Bool.false_eq_true, if_false]
  rw [ho]
  simp only [hisa, Bool.false_and, Bool.false_eq_true, if_false]
  simp only [arrayMagic_nonArray o name (some v) (by simp [hcls])]
  rw [list_set_self H id o ho]
  rw [hpresent]
  simp only [Option.isSome_some, Bool.not_true, Bool.and_false,
    Bool.false_eq_true, if_false]
  unfold assignPart
  rw [findDefObj_hit H name id k id o ho (by rw [hpresent]; rfl)]
  simp only [ho, hnoset, hnoget]

theorem setProperty_plain_new (E : Env) (H : Heap) (k id : Nat) (o : Obj)
    (strict : Bool) (name : String) (v : Value)
    (ho : H[id]? = some o)
    (hisa : isa E H (k + 1) (.obj id) E.stringCtor = false)
    (hcls : o.cls = "Object")
    (habsent : alookup o.props name = none)
    (hproto : o.protoId = none)
    (hext : o.preventExt = false)
    (hnoset : alookup o.setters name = none)
    (hnoget : alookup o.getters name = none) :
    setProperty E H (k + 1) (.obj id) name (some v) none strict =
      .ok (H.set id (hostSetProp o name v), none) ∧
    hostSetProp o name v =
      { o with props := o.props ++ [(name, PropData.plain v)] } := by
  constructor
  · unfold setProperty
    rw [if_neg (by simp)]
    simp only [Option.isSome_none, Bool.false_or, Bool.or_false,
      Bool.false_and, Bool.and_false, Bool.false_eq_true, if_false]
    rw [ho]
    simp only [hisa, Bool.false_and, Bool.false_eq_true, if_false]
    simp only [arrayMagic_nonArray o name (some v) (by simp [hcls])]
    rw [list_set_self H id o ho]
    rw [habsent]
    simp only [hext, Option.isSome_none, Bool.not_false, Bool.false_and,
      Bool.false_eq_true, if_false]
    unfold assignPart
    rw [findDefObj_protoNone H name id k id o ho habsent hproto]
    simp only [ho, hnoset, hnoget]
  · unfold hostSetProp
    rw [habsent]

end JSI

namespace JSI

/-- C6: `setValueToScope` writes the value into the nearest enclosing
scope whose property table contains the name (conjunct one: a direct
sloppy host write into that scope's table, updating the property when it
is host-writable; conjunct two: when only the global scope contains it,
the write goes to the global object through `setProperty`); when no
scope contains the name (conjunct three), a non-strict context creates
the binding as a new property of the global scope (implicit global),
and a strict context throws a guest ReferenceError and creates no
binding.  `WalkSkips` captures the chain of enclosing scopes that lack
the name; the global-object hypotheses are the bootstrap facts (null
prototype, Object class, extensible, no accessors for the name). -/
theorem claim_C6_set_value_to_scope (E : Env) (H : Heap) (name : String)
    (value : Value) (k n : Nat) (scope0 : Nat) (o0 : Obj)
    (h0 : H[scope0]? = some o0)
    (oG : Obj) (hG : H[E.globalId]? = some oG)
    (hGproto : oG.protoId = none) (hGcls : oG.cls = "Object")
    (hGext : oG.preventExt = false)
    (hGnoset : alookup oG.setters name = none)
    (hGnoget : alookup oG.getters name = none)
    (hctorS : ctorPrototypeVal H E.stringCtor = .obj E.stringProto)
    (hGneS : E.globalId ≠ E.stringProto) :
    (∀ s oS pd, WalkSkips E H name n scope0 s → s ≠ E.globalId →
       H[s]? = some oS → alookup oS.props name = some pd →
       setValueToScope E H (n + k + 1) scope0 name value =
         .ok (H.set s (hostSetProp oS name value), none) ∧
       (pd.writable = true →
         hostSetProp oS name value =
           { oS with props := aset oS.props name { pd with value := value } })) ∧
    (∀ pdG, WalkSkips E H name n scope0 E.globalId →
       alookup oG.props name = some pdG →
       setValueToScope E H (n + k + 1) scope0 name value =
         .ok (H.set E.globalId (hostSetProp oG name value), none)) ∧
    (WalkSkips E H name n scope0 E.globalId →
     alookup oG.props name = none →
     (o0.strict = false →
        setValueToScope E H (n + k + 1) scope0 name value =
          .ok (H.set E.globalId
            { oG with props := oG.props ++ [(name, PropData.plain value)] },
            none)) ∧
     (o0.strict = true →
        setValueToScope E H (n + k + 1) scope0 name value =
          .error (.guest .referenceError))) := by
  have hisaG : isa E H (n + k + 1) (.obj E.globalId) E.stringCtor = false :=
    isa_protoNone_not_string E H (n + k + 1) E.globalId oG hG hGproto
      hctorS hGneS
  refine ⟨?_, ?_, ?_⟩
  · intro s oS pd hw hsng hoS hpd
    constructor
    · unfold setValueToScope
      simp only [h0]
      rw [setValueToScopeWalk_skip E H name n scope0 s hw (n + k + 1) k
        o0.strict value]
      unfold setValueToScopeWalk
      rw [if_neg hsng, hoS]
      show (if (alookup oS.props name).isSome = true then
          Except.ok (H.set s (hostSetProp oS name value), none)
        else setValueToScopeWalk E H (n + k + 1) o0.strict name value k
          oS.parentScope) = _
      rw [hpd]
      simp
    · intro hwrit
      unfold hostSetProp
      rw [hpd]
      simp [hwrit]
  · intro pdG hw hpdG
    unfold setValueToScope
    simp only [h0]
    rw [setValueToScopeWalk_skip E H name n scope0 E.globalId hw
      (n + k + 1) k o0.strict value]
    unfold setValueToScopeWalk
    rw [if_pos rfl]
    cases hstr : o0.strict with
    | false =>
      simp only [hstr, Bool.not_false, if_true]
      exact setProperty_plain_write E H (n + k) E.globalId oG pdG false
        name value hG hisaG hGcls hpdG hGnoset hGnoget
    | true =>
      simp only [hstr, Bool.not_true, Bool.false_eq_true, if_false]
      rw [hasProperty_protoNone E H (n + k) E.globalId oG name hG hGproto
        hisaG]
      simp only [hpdG, Option.isSome_some]
      exact setProperty_plain_write E H (n + k) E.globalId oG pdG true
        name value hG hisaG hGcls hpdG hGnoset hGnoget
  · intro hw habs
    constructor
    · intro hstr
      unfold setValueToScope
      simp only [h0]
      rw [setValueToScopeWalk_skip E H name n scope0 E.globalId hw
        (n + k + 1) k o0.strict value]
      unfold setValueToScopeWalk
      rw [if_pos rfl]
      simp only [hstr, Bool.not_false, if_true]
      have hmain := setProperty_plain_new E H (n + k) E.globalId oG false
        name value hG hisaG hGcls habs hGproto hGext hGnoset hGnoget
      rw [hmain.1, hmain.2]
    · intro hstr
      unfold setValueToScope
      simp only [h0]
      rw [setValueToScopeWalk_skip E H name n scope0 E.globalId hw
        (n + k + 1) k o0.strict value]
      unfold setValueToScopeWalk
      rw [if_pos rfl]
      simp only [hstr, Bool.not_true, Bool.false_eq_true, if_false]
      rw [hasProperty_protoNone E H (n + k) E.globalId oG name hG hGproto
        hisaG]
      simp only [habs, Option.isSome_none]

end JSI

namespace JSI

/-- C6 witness: on a concrete chain (local scope 19 → global 15),
assigning `x` (present locally) writes into the local scope; assigning
the absent `y` in the non-strict scope creates it on the global object. -/
theorem claim_C6_witness :
    setValueToScope E0 H3 1 19 "x" (.num 2) =
      .ok (H3.set 19 (hostSetProp demoScope "x" (.num 2)), none) ∧
    setValueToScope E0 H3 2 19 "y" (.num 3) =
      .ok (H3.set 15
        { Obj.fresh none with props := [("y", PropData.plain (.num 3))] },
        none) :=
  ⟨((claim_C6_set_value_to_scope E0 H3 "x" (.num 2) 0 0 19 demoScope
      (by decide) (Obj.fresh none) (by decide) (by decide) (by decide)
      (by decide) (by decide) (by decide) (by decide) (by decide)).1
      19 demoScope (PropData.plain (.num 1)) (WalkSkips.refl 19)
      (by decide) (by decide) (by decide)).1,
   ((claim_C6_set_value_to_scope E0 H3 "y" (.num 3) 0 1 19 demoScope
      (by decide) (Obj.fresh none) (by decide) (by decide) (by decide)
      (by decide) (by decide) (by decide) (by decide) (by decide)).2.2
      (WalkSkips.step 0 19 15 15 demoScope (by decide) (by decide)
        (by decide) (by decide) (WalkSkips.refl 15))
      (by decide)).1 (by decide)⟩

end JSI

namespace JSI

/-- C3 counterexample: the concrete assignment `o.b = 0` through the
setter in slot 17, whose trampoline returns the truthy 42.  The original
claim predicts one setter invocation with the assigned 0 and the value 0
for the whole expression; because `if (state.doneSetter_)` tests host
truthiness of the stored assigned value, the re-entry falls through, the
switch re-runs on the setter's return value, the setter is invoked a
second time with 42, and the expression evaluates to 42. -/
theorem claim_C3_counterexample :
    assignRun E0 25 "=" false 19 demoOrc0 6 H4 {} =
      .ok (H4, [.pushLeft, .pushRight, .pushSetter 17 (.obj 20) (.num 0),
        .pushSetter 17 (.obj 20) (.num 42), .finish (.num 42)], .num 42) ∧
    ¬ assignRun E0 25 "=" false 19 demoOrc0 6 H4 {} =
      .ok (H4, [.pushLeft, .pushRight, .pushSetter 17 (.obj 20) (.num 0),
        .finish (.num 0)], .num 0) :=
  ⟨rfl, fun h => absurd (Except.ok.inj h) (by decide)⟩

/-- C3, corrected: for `a.b = c` against a property with a setter the
evaluation order is as claimed — the left reference, then the right-hand
side, then the setter trampoline with the assigned value and the base as
`this` — but the completion test `if (state.doneSetter_)` checks host
TRUTHINESS of the stored assigned value, not completion, so:
(1) for a truthy assigned value the frame finishes with the assigned
value and the setter's return value is discarded — one setter call, as
the original claim says;
(2) for a falsy assigned value (`0`, `""`, `false`, `null`,
`undefined`) the re-entry falls through and re-runs the assignment with
the setter's RETURN value: the setter is invoked a second time with that
value as its argument, and for a truthy return value `w` the expression
completes with value `w`, not the value of `c`;
(3) when the setter returns the falsy assigned value itself, the frame
never completes, whatever the step budget. -/
theorem claim_C3_assignment_setter_order (E : Env) (fuel : Nat)
    (strict : Bool) (scope0 : Nat) (H H2 : Heap) (base : Value)
    (name : String) (rightVal : Value) (sid : Nat)
    (orc : AssignAction → VR)
    (hset : setProperty E H fuel base name (some rightVal) none strict =
      .ok (H2, some sid))
    (hoL : orc .pushLeft = .r (.propRef base name))
    (hoR : orc .pushRight = .v rightVal) :
    (hostTruthy rightVal = true →
      assignRun E fuel "=" strict scope0 orc 4 H {} =
        .ok (H2, [.pushLeft, .pushRight, .pushSetter sid base rightVal,
          .finish rightVal], rightVal)) ∧
    (hostTruthy rightVal = false →
      ∀ (w : Value) (H3 : Heap) (sid2 : Nat),
        orc (.pushSetter sid base rightVal) = .v w →
        hostTruthy w = true →
        setProperty E H2 fuel base name (some w) none strict =
          .ok (H3, some sid2) →
        assignRun E fuel "=" strict scope0 orc 6 H {} =
          .ok (H3, [.pushLeft, .pushRight, .pushSetter sid base rightVal,
            .pushSetter sid2 base w, .finish w], w)) ∧
    (hostTruthy rightVal = false →
      orc (.pushSetter sid base rightVal) = .v rightVal →
      setProperty E H2 fuel base name (some rightVal) none strict =
        .ok (H2, some sid) →
      ∀ n, assignRun E fuel "=" strict scope0 orc n H {} =
        .error .stuck) := by
  have h1 : stepAssignmentExpression E H fuel "=" strict scope0 {} =
      .ok (H, { doneLeft := true }, .pushLeft) := by
    unfold stepAssignmentExpression
    simp
  have h2 : stepAssignmentExpression E H fuel "=" strict scope0
      { doneLeft := true, value := .r (.propRef base name) } =
      .ok (H,
        { doneLeft := true, doneRight := true,
          leftReference := some (.propRef base name),
          value := .r (.propRef base name) },
        .pushRight) := by
    unfold stepAssignmentExpression
    simp
  have h3 : stepAssignmentExpression E H fuel "=" strict scope0
      { doneLeft := true, doneRight := true,
        leftReference := some (.propRef base name), value := .v rightVal } =
      .ok (H2,
        { doneLeft := true, doneRight := true,
          leftReference := some (.propRef base name),
          doneSetter := some rightVal, value := .v rightVal },
        .pushSetter sid base rightVal) := by
    unfold stepAssignmentExpression
    unfold assignApplyWrite
    simp only [Bool.not_true, Bool.false_eq_true, if_false, applyAssignOp,
      setValueRef, hset, setterThis]
    simp [applyAssignOp]
    rw [hset]
  refine ⟨?_, ?_, ?_⟩
  · intro ht
    have h4 : stepAssignmentExpression E H2 fuel "=" strict scope0
        { doneLeft := true, doneRight := true,
          leftReference := some (.propRef base name),
          doneSetter := some rightVal,
          value := orc (.pushSetter sid base rightVal) } =
        .ok (H2,
          { doneLeft := true, doneRight := true,
            leftReference := some (.propRef base name),
            doneSetter := some rightVal,
            value := orc (.pushSetter sid base rightVal) },
          .finish rightVal) := by
      unfold stepAssignmentExpression
      simp [ht]
    simp only [assignRun, h1, hoL, h2, hoR, h3, h4]
  · intro hf w H3 sid2 horcW hw hset2
    have h4 : stepAssignmentExpression E H2 fuel "=" strict scope0
        { doneLeft := true, doneRight := true,
          leftReference := some (.propRef base name),
          doneSetter := some rightVal, value := .v w } =
        .ok (H3,
          { doneLeft := true, doneRight := true,
            leftReference := some (.propRef base name),
            doneSetter := some w, value := .v w },
          .pushSetter sid2 base w) := by
      unfold stepAssignmentExpression
      unfold assignApplyWrite
      simp only [Bool.not_true, Bool.false_eq_true, if_false, hf,
        applyAssignOp, setValueRef, hset2, setterThis]
      simp [hf, applyAssignOp]
      rw [hset2]
    have h5 : stepAssignmentExpression E H3 fuel "=" strict scope0
        { doneLeft := true, doneRight := true,
          leftReference := some (.propRef base name),
          doneSetter := some w,
          value := orc (.pushSetter sid2 base w) } =
        .ok (H3,
          { doneLeft := true, doneRight := true,
            leftReference := some (.propRef base name),
            doneSetter := some w,
            value := orc (.pushSetter sid2 base w) },
          .finish w) := by
      unfold stepAssignmentExpression
      simp [hw]
    simp only [assignRun, h1, hoL, h2, hoR, h3, horcW, h4, h5]
  · intro hf horcL hset2 n
    have hstepL : stepAssignmentExpression E H2 fuel "=" strict scope0
        { doneLeft := true, doneRight := true,
          leftReference := some (.propRef base name),
          doneSetter := some rightVal, value := .v rightVal } =
        .ok (H2,
          { doneLeft := true, doneRight := true,
            leftReference := some (.propRef base name),
            doneSetter := some rightVal, value := .v rightVal },
          .pushSetter sid base rightVal) := by
      unfold stepAssignmentExpression
      unfold assignApplyWrite
      simp only [Bool.not_true, Bool.false_eq_true, if_false, hf,
        applyAssignOp, setValueRef, hset2, setterThis]
      simp [hf, applyAssignOp]
      rw [hset2]
    have hloop : ∀ k, assignRun E fuel "=" strict scope0 orc k H2
        { doneLeft := true, doneRight := true,
          leftReference := some (.propRef base name),
          doneSetter := some rightVal, value := .v rightVal } =
        .error .stuck := by
      intro k
      induction k with
      | zero => rfl
      | succ k2 ih => simp only [assignRun, hstepL, horcL, ih]
    match n with
    | 0 => rfl
    | 1 => simp only [assignRun, h1, hoL]
    | 2 => simp only [assignRun, h1, hoL, h2, hoR]
    | (k + 3) => simp only [assignRun, h1, hoL, h2, hoR, h3, horcL, hloop]

end JSI

namespace JSI

/-- C3 witness: the corrected theorem applied to the concrete setter
object in slot 20 of `H4` (setter function in slot 17): the truthy
assignment `o.b = 9` yields the single-setter trace with value 9 (the
returned 42 discarded); the falsy assignment `o.b = 0` with setter
return 42 yields the double-setter trace with value 42; with setter
return 0 the frame never completes (shown at step budget 10). -/
theorem claim_C3_witness :
    assignRun E0 25 "=" false 19 demoOrc 4 H4 {} =
      .ok (H4, [.pushLeft, .pushRight, .pushSetter 17 (.obj 20) (.num 9),
        .finish (.num 9)], .num 9) ∧
    assignRun E0 25 "=" false 19 demoOrc0 6 H4 {} =
      .ok (H4, [.pushLeft, .pushRight, .pushSetter 17 (.obj 20) (.num 0),
        .pushSetter 17 (.obj 20) (.num 42), .finish (.num 42)], .num 42) ∧
    assignRun E0 25 "=" false 19 demoOrcLoop 10 H4 {} = .error .stuck :=
  ⟨(claim_C3_assignment_setter_order E0 25 false 19 H4 H4 (.obj 20) "b"
      (.num 9) 17 demoOrc rfl rfl rfl).1 (by decide),
   (claim_C3_assignment_setter_order E0 25 false 19 H4 H4 (.obj 20) "b"
      (.num 0) 17 demoOrc0 rfl rfl rfl).2.1 (by decide) (.num 42) H4 17
      rfl (by decide) rfl,
   (claim_C3_assignment_setter_order E0 25 false 19 H4 H4 (.obj 20) "b"
      (.num 0) 17 demoOrcLoop rfl rfl rfl).2.2 (by decide) rfl rfl 10⟩

end JSI

namespace JSI

theorem map_fst_aset_absent {α : Type} (l : List (String × α)) (k : String)
    (v : α) (h : alookup l k = none) :
    (aset l k v).map Prod.fst = l.map Prod.fst ++ [k] := by
  induction l with
  | nil => simp [aset]
  | cons kv t ih =>
    by_cases hk : kv.1 = k
    · rw [show alookup (kv :: t) k = some kv.2 by simp [alookup, hk]] at h
      cases h
    · rw [show alookup (kv :: t) k = alookup t k by simp [alookup, hk]] at h
      simp [aset, hk, ih h]

end JSI

namespace JSI

theorem heap_set_get_ne (H : Heap) (a i : Nat) (o' : Obj) (h : a ≠ i) :
    (H.set a o')[i]? = H[i]? :=
  List.getElem?_set_ne h

theorem ctorPrototypeVal_set_ne (H : Heap) (a c : Nat) (o' : Obj)
    (h : a ≠ c) :
    ctorPrototypeVal (H.set a o') c = ctorPrototypeVal H c := by
  unfold ctorPrototypeVal
  rw [heap_set_get_ne H a c o' h]

theorem envWF_set (E : Env) (H : Heap) (a : Nat) (o' : Obj)
    (wf : EnvWF E H) (nb : NotBuiltin E a) : EnvWF E (H.set a o') := by
  obtain ⟨nbO, nbA, nbS, nbN, nbB, nbFC, nbAC, nbSC, nbNC, nbBC, nbEC,
    nbRC⟩ := nb
  exact { wf with
    objectProtoObj := by
      rw [heap_set_get_ne H a E.objectProto o' nbO]
      exact wf.objectProtoObj
    arrayProtoObj := by
      rw [heap_set_get_ne H a E.arrayProto o' nbA]
      exact wf.arrayProtoObj
    numberProtoObj := by
      rw [heap_set_get_ne H a E.numberProto o' nbN]
      exact wf.numberProtoObj
    booleanProtoObj := by
      rw [heap_set_get_ne H a E.booleanProto o' nbB]
      exact wf.booleanProtoObj
    stringProtoObj := by
      rw [heap_set_get_ne H a E.stringProto o' nbS]
      exact wf.stringProtoObj
    ctorFun := by
      rw [ctorPrototypeVal_set_ne H a E.functionCtor o' nbFC]
      exact wf.ctorFun
    ctorArr := by
      rw [ctorPrototypeVal_set_ne H a E.arrayCtor o' nbAC]
      exact wf.ctorArr
    ctorStr := by
      rw [ctorPrototypeVal_set_ne H a E.stringCtor o' nbSC]
      exact wf.ctorStr
    ctorNum := by
      rw [ctorPrototypeVal_set_ne H a E.numberCtor o' nbNC]
      exact wf.ctorNum
    ctorBool := by
      rw [ctorPrototypeVal_set_ne H a E.booleanCtor o' nbBC]
      exact wf.ctorBool
    ctorErr := by
      rw [ctorPrototypeVal_set_ne H a E.errorCtor o' nbEC]
      exact wf.ctorErr
    ctorRegexp := by
      rw [ctorPrototypeVal_set_ne H a E.regexpCtor o' nbRC]
      exact wf.ctorRegexp
    ltO := by rw [List.length_set]; exact wf.ltO
    ltA := by rw [List.length_set]; exact wf.ltA
    ltF := by rw [List.length_set]; exact wf.ltF
    ltS := by rw [List.length_set]; exact wf.ltS
    ltN := by rw [List.length_set]; exact wf.ltN
    ltB := by rw [List.length_set]; exact wf.ltB
    ltE := by rw [List.length_set]; exact wf.ltE
    ltR := by rw [List.length_set]; exact wf.ltR }

end JSI

namespace JSI

theorem isa_array_not_string (E : Env) (H : Heap) (wf : EnvWF E H)
    (k a : Nat) (o : Obj) (ho : H[a]? = some o)
    (hproto : o.protoId = some E.arrayProto) (hneS : a ≠ E.stringProto) :
    isa E H (k + 2) (.obj a) E.stringCtor = false := by
  obtain ⟨oA, hA, hAp, _, _⟩ := wf.arrayProtoObj
  unfold isa
  rw [if_neg (by simp), wf.ctorStr]
  have hgp : getPrototype E H (.obj a) = some E.arrayProto := by
    simp [getPrototype, ho, hproto]
  simp only [hgp]
  rw [if_neg (by simp [hneS])]
  exact chainContains_boxed_false E H wf E.arrayProto oA hA hAp k
    E.stringProto (fun h => wf.neSA h.symm) (fun h => wf.neSO h.symm)

theorem assignPart_receiver (E : Env) (H1 : Heap) (f a : Nat) (o1 : Obj)
    (name : String) (v : Value) (strict : Bool)
    (ha : H1[a]? = some o1)
    (hget : o1.getters = []) (hset : o1.setters = [])
    (hproto : o1.protoId = some E.arrayProto)
    (oA : Obj) (hA : H1[E.arrayProto]? = some oA)
    (hAp : oA.protoId = some E.objectProto) (hAg : oA.getters = [])
    (hAs : oA.setters = [])
    (oO : Obj) (hO : H1[E.objectProto]? = some oO)
    (hOp : oO.protoId = none) (hOg : oO.getters = []) (hOs : oO.setters = []) :
    assignPart E H1 (f + 3) a o1 name (some v) strict =
      .ok (H1.set a (hostSetProp o1 name v), none) := by
  have hset' : alookup o1.setters name = none := by rw [hset]; rfl
  have hget' : alookup o1.getters name = none := by rw [hget]; rfl
  have hAs' : alookup oA.setters name = none := by rw [hAs]; rfl
  have hAg' : alookup oA.getters name = none := by rw [hAg]; rfl
  have hOs' : alookup oO.setters name = none := by rw [hOs]; rfl
  have hOg' : alookup oO.getters name = none := by rw [hOg]; rfl
  unfold assignPart
  by_cases h1 : (alookup o1.props name).isSome = true
  · rw [findDefObj_hit H1 name a (f + 2) a o1 ha h1]
    simp only [ha, hset', hget']
  · have h1' : alookup o1.props name = none := by
      cases hx : alookup o1.props name
      · rfl
      · exact absurd (by rw [hx]; rfl) h1
    have step1 : findDefObj H1 name a (f + 3) a =
        findDefObj H1 name a (f + 2) E.arrayProto := by
      unfold findDefObj
      rw [ha]
      show (if (alookup o1.props name).isSome = true then some a
        else match o1.protoId with
          | some p => findDefObj H1 name a (f + 2) p
          | none => some a) = _
      rw [h1']
      simp only [Option.isSome_none, Bool.false_eq_true, if_false]
      rw [hproto]
      rfl
    by_cases h2 : (alookup oA.props name).isSome = true
    · rw [step1, findDefObj_hit H1 name a (f + 1) E.arrayProto oA hA h2]
      simp only [hA, hAs', hAg']
    · have h2' : alookup oA.props name = none := by
        cases hx : alookup oA.props name
        · rfl
        · exact absurd (by rw [hx]; rfl) h2
      have step2 : findDefObj H1 name a (f + 2) E.arrayProto =
          findDefObj H1 name a (f + 1) E.objectProto := by
        unfold findDefObj
        rw [hA]
        show (if (alookup oA.props name).isSome = true then some E.arrayProto
          else match oA.protoId with
            | some p => findDefObj H1 name a (f + 1) p
            | none => some a) = _
        rw [h2']
        simp only [Option.isSome_none, Bool.false_eq_true, if_false]
        rw [hAp]
        rfl
      by_cases h3 : (alookup oO.props name).isSome = true
      · rw [step1, step2,
          findDefObj_hit H1 name a f E.objectProto oO hO h3]
        simp only [hO, hOs', hOg']
      · have h3' : alookup oO.props name = none := by
          cases hx : alookup oO.props name
          · rfl
          · exact absurd (by rw [hx]; rfl) h3
        rw [step1, step2,
          findDefObj_protoNone H1 name a f E.objectProto oO hO h3' hOp]
        simp only [ha, hset', hget']

theorem setProperty_array_ok (E : Env) (H : Heap) (f a : Nat) (o o1 : Obj)
    (strict : Bool) (name : String) (v v1 : Value)
    (wf : EnvWF E H) (ho : H[a]? = some o)
    (hproto : o.protoId = some E.arrayProto) (hneS : a ≠ E.stringProto)
    (hneA : a ≠ E.arrayProto) (hneO : a ≠ E.objectProto)
    (hmagic : arrayMagic o name (some v) = .ok (o1, some v1))
    (hg1 : o1.getters = []) (hs1 : o1.setters = [])
    (hp1 : o1.protoId = some E.arrayProto) (hpe1 : o1.preventExt = false) :
    setProperty E H (f + 3) (.obj a) name (some v) none strict =
      .ok (H.set a (hostSetProp o1 name v1), none) := by
  have halen : a < H.length := (List.getElem?_eq_some.mp ho).1
  obtain ⟨oA, hA0, hAp, hAg, hAs⟩ := wf.arrayProtoObj
  obtain ⟨oO, hO0, hOp, hOg, hOs⟩ := wf.objectProtoObj
  unfold setProperty
  rw [if_neg (by simp)]
  simp only [Option.isSome_none, Bool.false_or, Bool.or_false, Bool.false_and,
    Bool.and_false, Bool.false_eq_true, if_false]
  rw [ho]
  simp only [isa_array_not_string E H wf (f + 1) a o ho hproto hneS,
    Bool.false_and, Bool.false_eq_true, if_false]
  simp only [hmagic]
  simp only [hpe1, Bool.false_and, Bool.false_eq_true, if_false]
  rw [assignPart_receiver E (H.set a o1) f a o1 name v1 strict
    (by rw [List.getElem?_set_self halen]) hg1 hs1 hp1
    oA (by rw [heap_set_get_ne H a E.arrayProto o1 hneA]; exact hA0) hAp hAg hAs
    oO (by rw [heap_set_get_ne H a E.objectProto o1 hneO]; exact hO0) hOp
    hOg hOs]
  rw [List.set_set]

theorem arrayMagic_index (o : Obj) (name : String) (i : Nat) (v : Value)
    (hcls : o.cls = "Array") (hnm : ¬ name = "length")
    (hleg : legalArrayIndex name = some i) :
    arrayMagic o name (some v) =
      .ok (hostSetProp o "length"
        (jsMaxLen (alookup o.props "length") (Int.ofNat (i + 1))), some v) := by
  unfold arrayMagic
  rw [if_pos hcls, if_neg hnm]
  simp only [hleg]

theorem jsMaxLen_num (pd : PropData) (n i1 : Nat)
    (hlv : pd.value = .num (Int.ofNat n)) :
    jsMaxLen (some pd) (Int.ofNat i1) = .num (Int.ofNat (max n i1)) := by
  unfold jsMaxLen
  simp only [hlv, Int.ofNat_eq_coe, Nat.cast_max]

end JSI

namespace JSI

end JSI


namespace JSI

end JSI

namespace JSI

end JSI

namespace JSI

end JSI

namespace JSI

theorem digitChar_isDigit : ∀ d, d < 10 → (Nat.digitChar d).isDigit = true := by
  decide

theorem digitChar_toNat : ∀ d, d < 10 → (Nat.digitChar d).toNat - 48 = d := by
  decide

theorem digitChar_ne_zero : ∀ d, d < 10 → 0 < d → Nat.digitChar d ≠ '0' := by
  decide

theorem toDigitsCore_acc (n : Nat) : ∀ (f : Nat) (acc : List Char), n < f →
    Nat.toDigitsCore 10 f n acc = Nat.toDigitsCore 10 (n + 1) n [] ++ acc := by
  induction n using Nat.strong_induction_on with
  | _ n ih =>
    intro f acc hf
    cases f with
    | zero => omega
    | succ f2 =>
      simp only [Nat.toDigitsCore]
      by_cases hz : n / 10 = 0
      · rw [if_pos hz, if_pos hz]
        rfl
      · rw [if_neg hz, if_neg hz]
        have hlt : n / 10 < n := Nat.div_lt_self (by omega) (by omega)
        rw [ih (n / 10) hlt f2 (Nat.digitChar (n % 10) :: acc) (by omega)]
        rw [ih (n / 10) hlt n [Nat.digitChar (n % 10)] (by omega)]
        simp

theorem toDigits_small (n : Nat) (hz : n / 10 = 0) :
    Nat.toDigits 10 n = [Nat.digitChar n] := by
  have hlt : n < 10 := by omega
  show Nat.toDigitsCore 10 (n + 1) n [] = _
  simp only [Nat.toDigitsCore]
  rw [if_pos hz, Nat.mod_eq_of_lt hlt]

theorem toDigits_step (n : Nat) (hz : ¬ n / 10 = 0) :
    Nat.toDigits 10 n =
      Nat.toDigits 10 (n / 10) ++ [Nat.digitChar (n % 10)] := by
  show Nat.toDigitsCore 10 (n + 1) n [] = _
  simp only [Nat.toDigitsCore]
  rw [if_neg hz]
  have hlt : n / 10 < n := Nat.div_lt_self (by omega) (by omega)
  rw [toDigitsCore_acc (n / 10) n [Nat.digitChar (n % 10)] (by omega)]
  rfl

theorem toDigits_all_digits (n : Nat) :
    (Nat.toDigits 10 n).all Char.isDigit = true := by
  induction n using Nat.strong_induction_on with
  | _ n ih =>
    by_cases hz : n / 10 = 0
    · rw [toDigits_small n hz]
      simp [digitChar_isDigit n (by omega)]
    · rw [toDigits_step n hz]
      rw [List.all_append]
      have hlt : n / 10 < n := Nat.div_lt_self (by omega) (by omega)
      simp [ih (n / 10) hlt,
        digitChar_isDigit (n % 10) (Nat.mod_lt n (by omega))]

theorem digitsVal_append_singleton (l : List Char) (c : Char) :
    digitsVal (l ++ [c]) = digitsVal l * 10 + (c.toNat - 48) := by
  unfold digitsVal
  rw [List.foldl_append]
  rfl

theorem digitsVal_toDigits (n : Nat) : digitsVal (Nat.toDigits 10 n) = n := by
  induction n using Nat.strong_induction_on with
  | _ n ih =>
    by_cases hz : n / 10 = 0
    · have hlt : n < 10 := by omega
      rw [toDigits_small n hz]
      have : digitsVal [Nat.digitChar n] = (Nat.digitChar n).toNat - 48 := by
        unfold digitsVal
        simp [List.foldl]
      rw [this, digitChar_toNat n hlt]
    · have hlt : n / 10 < n := Nat.div_lt_self (by omega) (by omega)
      rw [toDigits_step n hz, digitsVal_append_singleton, ih (n / 10) hlt,
        digitChar_toNat (n % 10) (Nat.mod_lt n (by omega))]
      omega

theorem toDigits_ne_nil (n : Nat) : Nat.toDigits 10 n ≠ [] := by
  by_cases hz : n / 10 = 0
  · rw [toDigits_small n hz]
    simp
  · rw [toDigits_step n hz]
    simp

theorem toDigits_head_ne_zero (n : Nat) : n ≠ 0 →
    ∀ c, (Nat.toDigits 10 n).head? = some c → c ≠ '0' := by
  induction n using Nat.strong_induction_on with
  | _ n ih =>
    intro hn c hc
    by_cases hz : n / 10 = 0
    · rw [toDigits_small n hz] at hc
      have hce := Option.some.inj hc
      rw [← hce]
      exact digitChar_ne_zero n (by omega) (by omega)
    · rw [toDigits_step n hz] at hc
      have hlt : n / 10 < n := Nat.div_lt_self (by omega) (by omega)
      cases hl : Nat.toDigits 10 (n / 10) with
      | nil => exact absurd hl (toDigits_ne_nil (n / 10))
      | cons a t =>
        rw [hl] at hc
        have hca : c = a := (Option.some.inj hc).symm
        rw [hca]
        exact ih (n / 10) hlt hz a (by rw [hl]; rfl)

theorem canonicalNat_repr (n : Nat) : canonicalNat (Nat.repr n) = some n := by
  by_cases hn : n = 0
  · subst hn
    decide
  · have hdata : (Nat.repr n).data = Nat.toDigits 10 n := rfl
    unfold canonicalNat allDigits
    rw [hdata]
    have h1 : (Nat.toDigits 10 n).isEmpty = false := by
      cases hl : Nat.toDigits 10 n with
      | nil => exact absurd hl (toDigits_ne_nil n)
      | cons a t => rfl
    rw [h1, toDigits_all_digits n]
    have h2 : decide ((Nat.toDigits 10 n).head? = some '0') = false := by
      rw [decide_eq_false_iff_not]
      intro hc
      cases hl : Nat.toDigits 10 n with
      | nil => exact absurd hl (toDigits_ne_nil n)
      | cons a t =>
        rw [hl] at hc
        exact toDigits_head_ne_zero n hn a (by rw [hl]; rfl)
          (Option.some.inj hc)
    simp only [Bool.not_false, Bool.true_and, h2, Bool.false_and,
      Bool.false_eq_true, if_false, reduceIte]
    rw [digitsVal_toDigits n]

theorem canonicalNat_toString (i : Nat) : canonicalNat (toString i) = some i :=
  canonicalNat_repr i

theorem legalArrayIndex_toString (i : Nat) (h : i < 4294967295) :
    legalArrayIndex (toString i) = some i := by
  unfold legalArrayIndex
  rw [canonicalNat_toString]
  simp only [if_pos h]

theorem toString_ne_length (i : Nat) : toString i ≠ "length" := by
  intro h
  have hc := canonicalNat_toString i
  rw [h] at hc
  rw [(by decide : canonicalNat "length" = (none : Option Nat))] at hc
  exact Option.noConfusion hc

theorem toString_nat_inj (i j : Nat) (h : toString i = toString j) : i = j := by
  have hi := canonicalNat_toString i
  rw [h, canonicalNat_toString j] at hi
  exact (Option.some.inj hi).symm

end JSI

namespace JSI

theorem heap_append_get_left (H L : Heap) (j : Nat) (h : j < H.length) :
    (H ++ L)[j]? = H[j]? :=
  List.getElem?_append_left h

theorem heap_append_get_self (H : Heap) (o : Obj) :
    (H ++ [o])[H.length]? = some o := by
  rw [List.getElem?_append_right (Nat.le_refl _)]
  simp

theorem heap_set_append_last (H : Heap) (a b : Obj) :
    (H ++ [a]).set H.length b = H ++ [b] := by
  rw [List.set_append_right _ _ (Nat.le_refl _)]
  simp

theorem ctorPrototypeVal_lt (H : Heap) (c p : Nat)
    (h : ctorPrototypeVal H c = .obj p) : c < H.length := by
  unfold ctorPrototypeVal at h
  cases hc : H[c]? with
  | none => rw [hc] at h; exact Value.noConfusion h
  | some o => exact (List.getElem?_eq_some.mp hc).1

theorem ctorPrototypeVal_frame (H H2 : Heap) (c : Nat)
    (hc : c < H.length) (hagree : ∀ j, j < H.length → H2[j]? = H[j]?) :
    ctorPrototypeVal H2 c = ctorPrototypeVal H c := by
  unfold ctorPrototypeVal
  rw [hagree c hc]

theorem envWF_frame (E : Env) (H H2 : Heap) (wf : EnvWF E H)
    (hlen : H.length ≤ H2.length)
    (hagree : ∀ j, j < H.length → H2[j]? = H[j]?) : EnvWF E H2 := by
  have hctor : ∀ c t, ctorPrototypeVal H c = .obj t →
      ctorPrototypeVal H2 c = .obj t := by
    intro c t h
    rw [ctorPrototypeVal_frame H H2 c (ctorPrototypeVal_lt H c t h) hagree]
    exact h
  exact { wf with
    objectProtoObj := by rw [hagree E.objectProto wf.ltO]; exact wf.objectProtoObj
    arrayProtoObj := by rw [hagree E.arrayProto wf.ltA]; exact wf.arrayProtoObj
    numberProtoObj := by rw [hagree E.numberProto wf.ltN]; exact wf.numberProtoObj
    booleanProtoObj := by
      rw [hagree E.booleanProto wf.ltB]; exact wf.booleanProtoObj
    stringProtoObj := by
      rw [hagree E.stringProto wf.ltS]; exact wf.stringProtoObj
    ctorFun := hctor E.functionCtor E.functionProto wf.ctorFun
    ctorArr := hctor E.arrayCtor E.arrayProto wf.ctorArr
    ctorStr := hctor E.stringCtor E.stringProto wf.ctorStr
    ctorNum := hctor E.numberCtor E.numberProto wf.ctorNum
    ctorBool := hctor E.booleanCtor E.booleanProto wf.ctorBool
    ctorErr := hctor E.errorCtor E.errorProto wf.ctorErr
    ctorRegexp := hctor E.regexpCtor E.regexpProto wf.ctorRegexp
    ltO := Nat.lt_of_lt_of_le wf.ltO hlen
    ltA := Nat.lt_of_lt_of_le wf.ltA hlen
    ltF := Nat.lt_of_lt_of_le wf.ltF hlen
    ltS := Nat.lt_of_lt_of_le wf.ltS hlen
    ltN := Nat.lt_of_lt_of_le wf.ltN hlen
    ltB := Nat.lt_of_lt_of_le wf.ltB hlen
    ltE := Nat.lt_of_lt_of_le wf.ltE hlen
    ltR := Nat.lt_of_lt_of_le wf.ltR hlen }

theorem envWF_append (E : Env) (H L : Heap) (wf : EnvWF E H) :
    EnvWF E (H ++ L) :=
  envWF_frame E H (H ++ L) wf (by simp)
    (fun j hj => heap_append_get_left H L j hj)

theorem stackIdx_none (stack : List Nat) (id : Nat)
    (h : ∀ s ∈ stack, s ≠ id) : stackIdx stack id = none := by
  induction stack with
  | nil => rfl
  | cons x t ih =>
    unfold stackIdx
    rw [if_neg (h x (List.mem_cons_self x t))]
    rw [ih (fun s hs => h s (List.mem_cons_of_mem x hs))]
    rfl

theorem stackIdx_mem (stack : List Nat) (id : Nat) (h : id ∈ stack) :
    (stackIdx stack id).isSome = true := by
  induction stack with
  | nil => exact absurd h (List.not_mem_nil id)
  | cons x t ih =>
    unfold stackIdx
    by_cases hx : x = id
    · rw [if_pos hx]
      rfl
    · rw [if_neg hx]
      rcases List.mem_cons.mp h with he | hm
      · exact absurd he.symm hx
      · cases hs : stackIdx t id with
        | none => rw [hs] at ih; exact absurd (ih hm) (by simp)
        | some k => rfl

end JSI

namespace JSI

theorem isa_proto_true (E : Env) (H : Heap) (k a : Nat) (o : Obj)
    (t c : Nat) (ho : H[a]? = some o) (hproto : o.protoId = some t)
    (hctor : ctorPrototypeVal H c = .obj t) :
    isa E H (k + 1) (.obj a) c = true := by
  unfold isa
  rw [if_neg (by simp), hctor]
  have hgp : getPrototype E H (.obj a) = some t := by
    simp [getPrototype, ho, hproto]
  simp only [hgp]
  by_cases hat : a = t
  · rw [if_pos (by rw [hat])]
  · rw [if_neg (by simp [hat])]
    unfold chainContains
    rw [if_pos rfl]

theorem isa_proto2_false (E : Env) (H : Heap) (wf : EnvWF E H)
    (k a : Nat) (o : Obj) (p1 t c : Nat)
    (ho : H[a]? = some o) (hproto : o.protoId = some p1)
    (oP : Obj) (hp1 : H[p1]? = some oP)
    (hp1p : oP.protoId = some E.objectProto)
    (hctor : ctorPrototypeVal H c = .obj t)
    (hne0 : a ≠ t) (hne1 : p1 ≠ t) (hne2 : E.objectProto ≠ t) :
    isa E H (k + 2) (.obj a) c = false := by
  unfold isa
  rw [if_neg (by simp), hctor]
  have hgp : getPrototype E H (.obj a) = some p1 := by
    simp [getPrototype, ho, hproto]
  simp only [hgp]
  rw [if_neg (by simp [hne0])]
  exact chainContains_boxed_false E H wf p1 oP hp1 hp1p k t hne1 hne2

theorem isa_protoO_false (E : Env) (H : Heap) (wf : EnvWF E H)
    (k a : Nat) (o : Obj) (t c : Nat)
    (ho : H[a]? = some o) (hproto : o.protoId = some E.objectProto)
    (hctor : ctorPrototypeVal H c = .obj t)
    (hne0 : a ≠ t) (hne2 : E.objectProto ≠ t) :
    isa E H (k + 2) (.obj a) c = false := by
  unfold isa
  rw [if_neg (by simp), hctor]
  have hgp : getPrototype E H (.obj a) = some E.objectProto := by
    simp [getPrototype, ho, hproto]
  simp only [hgp]
  rw [if_neg (by simp [hne0])]
  exact chainContains_objectProto_false E H wf (k + 1) t hne2

theorem setCls_append_last (H : Heap) (o : Obj) (c : String) :
    setCls (H ++ [o]) H.length c = H ++ [{ o with cls := c }] := by
  unfold setCls
  simp only [heap_append_get_self]
  rw [heap_set_append_last]

end JSI

namespace JSI

theorem ok_bind {ε α β : Type} (x : α) (g : α → Except ε β) :
    (Except.ok x : Except ε α) >>= g = g x := rfl

theorem err_bind {ε α β : Type} (e : ε) (g : α → Except ε β) :
    (Except.error e : Except ε α) >>= g = .error e := rfl

theorem setProperty_len_descriptor (E : Env) (H1 : Heap) (fl id : Nat)
    (strict : Bool) (hfl : 2 ≤ fl) (wf1 : EnvWF E H1)
    (ho : H1[id]? = some (Obj.fresh (some E.arrayProto)))
    (hneS : id ≠ E.stringProto) :
    setProperty E H1 fl (.obj id) "length" (some (.num 0))
      (some { configurableK := some false, enumerableK := some false,
              writableK := some true }) strict =
      .ok (H1.set id { Obj.fresh (some E.arrayProto) with
        props := [("length", lenPd 0)] }, none) := by
  obtain ⟨f, rfl⟩ : ∃ f, fl = f + 2 := ⟨fl - 2, by omega⟩
  unfold setProperty
  rw [if_neg (by simp)]
  simp only [Option.isSome_none, Option.isSome_some, Bool.false_or,
    Bool.or_true, Bool.or_false, Bool.false_and, Bool.and_false,
    Bool.false_eq_true, if_false]
  rw [ho]
  simp only [isa_array_not_string E H1 wf1 f id (Obj.fresh (some E.arrayProto))
    ho rfl hneS, Bool.false_and, Bool.false_eq_true, if_false]
  simp only [arrayMagic_nonArray (Obj.fresh (some E.arrayProto)) "length"
    (some (.num 0)) (by simp [Obj.fresh])]
  rw [list_set_self H1 id (Obj.fresh (some E.arrayProto)) ho]
  simp only [Obj.fresh, Bool.false_and, Bool.false_eq_true, if_false]
  rfl

end JSI

namespace JSI

theorem createObjectProto_array (E : Env) (H : Heap) (strict : Bool)
    (wf : EnvWF E H) :
    createObjectProto E strict (H.length + 1) H (some E.arrayProto) =
      .ok (H ++ [arrObj E []], H.length) := by
  have wf1 : EnvWF E (H ++ [Obj.fresh (some E.arrayProto)]) :=
    envWF_append E H _ wf
  have hfr : (H ++ [Obj.fresh (some E.arrayProto)])[H.length]? =
      some (Obj.fresh (some E.arrayProto)) := heap_append_get_self H _
  obtain ⟨oA, hA, hAp, _, _⟩ := wf1.arrayProtoObj
  have hlen1 : (H ++ [Obj.fresh (some E.arrayProto)]).length = H.length + 1 :=
    by simp
  have hisaF : isa E (H ++ [Obj.fresh (some E.arrayProto)])
      ((H ++ [Obj.fresh (some E.arrayProto)]).length + 1) (.obj H.length)
      E.functionCtor = false := by
    rw [hlen1]
    exact isa_proto2_false E _ wf1 H.length H.length
      (Obj.fresh (some E.arrayProto)) E.arrayProto E.functionProto
      E.functionCtor hfr rfl oA hA hAp wf1.ctorFun
      (by have := wf.ltF; omega) (fun h => wf.neFA h.symm)
      (fun h => wf.neFO h.symm)
  have hisaA : isa E (H ++ [Obj.fresh (some E.arrayProto)])
      ((H ++ [Obj.fresh (some E.arrayProto)]).length + 1) (.obj H.length)
      E.arrayCtor = true := by
    rw [hlen1]
    exact isa_proto_true E _ (H.length + 1) H.length
      (Obj.fresh (some E.arrayProto)) E.arrayProto E.arrayCtor hfr rfl
      wf1.ctorArr
  have hsp := setProperty_len_descriptor E (H ++ [Obj.fresh (some E.arrayProto)])
    ((H ++ [Obj.fresh (some E.arrayProto)]).length + 1) H.length strict
    (by simp) wf1 hfr (by have := wf.ltS; omega)
  have hset1 : (H ++ [Obj.fresh (some E.arrayProto)]).set H.length
      { Obj.fresh (some E.arrayProto) with props := [("length", lenPd 0)] } =
      H ++ [{ Obj.fresh (some E.arrayProto) with
        props := [("length", lenPd 0)] }] := heap_set_append_last H _ _
  have hsetcls : setCls (H ++ [{ Obj.fresh (some E.arrayProto) with
      props := [("length", lenPd 0)] }]) H.length "Array" =
      H ++ [arrObj E []] := by
    rw [setCls_append_last]
    rfl
  have wf3 : EnvWF E (H ++ [arrObj E []]) := envWF_append E H _ wf
  obtain ⟨oA3, hA3, hAp3, _, _⟩ := wf3.arrayProtoObj
  have hfr3 : (H ++ [arrObj E []])[H.length]? = some (arrObj E []) :=
    heap_append_get_self H _
  have hisaE : isa E (H ++ [arrObj E []])
      ((H ++ [arrObj E []]).length + 1) (.obj H.length)
      E.errorCtor = false := by
    rw [(by simp : (H ++ [arrObj E []]).length = H.length + 1)]
    exact isa_proto2_false E _ wf3 H.length H.length (arrObj E [])
      E.arrayProto E.errorProto E.errorCtor hfr3 rfl oA3 hA3 hAp3
      wf3.ctorErr (by have := wf.ltE; omega) (fun h => wf.neEA h.symm)
      (fun h => wf.neEO h.symm)
  unfold createObjectProto
  simp only [hisaF, Bool.false_eq_true, if_false, pure_bind, hisaA, if_true,
    reduceIte, hsp, ok_bind, hset1, hsetcls, hisaE]
  rfl

theorem createObjectProto_plain (E : Env) (H : Heap) (strict : Bool)
    (wf : EnvWF E H) :
    createObjectProto E strict (H.length + 1) H (some E.objectProto) =
      .ok (H ++ [Obj.fresh (some E.objectProto)], H.length) := by
  have wf1 : EnvWF E (H ++ [Obj.fresh (some E.objectProto)]) :=
    envWF_append E H _ wf
  have hfr : (H ++ [Obj.fresh (some E.objectProto)])[H.length]? =
      some (Obj.fresh (some E.objectProto)) := heap_append_get_self H _
  have hlen1 : (H ++ [Obj.fresh (some E.objectProto)]).length = H.length + 1 :=
    by simp
  have hisaF : isa E (H ++ [Obj.fresh (some E.objectProto)])
      ((H ++ [Obj.fresh (some E.objectProto)]).length + 1) (.obj H.length)
      E.functionCtor = false := by
    rw [hlen1]
    exact isa_protoO_false E _ wf1 H.length H.length
      (Obj.fresh (some E.objectProto)) E.functionProto E.functionCtor hfr rfl
      wf1.ctorFun (by have := wf.ltF; omega) (fun h => wf.neFO h.symm)
  have hisaA : isa E (H ++ [Obj.fresh (some E.objectProto)])
      ((H ++ [Obj.fresh (some E.objectProto)]).length + 1) (.obj H.length)
      E.arrayCtor = false := by
    rw [hlen1]
    exact isa_protoO_false E _ wf1 H.length H.length
      (Obj.fresh (some E.objectProto)) E.arrayProto E.arrayCtor hfr rfl
      wf1.ctorArr (by have := wf.ltA; omega) (fun h => wf.neAO h.symm)
  have hisaE : isa E (H ++ [Obj.fresh (some E.objectProto)])
      ((H ++ [Obj.fresh (some E.objectProto)]).length + 1) (.obj H.length)
      E.errorCtor = false := by
    rw [hlen1]
    exact isa_protoO_false E _ wf1 H.length H.length
      (Obj.fresh (some E.objectProto)) E.errorProto E.errorCtor hfr rfl
      wf1.ctorErr (by have := wf.ltE; omega) (fun h => wf.neEO h.symm)
  unfold createObjectProto
  simp only [hisaF, hisaA, hisaE, Bool.false_eq_true, if_false, pure_bind]
  rfl

end JSI

namespace JSI

theorem convVal_mono (E : Env) (lo lo2 hi hi2 : Nat) (H2 H2' : Heap)
    (w : Value) (e : NativeVal) (h : ConvVal E lo hi H2 w e)
    (hlo : lo2 ≤ lo) (hhi : hi ≤ hi2)
    (hag : ∀ j, lo ≤ j → j < hi → H2'[j]? = H2[j]?) :
    ConvVal E lo2 hi2 H2' w e := by
  intro G wfG hagree stack hstack f
  exact h G wfG
    (fun j hj1 hj2 => ((hagree j (Nat.le_trans hlo hj1)
      (Nat.lt_of_lt_of_le hj2 hhi)).trans (hag j hj1 hj2)))
    stack (fun s hs => Nat.lt_of_lt_of_le (hstack s hs) hlo) f

theorem notBuiltin_of_ge (E : Env) (H : Heap) (wf : EnvWF E H) (id : Nat)
    (h : H.length ≤ id) : NotBuiltin E id := by
  have hFC := ctorPrototypeVal_lt H E.functionCtor E.functionProto wf.ctorFun
  have hAC := ctorPrototypeVal_lt H E.arrayCtor E.arrayProto wf.ctorArr
  have hSC := ctorPrototypeVal_lt H E.stringCtor E.stringProto wf.ctorStr
  have hNC := ctorPrototypeVal_lt H E.numberCtor E.numberProto wf.ctorNum
  have hBC := ctorPrototypeVal_lt H E.booleanCtor E.booleanProto wf.ctorBool
  have hEC := ctorPrototypeVal_lt H E.errorCtor E.errorProto wf.ctorErr
  have hRC := ctorPrototypeVal_lt H E.regexpCtor E.regexpProto wf.ctorRegexp
  have h1 := wf.ltO
  have h2 := wf.ltA
  have h3 := wf.ltS
  have h4 := wf.ltN
  have h5 := wf.ltB
  exact ⟨by omega, by omega, by omega, by omega, by omega, by omega,
    by omega, by omega, by omega, by omega, by omega, by omega⟩

theorem setProperty_array_ok_fuel (E : Env) (H : Heap) (fl a : Nat)
    (o o1 : Obj) (strict : Bool) (name : String) (v v1 : Value)
    (hfl : 3 ≤ fl)
    (wf : EnvWF E H) (ho : H[a]? = some o)
    (hproto : o.protoId = some E.arrayProto) (hneS : a ≠ E.stringProto)
    (hneA : a ≠ E.arrayProto) (hneO : a ≠ E.objectProto)
    (hmagic : arrayMagic o name (some v) = .ok (o1, some v1))
    (hg1 : o1.getters = []) (hs1 : o1.setters = [])
    (hp1 : o1.protoId = some E.arrayProto) (hpe1 : o1.preventExt = false) :
    setProperty E H fl (.obj a) name (some v) none strict =
      .ok (H.set a (hostSetProp o1 name v1), none) := by
  obtain ⟨f, rfl⟩ : ∃ f, fl = f + 3 := ⟨fl - 3, by omega⟩
  exact setProperty_array_ok E H f a o o1 strict name v v1 wf ho hproto
    hneS hneA hneO hmagic hg1 hs1 hp1 hpe1

theorem assignPart_receiver_obj (E : Env) (H1 : Heap) (fl a : Nat)
    (o1 : Obj) (name : String) (v : Value) (strict : Bool)
    (hfl : 2 ≤ fl)
    (ha : H1[a]? = some o1)
    (hget : o1.getters = []) (hset : o1.setters = [])
    (hproto : o1.protoId = some E.objectProto)
    (oO : Obj) (hO : H1[E.objectProto]? = some oO)
    (hOp : oO.protoId = none) (hOg : oO.getters = []) (hOs : oO.setters = []) :
    assignPart E H1 fl a o1 name (some v) strict =
      .ok (H1.set a (hostSetProp o1 name v), none) := by
  obtain ⟨f, rfl⟩ : ∃ f, fl = f + 2 := ⟨fl - 2, by omega⟩
  have hset' : alookup o1.setters name = none := by rw [hset]; rfl
  have hget' : alookup o1.getters name = none := by rw [hget]; rfl
  have hOs' : alookup oO.setters name = none := by rw [hOs]; rfl
  have hOg' : alookup oO.getters name = none := by rw [hOg]; rfl
  unfold assignPart
  by_cases h1 : (alookup o1.props name).isSome = true
  · rw [findDefObj_hit H1 name a (f + 1) a o1 ha h1]
    simp only [ha, hset', hget']
  · have h1' : alookup o1.props name = none := by
      cases hx : alookup o1.props name
      · rfl
      · exact absurd (by rw [hx]; rfl) h1
    have step1 : findDefObj H1 name a (f + 2) a =
        findDefObj H1 name a (f + 1) E.objectProto := by
      unfold findDefObj
      rw [ha]
      show (if (alookup o1.props name).isSome = true then some a
        else match o1.protoId with
          | some p => findDefObj H1 name a (f + 1) p
          | none => some a) = _
      rw [h1']
      simp only [Option.isSome_none, Bool.false_eq_true, if_false]
      rw [hproto]
      rfl
    by_cases h2 : (alookup oO.props name).isSome = true
    · rw [step1, findDefObj_hit H1 name a f E.objectProto oO hO h2]
      simp only [hO, hOs', hOg']
    · have h2' : alookup oO.props name = none := by
        cases hx : alookup oO.props name
        · rfl
        · exact absurd (by rw [hx]; rfl) h2
      rw [step1, findDefObj_protoNone H1 name a f E.objectProto oO hO h2' hOp]
      simp only [ha, hset', hget']

theorem setProperty_obj_ok (E : Env) (H : Heap) (fl a : Nat) (o : Obj)
    (strict : Bool) (name : String) (v : Value)
    (hfl : 2 ≤ fl)
    (wf : EnvWF E H) (ho : H[a]? = some o)
    (hcls : ¬ o.cls = "Array")
    (hproto : o.protoId = some E.objectProto) (hneS : a ≠ E.stringProto)
    (hneO : a ≠ E.objectProto)
    (hget : o.getters = []) (hset : o.setters = [])
    (hpe : o.preventExt = false) :
    setProperty E H fl (.obj a) name (some v) none strict =
      .ok (H.set a (hostSetProp o name v), none) := by
  obtain ⟨f, rfl⟩ : ∃ f, fl = f + 2 := ⟨fl - 2, by omega⟩
  have halen : a < H.length := (List.getElem?_eq_some.mp ho).1
  obtain ⟨oO, hO0, hOp, hOg, hOs⟩ := wf.objectProtoObj
  unfold setProperty
  rw [if_neg (by simp)]
  simp only [Option.isSome_none, Bool.false_or, Bool.or_false, Bool.false_and,
    Bool.and_false, Bool.false_eq_true, if_false]
  rw [ho]
  simp only [isa_protoO_false E H wf f a o E.stringProto E.stringCtor ho
    hproto wf.ctorStr hneS (fun h => wf.neSO h.symm),
    Bool.false_and, Bool.false_eq_true, if_false]
  simp only [arrayMagic_nonArray o name (some v) hcls]
  rw [list_set_self H a o ho]
  simp only [hpe, Bool.false_and, Bool.false_eq_true, if_false]
  rw [assignPart_receiver_obj E H (f + 2) a o name v strict
    (by omega) ho hget hset hproto oO hO0 hOp hOg hOs]

end JSI

namespace JSI

theorem aset_cons_hit {α : Type} (k : String) (x y : α)
    (t : List (String × α)) : aset ((k, x) :: t) k y = (k, y) :: t := by
  simp [aset]

theorem elemProps_alookup_ge (ws : List Value) : ∀ (s k : Nat),
    s + ws.length ≤ k → alookup (elemProps s ws) (toString k) = none := by
  induction ws with
  | nil => intro s k _; rfl
  | cons w t ih =>
    intro s k hk
    unfold elemProps
    show alookup ((toString s, PropData.plain w) :: elemProps (s + 1) t)
      (toString k) = none
    rw [show alookup ((toString s, PropData.plain w) :: elemProps (s + 1) t)
        (toString k) = alookup (elemProps (s + 1) t) (toString k) by
      simp only [alookup]
      rw [if_neg]
      intro hc
      have := toString_nat_inj s k hc
      simp only [List.length_cons] at hk
      omega]
    exact ih (s + 1) k (by simp only [List.length_cons] at hk; omega)

theorem elemProps_alookup_lt (ws : List Value) : ∀ (s k : Nat)
    (hk : k < ws.length),
    alookup (elemProps s ws) (toString (s + k)) =
      some (PropData.plain (ws.get ⟨k, hk⟩)) := by
  induction ws with
  | nil => intro s k hk; simp at hk
  | cons w t ih =>
    intro s k hk
    unfold elemProps
    cases k with
    | zero =>
      show alookup ((toString s, PropData.plain w) :: elemProps (s + 1) t)
        (toString (s + 0)) = some (PropData.plain w)
      simp only [alookup, Nat.add_zero]
      rw [if_pos trivial]
    | succ j =>
      show alookup ((toString s, PropData.plain w) :: elemProps (s + 1) t)
        (toString (s + (j + 1))) = some (PropData.plain (t.get ⟨j, by
          simp only [List.length_cons] at hk; omega⟩))
      rw [show alookup ((toString s, PropData.plain w) :: elemProps (s + 1) t)
          (toString (s + (j + 1))) =
          alookup (elemProps (s + 1) t) (toString (s + (j + 1))) by
        simp only [alookup]
        rw [if_neg]
        intro hc
        have := toString_nat_inj s (s + (j + 1)) hc
        omega]
      rw [show s + (j + 1) = (s + 1) + j by omega]
      exact ih (s + 1) j (by simp only [List.length_cons] at hk; omega)

theorem elemProps_append (ws : List Value) : ∀ (s : Nat) (w : Value),
    elemProps s (ws ++ [w]) =
      elemProps s ws ++ [(toString (s + ws.length), PropData.plain w)] := by
  induction ws with
  | nil => intro s w; simp [elemProps]
  | cons w0 t ih =>
    intro s w
    show (toString s, PropData.plain w0) :: elemProps (s + 1) (t ++ [w]) = _
    rw [ih (s + 1) w]
    simp only [elemProps, List.cons_append, List.length_cons]
    rw [show (s + 1) + t.length = s + (t.length + 1) by omega]

theorem fieldProps_alookup_none (ks : List String) : ∀ (ws : List Value)
    (key : String), key ∉ ks → alookup (fieldProps ks ws) key = none := by
  induction ks with
  | nil => intro ws key _; cases ws <;> rfl
  | cons k kt ih =>
    intro ws key hk
    cases ws with
    | nil => rfl
    | cons w wt =>
      show alookup ((k, PropData.plain w) :: fieldProps kt wt) key = none
      simp only [alookup]
      rw [if_neg (fun hc => hk (by rw [← hc]; exact List.mem_cons_self k kt))]
      exact ih wt key (fun hm => hk (List.mem_cons_of_mem k hm))

theorem fieldProps_append (ks : List String) : ∀ (ws : List Value)
    (k : String) (w : Value), ks.length = ws.length →
    fieldProps (ks ++ [k]) (ws ++ [w]) =
      fieldProps ks ws ++ [(k, PropData.plain w)] := by
  induction ks with
  | nil =>
    intro ws k w hlen
    cases ws with
    | nil => rfl
    | cons _ _ => simp at hlen
  | cons k0 kt ih =>
    intro ws k w hlen
    cases ws with
    | nil => simp at hlen
    | cons w0 wt =>
      show (k0, PropData.plain w0) :: fieldProps (kt ++ [k]) (wt ++ [w]) = _
      rw [ih wt k w (by simpa using hlen)]
      rfl

end JSI

namespace JSI

theorem getPropChain_own_hit (E : Env) (G : Heap) (fl id : Nat) (oG : Obj)
    (name : String) (pd : PropData) (hfl : 1 ≤ fl)
    (hoG : G[id]? = some oG) (hpd : alookup oG.props name = some pd)
    (hnog : alookup oG.getters name = none) :
    getPropChain E G fl (.obj id) name = .ok (.val pd.value) := by
  obtain ⟨f, rfl⟩ : ∃ f, fl = f + 1 := ⟨fl - 1, by omega⟩
  unfold getPropChain
  simp only [hoG, hpd, hnog]

theorem hasPropChain_own_hit (E : Env) (G : Heap) (fl id : Nat) (oG : Obj)
    (name : String) (hfl : 1 ≤ fl)
    (hoG : G[id]? = some oG)
    (hpresent : (alookup oG.props name).isSome = true) :
    hasPropChain E G fl (.obj id) name = .ok true := by
  obtain ⟨f, rfl⟩ : ∃ f, fl = f + 1 := ⟨fl - 1, by omega⟩
  unfold hasPropChain
  simp only [hoG, hpresent, if_true]

theorem hasProperty_own_hit (E : Env) (G : Heap) (fl id : Nat) (oG : Obj)
    (name : String) (hfl : 1 ≤ fl)
    (hisa : isa E G fl (.obj id) E.stringCtor = false)
    (hoG : G[id]? = some oG)
    (hpresent : (alookup oG.props name).isSome = true) :
    hasProperty E G fl (.obj id) name = .ok true := by
  unfold hasProperty
  simp only [hisa, Bool.and_false, Bool.false_eq_true, if_false, reduceIte]
  exact hasPropChain_own_hit E G fl id oG name hfl hoG hpresent

theorem getProperty_own_data (E : Env) (G : Heap) (fl id : Nat) (oG : Obj)
    (name : String) (pd : PropData) (hfl : 1 ≤ fl)
    (hname : ¬ name = "length")
    (hisa : isa E G fl (.obj id) E.stringCtor = false)
    (hoG : G[id]? = some oG) (hpd : alookup oG.props name = some pd)
    (hnog : alookup oG.getters name = none) :
    getProperty E G fl (.obj id) name = .ok (.val pd.value) := by
  unfold getProperty
  rw [if_neg (by simp), if_neg hname]
  simp only [hisa, Bool.and_false, Bool.false_eq_true, if_false]
  exact getPropChain_own_hit E G fl id oG name pd hfl hoG hpd hnog

theorem getProperty_own_length (E : Env) (G : Heap) (fl id : Nat) (oG : Obj)
    (pd : PropData) (hfl : 1 ≤ fl)
    (hisa : isa E G fl (.obj id) E.stringCtor = false)
    (hoG : G[id]? = some oG) (hpd : alookup oG.props "length" = some pd)
    (hnog : alookup oG.getters "length" = none) :
    getProperty E G fl (.obj id) "length" = .ok (.val pd.value) := by
  unfold getProperty
  rw [if_neg (by simp)]
  simp only [reduceIte, hisa, Bool.false_eq_true, if_false]
  exact getPropChain_own_hit E G fl id oG "length" pd hfl hoG hpd hnog

end JSI

namespace JSI

theorem toNTree_arr (elems : List NativeVal) :
    toNTree (.arrV elems) = .arrT (toNTreeList elems) := by
  rw [toNTree]

theorem toNTree_obj (fields : List (String × NativeVal)) :
    toNTree (.objV fields) = .objT (toNTreeFields fields) := by
  rw [toNTree]

theorem toNTreeList_nil : toNTreeList [] = [] := by
  rw [toNTreeList]

theorem toNTreeList_cons (e : NativeVal) (t : List NativeVal) :
    toNTreeList (e :: t) = some (toNTree e) :: toNTreeList t := by
  rw [toNTreeList]

theorem toNTreeFields_nil : toNTreeFields [] = [] := by
  rw [toNTreeFields]

theorem toNTreeFields_cons (kv : String × NativeVal)
    (ft : List (String × NativeVal)) :
    toNTreeFields (kv :: ft) = (kv.1, toNTree kv.2) :: toNTreeFields ft := by
  rw [toNTreeFields]

theorem pseudoFields_run (E : Env) (FUEL : Nat) (G : Heap) (id : Nat)
    (stack1 : List Nat) :
    ∀ (fields : List (String × NativeVal)) (ws : List Value),
    ws.length = fields.length →
    (∀ (k : Nat) (hk1 : k < ws.length) (hk2 : k < fields.length),
      pseudoToNative E FUEL G (ws.get ⟨k, hk1⟩) stack1 =
        .ok (toNTree (fields.get ⟨k, hk2⟩).2)) →
    pseudoFields E FUEL G id stack1 (fieldProps (fields.map Prod.fst) ws) =
      .ok (toNTreeFields fields) := by
  intro fields
  induction fields with
  | nil =>
    intro ws hlen _
    cases ws with
    | nil =>
      show pseudoFields E FUEL G id stack1 [] = .ok (toNTreeFields [])
      rw [toNTreeFields_nil]
      unfold pseudoFields
      rfl
    | cons _ _ => simp at hlen
  | cons kv ft ih =>
    intro ws hlen hconv
    cases ws with
    | nil => simp at hlen
    | cons w wt =>
      have h0 : pseudoToNative E FUEL G w stack1 = .ok (toNTree kv.2) :=
        hconv 0 (by simp) (by simp)
      show pseudoFields E FUEL G id stack1
        ((kv.1, PropData.plain w) :: fieldProps (ft.map Prod.fst) wt) = _
      unfold pseudoFields
      rw [if_pos (by simp [PropData.plain])]
      simp only [PropData.plain, h0]
      rw [ih wt (by simpa using hlen) (fun k hk1 hk2 =>
        hconv (k + 1) (by simpa using hk1) (by simpa using hk2))]
      rw [toNTreeFields_cons]

theorem pseudoElems_run (E : Env) (FUEL : Nat) (G : Heap) (wfG : EnvWF E G)
    (id : Nat) (oG : Obj) (hoG : G[id]? = some oG)
    (hisa : isa E G (G.length + 1) (.obj id) E.stringCtor = false)
    (hgets : oG.getters = []) (stack1 : List Nat) :
    ∀ (elems : List NativeVal) (ws : List Value) (i : Nat),
    ws.length = elems.length →
    (∀ (k : Nat) (hk : k < ws.length),
      alookup oG.props (toString (i + k)) =
        some (PropData.plain (ws.get ⟨k, hk⟩))) →
    (∀ (k : Nat) (hk1 : k < ws.length) (hk2 : k < elems.length),
      pseudoToNative E FUEL G (ws.get ⟨k, hk1⟩) stack1 =
        .ok (toNTree (elems.get ⟨k, hk2⟩))) →
    pseudoElems E FUEL G id stack1 i elems.length = .ok (toNTreeList elems) := by
  intro elems
  induction elems with
  | nil =>
    intro ws i hlen _ _
    show pseudoElems E FUEL G id stack1 i 0 = .ok (toNTreeList [])
    rw [toNTreeList_nil]
    unfold pseudoElems
    rfl
  | cons e t ih =>
    intro ws i hlen hprop hconv
    cases ws with
    | nil => simp at hlen
    | cons w wt =>
      have hglen : 1 ≤ G.length + 1 := by omega
      have hp0 : alookup oG.props (toString i) = some (PropData.plain w) := by
        have hx := hprop 0 (by simp)
        rw [show i + 0 = i by omega] at hx
        exact hx
      have hgn : alookup oG.getters (toString i) = none := by
        rw [hgets]; rfl
      have h0 : pseudoToNative E FUEL G w stack1 = .ok (toNTree e) :=
        hconv 0 (by simp) (by simp)
      show pseudoElems E FUEL G id stack1 i (t.length + 1) = _
      unfold pseudoElems
      rw [hasProperty_own_hit E G (G.length + 1) id oG (toString i) hglen
        hisa hoG (by rw [hp0]; rfl)]
      rw [getProperty_own_data E G (G.length + 1) id oG (toString i)
        (PropData.plain w) hglen (toString_ne_length i) hisa hoG hp0 hgn]
      simp only [PropData.plain, h0]
      rw [ih wt (i + 1) (by simpa using hlen)
        (fun k hk => by
          have hx := hprop (k + 1) (by simpa using hk)
          rw [show i + (k + 1) = (i + 1) + k by omega] at hx
          exact hx)
        (fun k hk1 hk2 =>
          hconv (k + 1) (by simpa using hk1) (by simpa using hk2))]
      rw [toNTreeList_cons]

end JSI

namespace JSI

theorem JSONShaped_arr (elems : List NativeVal) :
    JSONShaped (.arrV elems) =
      (elems.length ≤ 4294967295 ∧ JSONShapedList elems) := by
  rw [JSONShaped]

theorem JSONShaped_obj (fields : List (String × NativeVal)) :
    JSONShaped (.objV fields) =
      ((fields.map Prod.fst).Nodup ∧ JSONShapedFields fields) := by
  rw [JSONShaped]

theorem JSONShapedList_cons (e : NativeVal) (t : List NativeVal) :
    JSONShapedList (e :: t) = (JSONShaped e ∧ JSONShapedList t) := by
  rw [JSONShapedList]

theorem JSONShapedFields_cons (kv : String × NativeVal)
    (t : List (String × NativeVal)) :
    JSONShapedFields (kv :: t) = (JSONShaped kv.2 ∧ JSONShapedFields t) := by
  rw [JSONShapedFields]

theorem nsize_arr (elems : List NativeVal) :
    nsize (.arrV elems) = nsizeList elems + 1 := by
  rw [nsize]

theorem nsize_obj (fields : List (String × NativeVal)) :
    nsize (.objV fields) = nsizeFields fields + 1 := by
  rw [nsize]

theorem nsizeList_nil : nsizeList [] = 0 := by
  rw [nsizeList]

theorem nsizeList_cons (e : NativeVal) (t : List NativeVal) :
    nsizeList (e :: t) = nsize e + nsizeList t := by
  rw [nsizeList]

theorem nsizeFields_nil : nsizeFields [] = 0 := by
  rw [nsizeFields]

theorem nsizeFields_cons (kv : String × NativeVal)
    (t : List (String × NativeVal)) :
    nsizeFields (kv :: t) = nsize kv.2 + nsizeFields t := by
  rw [nsizeFields]

theorem nsize_pos (x : NativeVal) : 1 ≤ nsize x := by
  cases x with
  | arrV elems => rw [nsize_arr]; omega
  | objV fields => rw [nsize_obj]; omega
  | undefV =>
    have h : nsize .undefV = 1 := by
      rw [nsize] <;> exact fun _ h2 => NativeVal.noConfusion h2
    omega
  | nullV =>
    have h : nsize .nullV = 1 := by
      rw [nsize] <;> exact fun _ h2 => NativeVal.noConfusion h2
    omega
  | boolV b =>
    have h : nsize (.boolV b) = 1 := by
      rw [nsize] <;> exact fun _ h2 => NativeVal.noConfusion h2
    omega
  | numV n =>
    have h : nsize (.numV n) = 1 := by
      rw [nsize] <;> exact fun _ h2 => NativeVal.noConfusion h2
    omega
  | strV s =>
    have h : nsize (.strV s) = 1 := by
      rw [nsize] <;> exact fun _ h2 => NativeVal.noConfusion h2
    omega

theorem nsize_le_list (e : NativeVal) : ∀ (elems : List NativeVal),
    e ∈ elems → nsize e ≤ nsizeList elems := by
  intro elems
  induction elems with
  | nil => intro h; exact absurd h (List.not_mem_nil e)
  | cons a t ih =>
    intro h
    rw [nsizeList_cons]
    rcases List.mem_cons.mp h with he | hm
    · subst he; omega
    · have := ih hm; omega

theorem nsize_le_fields (e : NativeVal) :
    ∀ (fields : List (String × NativeVal)) (k : String),
    (k, e) ∈ fields → nsize e ≤ nsizeFields fields := by
  intro fields
  induction fields with
  | nil => intro k h; exact absurd h (List.not_mem_nil (k, e))
  | cons a t ih =>
    intro k h
    rw [nsizeFields_cons]
    rcases List.mem_cons.mp h with he | hm
    · rw [show e = a.2 by rw [← he]]; omega
    · have := ih k hm; omega

end JSI

namespace JSI

theorem natElems_spec (E : Env) : ∀ (elems : List NativeVal),
    (∀ e ∈ elems, RoundTrip E e) → ElemsLoop E elems := by
  intro elems
  induction elems with
  | nil =>
    intro _ _ strict H H2 id ws wf nb hid hbound heq
    unfold natElems at heq
    have hH : H = H2 := Except.ok.inj heq
    subst hH
    exact ⟨Nat.le_refl _, fun j _ _ => rfl, [], rfl,
      by rw [List.append_nil]; exact hid,
      fun k hk1 _ => absurd hk1 (by simp)⟩
  | cons e t ih =>
    intro IH hjl strict H H2 id ws wf nb hid hbound heq
    obtain ⟨hje, hjt⟩ : JSONShaped e ∧ JSONShapedList t := by
      rw [JSONShapedList_cons] at hjl
      exact hjl
    simp only [List.length_cons] at hbound
    have hidlt : id < H.length := (List.getElem?_eq_some.mp hid).1
    unfold natElems at heq
    cases hN : nativeToPseudo E strict H e with
    | error er =>
      rw [hN, err_bind] at heq
      exact Except.noConfusion heq
    | ok pr =>
      obtain ⟨H1, v⟩ := pr
      simp only [hN, ok_bind] at heq
      obtain ⟨hlen1, hframe1, hconv1⟩ :=
        IH e (List.mem_cons_self e t) hje strict H H1 v wf hN
      have wf1 : EnvWF E H1 := envWF_frame E H H1 wf hlen1 hframe1
      have hid1 : H1[id]? = some (arrObj E ws) := by
        rw [hframe1 id hidlt]
        exact hid
      obtain ⟨nbO, nbA, nbS, _⟩ := nb
      have hfl3 : 3 ≤ H1.length + 1 := by
        have h1 := wf1.ltO
        have h2 := wf1.ltA
        have h3 := wf1.neAO
        omega
      have hlk : alookup (arrObj E ws).props "length" =
          some (lenPd ws.length) := by
        show alookup (("length", lenPd ws.length) :: elemProps 0 ws)
          "length" = some (lenPd ws.length)
        simp [alookup]
      have hjm : jsMaxLen (alookup (arrObj E ws).props "length")
          (Int.ofNat (ws.length + 1)) = .num (Int.ofNat (ws.length + 1)) := by
        rw [hlk, jsMaxLen_num (lenPd ws.length) ws.length (ws.length + 1) rfl,
          Nat.max_eq_right (by omega)]
      have ho1 : hostSetProp (arrObj E ws) "length"
          (.num (Int.ofNat (ws.length + 1))) =
          { arrObj E ws with
            props := ("length", lenPd (ws.length + 1)) :: elemProps 0 ws } := by
        unfold hostSetProp
        simp only [hlk, lenPd, reduceIte]
        rw [show (arrObj E ws).props =
          ("length", lenPd ws.length) :: elemProps 0 ws from rfl]
        rw [show lenPd ws.length = { value := .num (Int.ofNat ws.length), writable := true, enumerable := false, configurable := false } from rfl]
        rw [aset_cons_hit]
      have hmagic : arrayMagic (arrObj E ws) (toString ws.length) (some v) =
          .ok ({ arrObj E ws with
            props := ("length", lenPd (ws.length + 1)) :: elemProps 0 ws },
            some v) := by
        rw [arrayMagic_index (arrObj E ws) (toString ws.length) ws.length v
          rfl (toString_ne_length ws.length)
          (legalArrayIndex_toString ws.length (by omega))]
        rw [hjm, ho1]
      have hsp := setProperty_array_ok_fuel E H1 (H1.length + 1) id
        (arrObj E ws)
        { arrObj E ws with
          props := ("length", lenPd (ws.length + 1)) :: elemProps 0 ws }
        strict (toString ws.length) v v hfl3 wf1 hid1 rfl nbS nbA nbO
        hmagic rfl rfl rfl rfl
      have ho2 : hostSetProp
          { arrObj E ws with
            props := ("length", lenPd (ws.length + 1)) :: elemProps 0 ws }
          (toString ws.length) v = arrObj E (ws ++ [v]) := by
        unfold hostSetProp
        have hnone : alookup (("length", lenPd (ws.length + 1)) ::
            elemProps 0 ws) (toString ws.length) = none := by
          simp only [alookup]
          rw [if_neg (fun hc => toString_ne_length ws.length hc.symm)]
          exact elemProps_alookup_ge ws 0 ws.length (by omega)
        simp only [hnone]
        rw [show arrObj E (ws ++ [v]) = { arrObj E ws with
            props := ("length", lenPd (ws.length + 1)) ::
              (elemProps 0 ws ++ [(toString ws.length, PropData.plain v)]) }
          from by
            unfold arrObj
            rw [elemProps_append ws 0 v]
            simp]
        rfl
      rw [ho2] at hsp
      simp only [hsp, ok_bind] at heq
      have hlenset : (H1.set id (arrObj E (ws ++ [v]))).length = H1.length :=
        List.length_set H1 id _
      have hidlt1 : id < H1.length := (List.getElem?_eq_some.mp hid1).1
      have wf1' : EnvWF E (H1.set id (arrObj E (ws ++ [v]))) :=
        envWF_set E H1 id _ wf1 ⟨nbO, nbA, nbS, ‹_›⟩
      have hid' : (H1.set id (arrObj E (ws ++ [v])))[id]? =
          some (arrObj E (ws ++ [v])) := List.getElem?_set_self hidlt1
      rw [show ws.length + 1 = (ws ++ [v]).length by simp] at heq
      obtain ⟨len2, frame2, ws2', hlen2', hid2, hconv2⟩ :=
        ih (fun x hx => IH x (List.mem_cons_of_mem e hx)) hjt strict
          (H1.set id (arrObj E (ws ++ [v]))) H2 id (ws ++ [v]) wf1'
          ⟨nbO, nbA, nbS, ‹_›⟩ hid' (by simp; omega) heq
      refine ⟨?_, ?_, v :: ws2', ?_, ?_, ?_⟩
      · rw [hlenset] at len2
        omega
      · intro j hj hneid
        rw [frame2 j (by rw [hlenset]; omega) hneid,
          List.getElem?_set_ne (fun hc => hneid hc.symm),
          hframe1 j hj]
      · simp [hlen2']
      · rw [hid2]
        rw [show (ws ++ [v]) ++ ws2' = ws ++ (v :: ws2') by simp]
      · intro k hk1 hk2
        cases k with
        | zero =>
          show ConvVal E H.length H2.length H2 v e
          refine convVal_mono E H.length H.length H1.length H2.length H1 H2
            v e hconv1 (Nat.le_refl _) (by rw [hlenset] at len2; omega) ?_
          intro j hj1 hj2
          rw [frame2 j (by rw [hlenset]; omega) (by omega),
            List.getElem?_set_ne (fun hc => by omega)]
        | succ j =>
          show ConvVal E H.length H2.length H2 (ws2'.get ⟨j, by
            simpa using hk1⟩) (t.get ⟨j, by simpa using hk2⟩)
          refine convVal_mono E (H1.set id (arrObj E (ws ++ [v]))).length
            H.length H2.length H2.length H2 H2 _ _
            (hconv2 j (by simpa using hk1) (by simpa using hk2))
            (by rw [hlenset]; omega) (Nat.le_refl _) (fun j _ _ => rfl)

end JSI

namespace JSI

theorem natFields_spec (E : Env) : ∀ (fields : List (String × NativeVal)),
    (∀ kv ∈ fields, RoundTrip E kv.2) → FieldsLoop E fields := by
  intro fields
  induction fields with
  | nil =>
    intro _ _ strict H H2 id ks ws wf nb hid hklen hnd heq
    unfold natFields at heq
    have hH : H = H2 := Except.ok.inj heq
    subst hH
    exact ⟨Nat.le_refl _, fun j _ _ => rfl, [], rfl,
      by simp only [List.map_nil, List.append_nil]; exact hid,
      fun k hk1 _ => absurd hk1 (by simp)⟩
  | cons kv ft ih =>
    intro IH hjl strict H H2 id ks ws wf nb hid hklen hnd heq
    obtain ⟨hje, hjt⟩ : JSONShaped kv.2 ∧ JSONShapedFields ft := by
      rw [JSONShapedFields_cons] at hjl
      exact hjl
    have hidlt : id < H.length := (List.getElem?_eq_some.mp hid).1
    have hkmem : kv.1 ∉ ks := by
      intro hm
      have hd := (List.nodup_append.mp (by
        simpa only [List.map_cons] using hnd)).2.2
      exact hd hm (List.mem_cons_self kv.1 (ft.map Prod.fst))
    unfold natFields at heq
    cases hN : nativeToPseudo E strict H kv.2 with
    | error er =>
      rw [hN, err_bind] at heq
      exact Except.noConfusion heq
    | ok pr =>
      obtain ⟨H1, v⟩ := pr
      simp only [hN, ok_bind] at heq
      obtain ⟨hlen1, hframe1, hconv1⟩ :=
        IH kv (List.mem_cons_self kv ft) hje strict H H1 v wf hN
      have wf1 : EnvWF E H1 := envWF_frame E H H1 wf hlen1 hframe1
      have hid1 : H1[id]? = some (objObj E ks ws) := by
        rw [hframe1 id hidlt]
        exact hid
      obtain ⟨nbO, nbA, nbS, _⟩ := nb
      have hfl2 : 2 ≤ H1.length + 1 := by
        have h1 := wf1.ltO
        omega
      have hsp := setProperty_obj_ok E H1 (H1.length + 1) id (objObj E ks ws)
        strict kv.1 v hfl2 wf1 hid1 (by simp [objObj, Obj.fresh]) rfl nbS nbO
        rfl rfl rfl
      have ho2 : hostSetProp (objObj E ks ws) kv.1 v =
          objObj E (ks ++ [kv.1]) (ws ++ [v]) := by
        unfold hostSetProp
        have hnone : alookup (objObj E ks ws).props kv.1 = none := by
          show alookup (fieldProps ks ws) kv.1 = none
          exact fieldProps_alookup_none ks ws kv.1 hkmem
        simp only [hnone]
        rw [show objObj E (ks ++ [kv.1]) (ws ++ [v]) = { objObj E ks ws with
          props := fieldProps ks ws ++ [(kv.1, PropData.plain v)] } from by
            unfold objObj
            rw [fieldProps_append ks ws kv.1 v hklen]]
        rfl
      rw [ho2] at hsp
      simp only [hsp, ok_bind] at heq
      have hlenset : (H1.set id (objObj E (ks ++ [kv.1]) (ws ++ [v]))).length =
          H1.length := List.length_set H1 id _
      have hidlt1 : id < H1.length := (List.getElem?_eq_some.mp hid1).1
      have wf1' : EnvWF E (H1.set id (objObj E (ks ++ [kv.1]) (ws ++ [v]))) :=
        envWF_set E H1 id _ wf1 ⟨nbO, nbA, nbS, ‹_›⟩
      have hid' : (H1.set id (objObj E (ks ++ [kv.1]) (ws ++ [v])))[id]? =
          some (objObj E (ks ++ [kv.1]) (ws ++ [v])) :=
        List.getElem?_set_self hidlt1
      have hnd' : ((ks ++ [kv.1]) ++ ft.map Prod.fst).Nodup := by
        rw [show (ks ++ [kv.1]) ++ ft.map Prod.fst =
          ks ++ (kv.1 :: ft.map Prod.fst) by simp]
        simpa only [List.map_cons] using hnd
      obtain ⟨len2, frame2, ws2', hlen2', hid2, hconv2⟩ :=
        ih (fun x hx => IH x (List.mem_cons_of_mem kv hx)) hjt strict
          (H1.set id (objObj E (ks ++ [kv.1]) (ws ++ [v]))) H2 id
          (ks ++ [kv.1]) (ws ++ [v]) wf1' ⟨nbO, nbA, nbS, ‹_›⟩ hid'
          (by simp [hklen]) hnd' heq
      refine ⟨?_, ?_, v :: ws2', ?_, ?_, ?_⟩
      · rw [hlenset] at len2
        omega
      · intro j hj hneid
        rw [frame2 j (by rw [hlenset]; omega) hneid,
          List.getElem?_set_ne (fun hc => hneid hc.symm),
          hframe1 j hj]
      · simp [hlen2']
      · rw [hid2]
        rw [show (ks ++ [kv.1]) ++ ft.map Prod.fst =
          ks ++ (kv.1 :: ft.map Prod.fst) by simp]
        rw [show (ws ++ [v]) ++ ws2' = ws ++ (v :: ws2') by simp]
        rfl
      · intro k hk1 hk2
        cases k with
        | zero =>
          show ConvVal E H.length H2.length H2 v kv.2
          refine convVal_mono E H.length H.length H1.length H2.length H1 H2
            v kv.2 hconv1 (Nat.le_refl _) (by rw [hlenset] at len2; omega) ?_
          intro j hj1 hj2
          rw [frame2 j (by rw [hlenset]; omega) (by omega),
            List.getElem?_set_ne (fun hc => by omega)]
        | succ j =>
          show ConvVal E H.length H2.length H2 (ws2'.get ⟨j, by
            simpa using hk1⟩) ((ft.get ⟨j, by simpa using hk2⟩).2)
          refine convVal_mono E
            (H1.set id (objObj E (ks ++ [kv.1]) (ws ++ [v]))).length
            H.length H2.length H2.length H2 H2 _ _
            (hconv2 j (by simpa using hk1) (by simpa using hk2))
            (by rw [hlenset]; omega) (Nat.le_refl _) (fun j _ _ => rfl)

end JSI

namespace JSI

theorem toNTree_undef : toNTree .undefV = .undefT := by rw [toNTree]

theorem toNTree_null : toNTree .nullV = .nullT := by rw [toNTree]

theorem toNTree_bool (b : Bool) : toNTree (.boolV b) = .boolT b := by
  rw [toNTree]

theorem toNTree_num (n : Int) : toNTree (.numV n) = .numT n := by
  rw [toNTree]

theorem toNTree_str (s : String) : toNTree (.strV s) = .strT s := by
  rw [toNTree]

theorem roundTrip_undef (E : Env) : RoundTrip E .undefV := by
  intro _ strict H H2 v wf heq
  unfold nativeToPseudo at heq
  have hp := Except.ok.inj heq
  rw [Prod.ext_iff] at hp
  obtain ⟨hH, hv⟩ := hp
  subst hH
  subst hv
  refine ⟨Nat.le_refl _, fun j _ => rfl, ?_⟩
  intro G _ _ stack _ f
  rw [show nsize .undefV + 1 + f = (nsize .undefV + f) + 1 by omega]
  unfold pseudoToNative
  rw [toNTree_undef]

theorem roundTrip_null (E : Env) : RoundTrip E .nullV := by
  intro _ strict H H2 v wf heq
  unfold nativeToPseudo at heq
  have hp := Except.ok.inj heq
  rw [Prod.ext_iff] at hp
  obtain ⟨hH, hv⟩ := hp
  subst hH
  subst hv
  refine ⟨Nat.le_refl _, fun j _ => rfl, ?_⟩
  intro G _ _ stack _ f
  rw [show nsize .nullV + 1 + f = (nsize .nullV + f) + 1 by omega]
  unfold pseudoToNative
  rw [toNTree_null]

theorem roundTrip_bool (E : Env) (b : Bool) : RoundTrip E (.boolV b) := by
  intro _ strict H H2 v wf heq
  unfold nativeToPseudo at heq
  have hp := Except.ok.inj heq
  rw [Prod.ext_iff] at hp
  obtain ⟨hH, hv⟩ := hp
  subst hH
  subst hv
  refine ⟨Nat.le_refl _, fun j _ => rfl, ?_⟩
  intro G _ _ stack _ f
  rw [show nsize (.boolV b) + 1 + f = (nsize (.boolV b) + f) + 1 by omega]
  unfold pseudoToNative
  rw [toNTree_bool]

theorem roundTrip_num (E : Env) (n : Int) : RoundTrip E (.numV n) := by
  intro _ strict H H2 v wf heq
  unfold nativeToPseudo at heq
  have hp := Except.ok.inj heq
  rw [Prod.ext_iff] at hp
  obtain ⟨hH, hv⟩ := hp
  subst hH
  subst hv
  refine ⟨Nat.le_refl _, fun j _ => rfl, ?_⟩
  intro G _ _ stack _ f
  rw [show nsize (.numV n) + 1 + f = (nsize (.numV n) + f) + 1 by omega]
  unfold pseudoToNative
  rw [toNTree_num]

theorem roundTrip_str (E : Env) (s : String) : RoundTrip E (.strV s) := by
  intro _ strict H H2 v wf heq
  unfold nativeToPseudo at heq
  have hp := Except.ok.inj heq
  rw [Prod.ext_iff] at hp
  obtain ⟨hH, hv⟩ := hp
  subst hH
  subst hv
  refine ⟨Nat.le_refl _, fun j _ => rfl, ?_⟩
  intro G _ _ stack _ f
  rw [show nsize (.strV s) + 1 + f = (nsize (.strV s) + f) + 1 by omega]
  unfold pseudoToNative
  rw [toNTree_str]

end JSI

namespace JSI

theorem roundTrip_arr (E : Env) (elems : List NativeVal)
    (hloop : ElemsLoop E elems) : RoundTrip E (.arrV elems) := by
  intro hj strict H H2 v wf heq
  obtain ⟨hlen95, hjl⟩ : elems.length ≤ 4294967295 ∧ JSONShapedList elems := by
    rw [JSONShaped_arr] at hj
    exact hj
  unfold nativeToPseudo at heq
  simp only [createObjectProto_array E H strict wf, ok_bind] at heq
  cases hNE : natElems E strict H.length 0 (H ++ [arrObj E []]) elems with
  | error er =>
    rw [hNE] at heq
    exact Except.noConfusion heq
  | ok H2mid =>
    rw [hNE, ok_bind] at heq
    have hpair : (H2mid, Value.obj H.length) = (H2, v) := Except.ok.inj heq
    rw [Prod.mk.injEq] at hpair
    obtain ⟨hH, hv⟩ := hpair
    subst hH
    subst hv
    have wf1 : EnvWF E (H ++ [arrObj E []]) := envWF_append E H _ wf
    have nb1 : NotBuiltin E H.length :=
      notBuiltin_of_ge E H wf H.length (Nat.le_refl _)
    have hid0 : (H ++ [arrObj E []])[H.length]? = some (arrObj E []) :=
      heap_append_get_self H _
    obtain ⟨len2, frame2, ws2, hlenws2, hid2, hconv2⟩ :=
      hloop hjl strict (H ++ [arrObj E []]) H2mid H.length [] wf1 nb1 hid0
        (by simpa using hlen95)
        (show natElems E strict H.length [].length (H ++ [arrObj E []])
          elems = .ok H2mid from hNE)
    rw [List.nil_append] at hid2
    have hlen1 : (H ++ [arrObj E []]).length = H.length + 1 := by simp
    refine ⟨by omega, ?_, ?_⟩
    · intro j hj2
      rw [frame2 j (by omega) (by omega), heap_append_get_left H _ j hj2]
    · intro G wfG hag stack hstack f
      have hGlen1 : 1 ≤ G.length := by have := wfG.ltO; omega
      have hidlt2 : H.length < H2mid.length := by omega
      have hGid : G[H.length]? = some (arrObj E ws2) := by
        rw [hag H.length (Nat.le_refl _) hidlt2]
        exact hid2
      have hisaR : isa E G (G.length + 1) (.obj H.length)
          E.regexpCtor = false := by
        obtain ⟨oA, hA, hAp, _, _⟩ := wfG.arrayProtoObj
        rw [show G.length + 1 = (G.length - 1) + 2 by omega]
        exact isa_proto2_false E G wfG (G.length - 1) H.length
          (arrObj E ws2) E.arrayProto E.regexpProto E.regexpCtor hGid rfl
          oA hA hAp wfG.ctorRegexp (by have := wf.ltR; omega)
          (fun h => wfG.neRA h.symm) (fun h => wfG.neRO h.symm)
      have hstk : stackIdx stack H.length = none :=
        stackIdx_none stack H.length
          (fun s hs => by have := hstack s hs; omega)
      have hisaA : isa E G (G.length + 1) (.obj H.length)
          E.arrayCtor = true :=
        isa_proto_true E G G.length H.length (arrObj E ws2) E.arrayProto
          E.arrayCtor hGid rfl wfG.ctorArr
      have hisaS : isa E G (G.length + 1) (.obj H.length)
          E.stringCtor = false := by
        rw [show G.length + 1 = (G.length - 1) + 2 by omega]
        exact isa_array_not_string E G wfG (G.length - 1) H.length
          (arrObj E ws2) hGid rfl (by have := wf.ltS; omega)
      have hlk2 : alookup (arrObj E ws2).props "length" =
          some (lenPd ws2.length) := by
        show alookup (("length", lenPd ws2.length) :: elemProps 0 ws2)
          "length" = some (lenPd ws2.length)
        simp [alookup]
      have hglen : getProperty E G (G.length + 1) (.obj H.length) "length" =
          .ok (.val (.num (Int.ofNat ws2.length))) :=
        getProperty_own_length E G (G.length + 1) H.length (arrObj E ws2)
          (lenPd ws2.length) (by omega) hisaS hGid hlk2 (by rfl)
      have hrun : pseudoElems E (nsizeList elems + 1 + f) G H.length
          (stack ++ [H.length]) 0 elems.length = .ok (toNTreeList elems) := by
        refine pseudoElems_run E (nsizeList elems + 1 + f) G wfG H.length
          (arrObj E ws2) hGid hisaS rfl (stack ++ [H.length]) elems ws2 0
          hlenws2 ?_ ?_
        · intro k hk
          show alookup (("length", lenPd ws2.length) :: elemProps 0 ws2)
            (toString (0 + k)) = some (PropData.plain (ws2.get ⟨k, hk⟩))
          simp only [alookup]
          rw [if_neg (fun hc => toString_ne_length (0 + k) hc.symm)]
          exact elemProps_alookup_lt ws2 0 k hk
        · intro k hk1 hk2
          have hmem : elems.get ⟨k, hk2⟩ ∈ elems := List.get_mem elems k hk2
          have hszle : nsize (elems.get ⟨k, hk2⟩) ≤ nsizeList elems :=
            nsize_le_list _ elems hmem
          rw [show nsizeList elems + 1 + f = nsize (elems.get ⟨k, hk2⟩) + 1 +
            (nsizeList elems + f - nsize (elems.get ⟨k, hk2⟩)) by omega]
          exact hconv2 k hk1 hk2 G wfG
            (fun j hj1 hj2 => hag j (by rw [hlen1] at hj1; omega) hj2)
            (stack ++ [H.length])
            (fun s hs => by
              rcases List.mem_append.mp hs with hm | hm
              · have := hstack s hm; omega
              · have : s = H.length := by simpa using hm
                omega)
            (nsizeList elems + f - nsize (elems.get ⟨k, hk2⟩))
      rw [show nsize (.arrV elems) + 1 + f =
        ((nsizeList elems + 1 + f)) + 1 by rw [nsize_arr]; omega]
      unfold pseudoToNative
      simp only [hisaR, Bool.false_eq_true, if_false, hstk, hisaA, if_true,
        reduceIte, hglen, Int.toNat_ofNat, hlenws2, hrun, toNTree_arr]
      rw [show (Int.ofNat elems.length).toNat = elems.length from rfl]
      simp only [hrun]

theorem roundTrip_obj (E : Env) (fields : List (String × NativeVal))
    (hloop : FieldsLoop E fields) : RoundTrip E (.objV fields) := by
  intro hj strict H H2 v wf heq
  obtain ⟨hnd, hjf⟩ : (fields.map Prod.fst).Nodup ∧ JSONShapedFields fields := by
    rw [JSONShaped_obj] at hj
    exact hj
  unfold nativeToPseudo at heq
  simp only [createObjectProto_plain E H strict wf, ok_bind] at heq
  cases hNF : natFields E strict H.length (H ++ [Obj.fresh (some E.objectProto)])
      fields with
  | error er =>
    rw [hNF] at heq
    exact Except.noConfusion heq
  | ok H2mid =>
    rw [hNF, ok_bind] at heq
    have hpair : (H2mid, Value.obj H.length) = (H2, v) := Except.ok.inj heq
    rw [Prod.mk.injEq] at hpair
    obtain ⟨hH, hv⟩ := hpair
    subst hH
    subst hv
    have wf1 : EnvWF E (H ++ [Obj.fresh (some E.objectProto)]) :=
      envWF_append E H _ wf
    have nb1 : NotBuiltin E H.length :=
      notBuiltin_of_ge E H wf H.length (Nat.le_refl _)
    have hid0 : (H ++ [Obj.fresh (some E.objectProto)])[H.length]? =
        some (objObj E [] []) := heap_append_get_self H _
    obtain ⟨len2, frame2, ws2, hlenws2, hid2, hconv2⟩ :=
      hloop hjf strict (H ++ [Obj.fresh (some E.objectProto)]) H2mid H.length
        [] [] wf1 nb1 hid0 rfl (by rw [List.nil_append]; exact hnd) hNF
    simp only [List.nil_append] at hid2
    have hlen1 : (H ++ [Obj.fresh (some E.objectProto)]).length =
        H.length + 1 := by simp
    refine ⟨by omega, ?_, ?_⟩
    · intro j hj2
      rw [frame2 j (by omega) (by omega), heap_append_get_left H _ j hj2]
    · intro G wfG hag stack hstack f
      have hGlen1 : 1 ≤ G.length := by have := wfG.ltO; omega
      have hidlt2 : H.length < H2mid.length := by omega
      have hGid : G[H.length]? =
          some (objObj E (fields.map Prod.fst) ws2) := by
        rw [hag H.length (Nat.le_refl _) hidlt2]
        exact hid2
      have hisaR : isa E G (G.length + 1) (.obj H.length)
          E.regexpCtor = false := by
        rw [show G.length + 1 = (G.length - 1) + 2 by omega]
        exact isa_protoO_false E G wfG (G.length - 1) H.length
          (objObj E (fields.map Prod.fst) ws2) E.regexpProto E.regexpCtor
          hGid rfl wfG.ctorRegexp (by have := wf.ltR; omega)
          (fun h => wfG.neRO h.symm)
      have hstk : stackIdx stack H.length = none :=
        stackIdx_none stack H.length
          (fun s hs => by have := hstack s hs; omega)
      have hisaA : isa E G (G.length + 1) (.obj H.length)
          E.arrayCtor = false := by
        rw [show G.length + 1 = (G.length - 1) + 2 by omega]
        exact isa_protoO_false E G wfG (G.length - 1) H.length
          (objObj E (fields.map Prod.fst) ws2) E.arrayProto E.arrayCtor
          hGid rfl wfG.ctorArr (by have := wf.ltA; omega)
          (fun h => wfG.neAO h.symm)
      have hprops : ((G[H.length]?).map Obj.props).getD [] =
          fieldProps (fields.map Prod.fst) ws2 := by
        rw [hGid]
        rfl
      have hrun : pseudoFields E (nsizeFields fields + 1 + f) G H.length
          (stack ++ [H.length]) (fieldProps (fields.map Prod.fst) ws2) =
          .ok (toNTreeFields fields) := by
        refine pseudoFields_run E (nsizeFields fields + 1 + f) G H.length
          (stack ++ [H.length]) fields ws2 hlenws2 ?_
        intro k hk1 hk2
        have hmem : fields.get ⟨k, hk2⟩ ∈ fields := List.get_mem fields k hk2
        have hszle : nsize (fields.get ⟨k, hk2⟩).2 ≤ nsizeFields fields :=
          nsize_le_fields _ fields (fields.get ⟨k, hk2⟩).1 hmem
        rw [show nsizeFields fields + 1 + f = nsize (fields.get ⟨k, hk2⟩).2 +
          1 + (nsizeFields fields + f - nsize (fields.get ⟨k, hk2⟩).2)
          by omega]
        exact hconv2 k hk1 hk2 G wfG
          (fun j hj1 hj2 => hag j (by rw [hlen1] at hj1; omega) hj2)
          (stack ++ [H.length])
          (fun s hs => by
            rcases List.mem_append.mp hs with hm | hm
            · have := hstack s hm; omega
            · have : s = H.length := by simpa using hm
              omega)
          (nsizeFields fields + f - nsize (fields.get ⟨k, hk2⟩).2)
      rw [show nsize (.objV fields) + 1 + f =
        ((nsizeFields fields + 1 + f)) + 1 by rw [nsize_obj]; omega]
      unfold pseudoToNative
      simp only [hisaR, Bool.false_eq_true, if_false, hstk, hisaA, hprops,
        hrun, toNTree_obj]

theorem roundTrip_all (E : Env) : ∀ (N : Nat) (x : NativeVal),
    nsize x ≤ N → RoundTrip E x := by
  intro N
  induction N with
  | zero =>
    intro x hx
    exact absurd hx (by have := nsize_pos x; omega)
  | succ N ih =>
    intro x hx
    cases x with
    | undefV => exact roundTrip_undef E
    | nullV => exact roundTrip_null E
    | boolV b => exact roundTrip_bool E b
    | numV n => exact roundTrip_num E n
    | strV s => exact roundTrip_str E s
    | arrV elems =>
      refine roundTrip_arr E elems (natElems_spec E elems ?_)
      intro e he
      refine ih e ?_
      have h1 := nsize_le_list e elems he
      rw [nsize_arr] at hx
      omega
    | objV fields =>
      refine roundTrip_obj E fields (natFields_spec E fields ?_)
      intro kv hkv
      refine ih kv.2 ?_
      have h1 := nsize_le_fields kv.2 fields kv.1 hkv
      rw [nsize_obj] at hx
      omega

end JSI

namespace JSI

theorem stackIdx_append_some (t : List Nat) (a : Nat) :
    ∀ (s : List Nat) (c : Nat), stackIdx s a = some c →
    stackIdx (s ++ t) a = some c := by
  intro s
  induction s with
  | nil =>
    intro c h
    rw [show stackIdx ([] : List Nat) a = none from rfl] at h
    exact Option.noConfusion h
  | cons x s ih =>
    intro c h
    unfold stackIdx at h
    simp only [List.cons_append, stackIdx]
    by_cases hx : x = a
    · rw [if_pos hx] at h ⊢
      exact h
    · rw [if_neg hx] at h ⊢
      cases hs : stackIdx s a with
      | none =>
        rw [hs] at h
        exact Option.noConfusion h
      | some c1 =>
        rw [hs] at h
        rw [show stackIdx (s.append t) a = some c1 from ih c1 hs]
        exact h

theorem stackIdx_append_none (t : List Nat) (a : Nat) :
    ∀ (s : List Nat), stackIdx s a = none → stackIdx t a = none →
    stackIdx (s ++ t) a = none := by
  intro s
  induction s with
  | nil =>
    intro _ h2
    exact h2
  | cons x s ih =>
    intro h1 h2
    unfold stackIdx at h1
    simp only [List.cons_append, stackIdx]
    by_cases hx : x = a
    · rw [if_pos hx] at h1
      exact Option.noConfusion h1
    · rw [if_neg hx] at h1 ⊢
      rw [show stackIdx (s.append t) a = none from
        ih (Option.map_eq_none'.mp h1) h2]
      rfl

theorem hasCycleT_objT (fields : List (String × NTree)) :
    hasCycleT (.objT fields) = hasCycleTFields fields := by
  rw [hasCycleT]

theorem hasCycleT_cycleT (i : Nat) : hasCycleT (.cycleT i) = true := by
  rw [hasCycleT]

theorem hasCycleTFields_nil : hasCycleTFields [] = false := by
  rw [hasCycleTFields]

theorem hasCycleTFields_cons (kv : String × NTree)
    (t : List (String × NTree)) :
    hasCycleTFields (kv :: t) = (hasCycleT kv.2 || hasCycleTFields t) := by
  rw [hasCycleTFields]

theorem cycleTreeC_nil (c0 : Nat) : cycleTreeC c0 [] = .cycleT c0 := by
  rw [cycleTreeC]

theorem cycleTreeC_cons (c0 : Nat) (k : String) (kt : List String) :
    cycleTreeC c0 (k :: kt) = .objT [(k, cycleTreeC c0 kt)] := by
  rw [cycleTreeC]

theorem hasCycleT_cycleTreeC (c0 : Nat) : ∀ (ks : List String),
    hasCycleT (cycleTreeC c0 ks) = true := by
  intro ks
  induction ks with
  | nil => rw [cycleTreeC_nil, hasCycleT_cycleT]
  | cons k kt ih =>
    rw [cycleTreeC_cons, hasCycleT_objT, hasCycleTFields_cons, ih,
      Bool.true_or]

theorem JSONShaped_num (n : Int) : JSONShaped (.numV n) = True := by
  rw [JSONShaped] <;> exact fun _ h2 => NativeVal.noConfusion h2

theorem JSONShapedFields_nil : JSONShapedFields [] = True := by
  rw [JSONShapedFields]

end JSI

namespace JSI

theorem cycleRun (E : Env) (G : Heap) (wfG : EnvWF E G) (id0 : Nat)
    (o0 : Obj) (ho0 : G[id0]? = some o0)
    (hp0 : o0.protoId = some E.objectProto)
    (hne0 : id0 ≠ E.regexpProto) :
    ∀ (cells : List (Nat × String)) (stack : List Nat) (c0 f : Nat),
    Links E G id0 cells →
    stackIdx stack id0 = some c0 →
    (∀ c ∈ cells, stackIdx stack c.1 = none) →
    (cells.map Prod.fst).Nodup →
    (∀ c ∈ cells, c.1 ≠ E.regexpProto ∧ c.1 ≠ E.arrayProto) →
    pseudoToNative E (cells.length + 1 + f) G (.obj (nextId cells id0))
      stack = .ok (cycleTreeC c0 (cells.map Prod.snd)) := by
  intro cells
  induction cells with
  | nil =>
    intro stack c0 f _ hstk0 _ _ _
    have hGlen1 : 1 ≤ G.length := by have := wfG.ltO; omega
    have hisaR : isa E G (G.length + 1) (.obj id0) E.regexpCtor = false := by
      rw [show G.length + 1 = (G.length - 1) + 2 by omega]
      exact isa_protoO_false E G wfG (G.length - 1) id0 o0 E.regexpProto
        E.regexpCtor ho0 hp0 wfG.ctorRegexp hne0 (fun h => wfG.neRO h.symm)
    show pseudoToNative E (List.length [] + 1 + f) G (.obj id0) stack =
      .ok (cycleTreeC c0 [])
    rw [show List.length [] + 1 + f = f + 1 by simp; omega, cycleTreeC_nil]
    unfold pseudoToNative
    simp only [hisaR, Bool.false_eq_true, if_false, hstk0]
  | cons c rest ih =>
    intro stack c0 f hlinks hstk0 hnone hnd hrp
    obtain ⟨hGi, hrest⟩ := show (G[c.1]? =
        some { Obj.fresh (some E.objectProto) with
          props := [(c.2, PropData.plain (.obj (nextId rest id0)))] } ∧
        Links E G id0 rest) from hlinks
    have hGlen1 : 1 ≤ G.length := by have := wfG.ltO; omega
    have hneR : c.1 ≠ E.regexpProto := (hrp c (List.mem_cons_self c rest)).1
    have hneA : c.1 ≠ E.arrayProto := (hrp c (List.mem_cons_self c rest)).2
    have hisaR : isa E G (G.length + 1) (.obj c.1) E.regexpCtor = false := by
      rw [show G.length + 1 = (G.length - 1) + 2 by omega]
      exact isa_protoO_false E G wfG (G.length - 1) c.1
        { Obj.fresh (some E.objectProto) with
          props := [(c.2, PropData.plain (.obj (nextId rest id0)))] }
        E.regexpProto E.regexpCtor hGi rfl wfG.ctorRegexp hneR
        (fun h => wfG.neRO h.symm)
    have hisaA : isa E G (G.length + 1) (.obj c.1) E.arrayCtor = false := by
      rw [show G.length + 1 = (G.length - 1) + 2 by omega]
      exact isa_protoO_false E G wfG (G.length - 1) c.1
        { Obj.fresh (some E.objectProto) with
          props := [(c.2, PropData.plain (.obj (nextId rest id0)))] }
        E.arrayProto E.arrayCtor hGi rfl wfG.ctorArr hneA
        (fun h => wfG.neAO h.symm)
    have hstkc : stackIdx stack c.1 = none :=
      hnone c (List.mem_cons_self c rest)
    have hprops : ((G[c.1]?).map Obj.props).getD [] =
        [(c.2, PropData.plain (.obj (nextId rest id0)))] := by
      rw [hGi]
      rfl
    have hi0mem : c.1 ∉ rest.map Prod.fst :=
      (List.nodup_cons.mp
        (show (c.1 :: rest.map Prod.fst).Nodup from hnd)).1
    have hih := ih (stack ++ [c.1]) c0 f hrest
      (stackIdx_append_some [c.1] id0 stack c0 hstk0)
      (fun d hd => stackIdx_append_none [c.1] d.1 stack
        (hnone d (List.mem_cons_of_mem c hd))
        (stackIdx_none [c.1] d.1 (fun s hs => by
          have hsi : s = c.1 := by simpa using hs
          subst hsi
          intro he
          exact hi0mem (by
            rw [he]
            exact List.mem_map_of_mem Prod.fst hd))))
      ((List.nodup_cons.mp
        (show (c.1 :: rest.map Prod.fst).Nodup from hnd)).2)
      (fun d hd => hrp d (List.mem_cons_of_mem c hd))
    have hnilF : pseudoFields E (rest.length + 1 + f) G c.1 (stack ++ [c.1])
        [] = .ok [] := by
      unfold pseudoFields
      rfl
    have hfields : pseudoFields E (rest.length + 1 + f) G c.1
        (stack ++ [c.1])
        [(c.2, PropData.plain (.obj (nextId rest id0)))] =
        .ok [(c.2, cycleTreeC c0 (rest.map Prod.snd))] := by
      unfold pseudoFields
      rw [if_pos (by simp [PropData.plain])]
      simp only [PropData.plain, hih, hnilF]
    show pseudoToNative E (rest.length + 1 + 1 + f) G (.obj c.1) stack =
      .ok (cycleTreeC c0 (c.2 :: rest.map Prod.snd))
    rw [show rest.length + 1 + 1 + f = (rest.length + 1 + f) + 1 by omega,
      cycleTreeC_cons]
    unfold pseudoToNative
    simp only [hisaR, Bool.false_eq_true, if_false, hstkc, hisaA, hprops,
      hfields]

end JSI

namespace JSI

/-- C7: the conversion pair round-trips on JSON-shaped native values, and
simple guest heap cycles convert to cycle-containing native trees of the
same topology.  First conjunct: for every JSON-shaped `x`, lowering it
with `nativeToPseudo` and lifting the produced guest value back with
`pseudoToNative` (with any sufficient recursion budget) yields exactly
the structural image `toNTree x` of `x`.  Second conjunct: a guest cycle
of any length `n` (a chain of plain objects each holding the next in one
enumerable property, the last pointing back at the first) converts to a
native tree with a back-edge (`cycleT`) at depth exactly `n` aimed at the
cycle's root — so the output contains a cycle with the input's topology. -/
theorem claim_C7_roundtrip_and_cycles (E : Env) :
    (∀ (x : NativeVal) (strict : Bool) (H HB : Heap) (v : Value) (f : Nat),
      EnvWF E H → JSONShaped x →
      nativeToPseudo E strict H x = .ok (HB, v) →
      pseudoToNative E (nsize x + 1 + f) HB v [] = .ok (toNTree x)) ∧
    (∀ (G : Heap) (i0 : Nat) (k0 : String) (rest : List (Nat × String))
      (f : Nat),
      EnvWF E G →
      Links E G i0 ((i0, k0) :: rest) →
      (((i0, k0) :: rest).map Prod.fst).Nodup →
      (∀ c ∈ (i0, k0) :: rest, c.1 ≠ E.regexpProto ∧ c.1 ≠ E.arrayProto) →
      pseudoToNative E (((i0, k0) :: rest).length + 1 + f) G (.obj i0) [] =
        .ok (cycleTreeC 0 (k0 :: rest.map Prod.snd)) ∧
      hasCycleT (cycleTreeC 0 (k0 :: rest.map Prod.snd)) = true) := by
  constructor
  · intro x strict H HB v f wf hj heq
    obtain ⟨hlen, hframe, hconv⟩ :=
      roundTrip_all E (nsize x) x (Nat.le_refl _) hj strict H HB v wf heq
    exact hconv HB (envWF_frame E H HB wf hlen hframe) (fun j _ _ => rfl)
      [] (fun s hs => absurd hs (List.not_mem_nil s)) f
  · intro G i0 k0 rest f wfG hlinks hnd hrp
    obtain ⟨hGi, hrest⟩ := show (G[i0]? =
        some { Obj.fresh (some E.objectProto) with
          props := [(k0, PropData.plain (.obj (nextId rest i0)))] } ∧
        Links E G i0 rest) from hlinks
    have hGlen1 : 1 ≤ G.length := by have := wfG.ltO; omega
    have hneR : i0 ≠ E.regexpProto :=
      (hrp (i0, k0) (List.mem_cons_self (i0, k0) rest)).1
    have hneA : i0 ≠ E.arrayProto :=
      (hrp (i0, k0) (List.mem_cons_self (i0, k0) rest)).2
    have hisaR : isa E G (G.length + 1) (.obj i0) E.regexpCtor = false := by
      rw [show G.length + 1 = (G.length - 1) + 2 by omega]
      exact isa_protoO_false E G wfG (G.length - 1) i0
        { Obj.fresh (some E.objectProto) with
          props := [(k0, PropData.plain (.obj (nextId rest i0)))] }
        E.regexpProto E.regexpCtor hGi rfl wfG.ctorRegexp hneR
        (fun h => wfG.neRO h.symm)
    have hisaA : isa E G (G.length + 1) (.obj i0) E.arrayCtor = false := by
      rw [show G.length + 1 = (G.length - 1) + 2 by omega]
      exact isa_protoO_false E G wfG (G.length - 1) i0
        { Obj.fresh (some E.objectProto) with
          props := [(k0, PropData.plain (.obj (nextId rest i0)))] }
        E.arrayProto E.arrayCtor hGi rfl wfG.ctorArr hneA
        (fun h => wfG.neAO h.symm)
    have hprops : ((G[i0]?).map Obj.props).getD [] =
        [(k0, PropData.plain (.obj (nextId rest i0)))] := by
      rw [hGi]
      rfl
    have hi0mem : i0 ∉ rest.map Prod.fst :=
      (List.nodup_cons.mp
        (show (i0 :: rest.map Prod.fst).Nodup from hnd)).1
    have hih := cycleRun E G wfG i0
      { Obj.fresh (some E.objectProto) with
        props := [(k0, PropData.plain (.obj (nextId rest i0)))] }
      hGi rfl hneR rest [i0] 0 f hrest
      (by simp [stackIdx])
      (fun d hd => stackIdx_none [i0] d.1 (fun s hs => by
        have hsi : s = i0 := by simpa using hs
        subst hsi
        intro he
        exact hi0mem (by
          rw [he]
          exact List.mem_map_of_mem Prod.fst hd)))
      ((List.nodup_cons.mp
        (show (i0 :: rest.map Prod.fst).Nodup from hnd)).2)
      (fun d hd => hrp d (List.mem_cons_of_mem (i0, k0) hd))
    have hnilF : pseudoFields E (rest.length + 1 + f) G i0 ([] ++ [i0])
        [] = .ok [] := by
      unfold pseudoFields
      rfl
    have hfields : pseudoFields E (rest.length + 1 + f) G i0 ([] ++ [i0])
        [(k0, PropData.plain (.obj (nextId rest i0)))] =
        .ok [(k0, cycleTreeC 0 (rest.map Prod.snd))] := by
      unfold pseudoFields
      rw [if_pos (by simp [PropData.plain])]
      have hih2 : pseudoToNative E (rest.length + 1 + f) G
          (.obj (nextId rest i0)) ([] ++ [i0]) =
          .ok (cycleTreeC 0 (rest.map Prod.snd)) := by
        rw [show ([] : List Nat) ++ [i0] = [i0] from rfl]
        exact hih
      simp only [PropData.plain, hih2, hnilF]
    refine ⟨?_, hasCycleT_cycleTreeC 0 (k0 :: rest.map Prod.snd)⟩
    show pseudoToNative E (rest.length + 1 + 1 + f) G (.obj i0) [] =
      .ok (cycleTreeC 0 (k0 :: rest.map Prod.snd))
    rw [show rest.length + 1 + 1 + f = (rest.length + 1 + f) + 1 by omega,
      cycleTreeC_cons]
    unfold pseudoToNative
    simp only [hisaR, Bool.false_eq_true, if_false, hisaA, hprops, hfields]
    rfl

end JSI

namespace JSI

/-- C7 witness: the round-trip theorem applied to the native number 3 on
the bootstrap heap, and the cycle theorem applied to the concrete
two-object cycle 16 → 17 → 16 of `HC`. -/
theorem claim_C7_witness :
    pseudoToNative E0 (nsize (.numV 3) + 1 + 0) H0 (.num 3) [] =
      .ok (toNTree (.numV 3)) ∧
    (pseudoToNative E0 ([((16 : Nat), "a"), (17, "b")].length + 1 + 0) HC
        (.obj 16) [] =
      .ok (cycleTreeC 0 ("a" :: [((17 : Nat), "b")].map Prod.snd)) ∧
      hasCycleT (cycleTreeC 0 ("a" :: [((17 : Nat), "b")].map Prod.snd)) =
        true) :=
  ⟨(claim_C7_roundtrip_and_cycles E0).1 (.numV 3) false H0 H0 (.num 3) 0
    envWF0 (by rw [JSONShaped_num]; trivial) (by unfold nativeToPseudo; rfl),
   (claim_C7_roundtrip_and_cycles E0).2 HC 16 "a" [(17, "b")] 0
    (envWF_append E0 H0 [cycA, cycB] envWF0)
    (show (HC[(16 : Nat)]? = some { Obj.fresh (some E0.objectProto) with
        props := [("a", PropData.plain
          (.obj (nextId [((17 : Nat), "b")] 16)))] } ∧
      (HC[(17 : Nat)]? = some { Obj.fresh (some E0.objectProto) with
        props := [("b", PropData.plain (.obj (nextId [] 16)))] } ∧ True))
      from ⟨by decide, by decide, trivial⟩)
    (by decide) (by decide)⟩

end JSI
